import Mathlib

/-! The websocket hub of `app/web_hub.go`

A shallow embedding of the hub ("shard") event loop, the shard router and the
registry-wide connection counter, followed by the properties proved about them.

Modelling conventions

* A `*WebConn` is a pointer: it is represented by its identity `ConnId`, and the
  fields the hub reads or writes (`UserId`, the buffered channel `Send`) live in a
  heap `ConnId → WebConn`.
* A Go buffered channel is its buffer, its capacity and its closed flag.  A send on a
  closed channel panics; a `select` with a `default` branch takes the send when the
  buffer has room and the `default` branch otherwise.
* Calls into code that is not part of `web_hub.go` (`InvalidateCache`,
  `WebSocket.Close`, `SetStatusOffline`, the error log) are recorded, in order, in a
  list of `Effect`s.  `ShouldSendEvent` is a parameter.
* A slice is a window `arr[0 .. len)` on a backing array.  `for _, x := range s`
  evaluates `s` once: it runs over the indices `0 .. len(s)-1` of that snapshot and
  reads cell `i` of the backing array when it reaches it.

After the hub come, each in a namespace of its own, the email batching job of
`app/email_batching.go` (`EmailBatching`), `DeletePostFiles` and `CreateWebhookPost` of
`app/post.go` and `app/webhook.go` (`Posts`), and the upload paths and public links of
`app/file.go` and `api4/file.go` (`Files`).  A map is a function from keys to optional
values, ranged over in an order that is a parameter; a library function is modelled by
what its documentation says it returns.
-/

namespace WebHub

/-! ## Data model -/

/-- Identity of a `*WebConn` pointer. -/
abbrev ConnId := Nat

/-- A `*model.WebSocketEvent`: the event name read by `Publish` and the rest of the payload. -/
structure WebSocketEvent where
  Event : String
  Payload : Nat
deriving DecidableEq, Repr

/-- The buffered channel `WebConn.Send`. -/
structure SendChan where
  buf : List WebSocketEvent
  cap : Nat
  closed : Bool
deriving DecidableEq, Repr

/-- The fields of a `WebConn` that the hub uses. -/
structure WebConn where
  UserId : String
  Send : SendChan
deriving DecidableEq, Repr

/-- The heap of connections, indexed by pointer identity. -/
abbrev Heap := ConnId → WebConn

/-- Calls that leave the hub, in the order in which they are made. -/
inductive Effect where
  /-- the send `webCon.Send <- msg` was taken -/
  | enqueue (webCon : ConnId) (msg : WebSocketEvent)
  /-- the error log line of the broadcast eviction, with the user id it prints -/
  | logCannotSend (userId : String)
  /-- the call `close(webCon.Send)` -/
  | closeSend (webCon : ConnId)
  /-- the spawned call `go SetStatusOffline(userId, false)` -/
  | setStatusOffline (userId : String)
  /-- the call `webCon.InvalidateCache()` -/
  | invalidateCache (webCon : ConnId)
  /-- the call `webCon.WebSocket.Close()` -/
  | webSocketClose (webCon : ConnId)
  /-- the call `webConn.SendHello()` of `Hub.Register` -/
  | sendHello (webCon : ConnId)
  /-- a cache invalidation in the store (`Srv.Store`), with the method and its argument -/
  | storeInvalidate (method : String) (arg : String)
  /-- a line of the error log `l4g.Error(format, args...)` with integer arguments -/
  | logError (format : String) (args : List Int)
  /-- a line of the error log `l4g.Error` with one text argument -/
  | logErrorText (format : String) (text : String)
  /-- a line of the debug log `l4g.Debug(format, args...)` -/
  | logDebug (format : String) (args : List Int)
  /-- the call `metrics.IncrementWebsocketEvent(message.Event)` -/
  | incrementWebsocketEvent (event : String)
  /-- the call `einterfaces.GetClusterInterface().Publish(message)` -/
  | clusterPublish (message : Option WebSocketEvent)
deriving DecidableEq, Repr

/-- The struct `Hub`.  A channel is the list of the messages waiting in it. -/
structure Hub where
  connections : List ConnId
  connectionCount : Int
  connectionIndex : Int
  register : List ConnId
  unregister : List ConnId
  broadcast : List WebSocketEvent
  stop : List String
  invalidateUser : List String
  ExplicitStop : Bool
  goroutineId : Int
deriving DecidableEq, Repr

/-- The five kinds of message the event loop of `Hub.Start` selects on. -/
inductive Msg where
  | register (webCon : ConnId)
  | unregister (webCon : ConnId)
  | invalidateUser (userId : String)
  | broadcast (msg : WebSocketEvent)
  | stop (arg : String)
deriving DecidableEq, Repr

/-- How one pass through the `select` ends: the loop goes on, it panics, or it returns. -/
inductive LoopStatus where
  | running
  | panicked
  | stopped
deriving DecidableEq, Repr

/-- The outcome of handling one message. -/
structure Step where
  hub : Hub
  heap : Heap
  effects : List Effect
  status : LoopStatus

/-- Constructor `NewWebHub`: empty list, empty channels, `ExplicitStop` false. -/
def NewWebHub : Hub :=
  { connections := [], connectionCount := 0, connectionIndex := 0,
    register := [], unregister := [], broadcast := [], stop := [],
    invalidateUser := [], ExplicitStop := false, goroutineId := 0 }

/-! ## Shard router -/

/-- The bytes of a Go string (`[]byte(userId)`): its UTF-8 encoding. -/
def stringBytes (s : String) : List UInt8 :=
  s.data.flatMap String.utf8EncodeChar

/-- One step of `hash/fnv`'s 32-bit FNV-1a: xor the byte in, multiply by the prime, in `uint32`. -/
def fnv32aStep (hash : Nat) (b : UInt8) : Nat :=
  ((hash ^^^ b.toNat) * 16777619) % 2 ^ 32

/-- Result of `fnv.New32a()`, `Write(bytes)`, `Sum32()`. -/
def fnv32a (bytes : List UInt8) : Nat :=
  bytes.foldl fnv32aStep 2166136261

/-- The index computed by `GetHubForUserId`: `hash.Sum32() % uint32(len(hubs))`.
`none` is the run-time panic of an integer division by zero. -/
def hubIndexForUserId (hubs : List Hub) (userId : String) : Option Nat :=
  let n := hubs.length % 2 ^ 32
  if n = 0 then none else some (fnv32a (stringBytes userId) % n)

/-- Function `GetHubForUserId`: the hub `hubs[index]`; `none` is a panic. -/
def GetHubForUserId (hubs : List Hub) (userId : String) : Option Hub :=
  match hubIndexForUserId hubs userId with
  | none => none
  | some index => hubs[index]?

/-! ## Registry-wide counter -/

/-- Conversion of an integer to `int64` (two's complement wrap-around). -/
def wrapInt64 (x : Int) : Int :=
  (x + 2 ^ 63) % 2 ^ 64 - 2 ^ 63

/-- Function `TotalWebsocketConnections`: the sum of the hubs' `connectionCount`. -/
def TotalWebsocketConnections (hubs : List Hub) : Int :=
  hubs.foldl (fun count hub => wrapInt64 (count + hub.connectionCount)) 0

/-! ## The event loop of `Hub.Start` -/

/-- The two statements `h.connections[i] = h.connections[len(h.connections)-1]` and
`h.connections = h.connections[:len(h.connections)-1]` on the slice `arr[0 .. len)`:
the new backing array and the new length; `none` is an index out of range. -/
def swapWithLast (arr : List ConnId) (len i : Nat) : Option (List ConnId × Nat) :=
  if i < len then
    match arr[len - 1]? with
    | some last => some (arr.set i last, len - 1)
    | none => none
  else none

/-- Case `register`: append, then store the length in `connectionCount`. -/
def Hub.handleRegister (h : Hub) (heap : Heap) (webCon : ConnId) : Step :=
  let connections := h.connections ++ [webCon]
  { hub := { h with connections := connections,
                    connectionCount := (connections.length : Int) },
    heap := heap, effects := [], status := .running }

/-- The scan of case `unregister` over `h.connections` from index `i` on, carrying
`found` and `indexToDel` (`-1` while the connection has not been met). -/
def unregisterScan (heap : Heap) (webCon : ConnId) (userId : String) :
    List ConnId → Nat → Bool → Int → Bool × Int
  | [], _, found, indexToDel => (found, indexToDel)
  | webConCandidate :: rest, i, found, indexToDel =>
    if webConCandidate = webCon then
      unregisterScan heap webCon userId rest (i + 1) found (i : Int)
    else if userId = (heap webConCandidate).UserId then
      if indexToDel ≠ -1 then (true, indexToDel)
      else unregisterScan heap webCon userId rest (i + 1) true indexToDel
    else unregisterScan heap webCon userId rest (i + 1) found indexToDel

/-- Case `unregister`. -/
def Hub.handleUnregister (h : Hub) (heap : Heap) (webCon : ConnId) : Step :=
  let userId := (heap webCon).UserId
  let scan := unregisterScan heap webCon userId h.connections 0 false (-1)
  let found := scan.1
  let indexToDel := scan.2
  let removed : Option (List ConnId) :=
    if indexToDel ≠ -1 then
      (swapWithLast h.connections h.connections.length indexToDel.toNat).map
        (fun r => r.1.take r.2)
    else some h.connections
  match removed with
  | none => { hub := h, heap := heap, effects := [], status := .panicked }
  | some connections =>
    let h1 := { h with connections := connections }
    if userId.utf8ByteSize = 0 then
      { hub := h1, heap := heap, effects := [], status := .running }
    else if !found then
      { hub := h1, heap := heap, effects := [.setStatusOffline userId], status := .running }
    else
      { hub := h1, heap := heap, effects := [], status := .running }

/-- The loop of case `invalidateUser`. -/
def invalidateLoop (heap : Heap) (userId : String) : List ConnId → List Effect
  | [] => []
  | webCon :: rest =>
    if (heap webCon).UserId = userId then
      .invalidateCache webCon :: invalidateLoop heap userId rest
    else invalidateLoop heap userId rest

/-- Case `invalidateUser`. -/
def Hub.handleInvalidateUser (h : Hub) (heap : Heap) (userId : String) : Step :=
  { hub := h, heap := heap, effects := invalidateLoop heap userId h.connections,
    status := .running }

/-- The state of the broadcast loop: the backing array of `h.connections`, the current
`len(h.connections)`, the heap and the effects so far. -/
structure BcastState where
  arr : List ConnId
  len : Nat
  heap : Heap
  effects : List Effect

/-- The slice `h.connections` in a state of the broadcast loop. -/
def BcastState.connections (s : BcastState) : List ConnId :=
  s.arr.take s.len

/-- The inner loop of the eviction: range over `h.connections`, and at the first
candidate equal to `webCon` swap it with the last element, shorten the slice and break. -/
def evictLoop (webCon : ConnId) (s : BcastState) :
    List ConnId → Nat → Option BcastState
  | [], _ => some s
  | webConCandidate :: rest, i =>
    if webConCandidate = webCon then
      match swapWithLast s.arr s.len i with
      | some r => some { s with arr := r.1, len := r.2 }
      | none => none
    else evictLoop webCon s rest (i + 1)

/-- Append to the buffer of a channel. -/
def SendChan.push (ch : SendChan) (msg : WebSocketEvent) : SendChan :=
  { ch with buf := ch.buf ++ [msg] }

/-- The body of the broadcast loop at index `i` of the range snapshot.
`Except.error` is a panic, with the state at that moment. -/
def broadcastBody (ShouldSendEvent : ConnId → WebSocketEvent → Bool) (msg : WebSocketEvent)
    (i : Nat) (s : BcastState) : Except BcastState BcastState :=
  match s.arr[i]? with
  | none => .error s
  | some webCon =>
    if ShouldSendEvent webCon msg then
      let conn := s.heap webCon
      if conn.Send.closed then .error s
      else if conn.Send.buf.length < conn.Send.cap then
        .ok { s with
              heap := Function.update s.heap webCon { conn with Send := conn.Send.push msg },
              effects := s.effects ++ [.enqueue webCon msg] }
      else
        let s1 : BcastState :=
          { s with
            heap := Function.update s.heap webCon
              { conn with Send := { conn.Send with closed := true } },
            effects := s.effects ++ [.logCannotSend conn.UserId, .closeSend webCon] }
        match evictLoop webCon s1 s1.connections 0 with
        | some s2 => .ok s2
        | none => .error s1
    else .ok s

/-- The broadcast loop: `count` more iterations, starting at index `i`. -/
def broadcastLoop (ShouldSendEvent : ConnId → WebSocketEvent → Bool) (msg : WebSocketEvent) :
    Nat → Nat → BcastState → Except BcastState BcastState
  | 0, _, s => .ok s
  | count + 1, i, s =>
    match broadcastBody ShouldSendEvent msg i s with
    | .error s1 => .error s1
    | .ok s1 => broadcastLoop ShouldSendEvent msg count (i + 1) s1

/-- Case `broadcast`: the range loop over the snapshot of `h.connections`. -/
def Hub.handleBroadcast (ShouldSendEvent : ConnId → WebSocketEvent → Bool)
    (h : Hub) (heap : Heap) (msg : WebSocketEvent) : Step :=
  let s0 : BcastState :=
    { arr := h.connections, len := h.connections.length, heap := heap, effects := [] }
  match broadcastLoop ShouldSendEvent msg h.connections.length 0 s0 with
  | .ok s =>
    { hub := { h with connections := s.connections }, heap := s.heap,
      effects := s.effects, status := .running }
  | .error s =>
    { hub := { h with connections := s.connections }, heap := s.heap,
      effects := s.effects, status := .panicked }

/-- Case `stop`: close every transport, set `ExplicitStop`, return. -/
def Hub.handleStop (h : Hub) (heap : Heap) : Step :=
  { hub := { h with ExplicitStop := true }, heap := heap,
    effects := h.connections.map Effect.webSocketClose, status := .stopped }

/-- One pass through the `select` of the event loop, for the message received. -/
def Hub.step (ShouldSendEvent : ConnId → WebSocketEvent → Bool)
    (h : Hub) (heap : Heap) : Msg → Step
  | .register webCon => h.handleRegister heap webCon
  | .unregister webCon => h.handleUnregister heap webCon
  | .invalidateUser userId => h.handleInvalidateUser heap userId
  | .broadcast msg => h.handleBroadcast ShouldSendEvent heap msg
  | .stop _ => h.handleStop heap

/-- The loop on a sequence of received messages, under `doRecoverableStart`: after a
panic `doRecover` starts the loop again on the same hub unless `ExplicitStop` is set;
after `stop` the loop has returned and nothing more is received. -/
def Hub.run (ShouldSendEvent : ConnId → WebSocketEvent → Bool) :
    List Msg → Hub → Heap → Step
  | [], h, heap => { hub := h, heap := heap, effects := [], status := .running }
  | m :: ms, h, heap =>
    let r := h.step ShouldSendEvent heap m
    match r.status with
    | .stopped => r
    | .panicked =>
      if r.hub.ExplicitStop then r
      else
        let r1 := Hub.run ShouldSendEvent ms r.hub r.heap
        { r1 with effects := r.effects ++ r1.effects }
    | .running =>
      let r1 := Hub.run ShouldSendEvent ms r.hub r.heap
      { r1 with effects := r.effects ++ r1.effects }

/-! ## The entry points that route by user id, and the registry as a whole -/

/-- Method `Hub.Register`: send on `h.register`; then `SendHello` if the connection is
authenticated (`IsAuthenticated` is a parameter). -/
def Hub.Register (IsAuthenticated : ConnId → Bool) (h : Hub) (webConn : ConnId) :
    Hub × List Effect :=
  ({ h with register := h.register ++ [webConn] },
    if IsAuthenticated webConn then [.sendHello webConn] else [])

/-- Method `Hub.Unregister`: send on `h.unregister`. -/
def Hub.Unregister (h : Hub) (webConn : ConnId) : Hub :=
  { h with unregister := h.unregister ++ [webConn] }

/-- Method `Hub.InvalidateUser`: send on `h.invalidateUser`. -/
def Hub.InvalidateUser (h : Hub) (userId : String) : Hub :=
  { h with invalidateUser := h.invalidateUser ++ [userId] }

/-- Function `HubRegister`; `none` is a panic of `GetHubForUserId`. -/
def HubRegister (IsAuthenticated : ConnId → Bool) (hubs : List Hub) (heap : Heap)
    (webConn : ConnId) : Option (List Hub × List Effect) :=
  match hubIndexForUserId hubs (heap webConn).UserId with
  | none => none
  | some index =>
    match hubs[index]? with
    | none => none
    | some hub =>
      some (hubs.set index (hub.Register IsAuthenticated webConn).1,
        (hub.Register IsAuthenticated webConn).2)

/-- Function `HubUnregister`; `none` is a panic of `GetHubForUserId`. -/
def HubUnregister (hubs : List Hub) (heap : Heap) (webConn : ConnId) :
    Option (List Hub × List Effect) :=
  match hubIndexForUserId hubs (heap webConn).UserId with
  | none => none
  | some index =>
    match hubs[index]? with
    | none => none
    | some hub => some (hubs.set index (hub.Unregister webConn), [])

/-- Function `InvalidateWebConnSessionCacheForUser`: nothing when there are no hubs. -/
def InvalidateWebConnSessionCacheForUser (hubs : List Hub) (userId : String) :
    Option (List Hub × List Effect) :=
  if hubs.length ≠ 0 then
    match hubIndexForUserId hubs userId with
    | none => none
    | some index =>
      match hubs[index]? with
      | none => none
      | some hub => some (hubs.set index (hub.InvalidateUser userId), [])
  else some (hubs, [])

/-- Function `InvalidateCacheForUserSkipClusterSend`: the three store invalidations,
then the same routing as `InvalidateWebConnSessionCacheForUser`. -/
def InvalidateCacheForUserSkipClusterSend (hubs : List Hub) (userId : String) :
    Option (List Hub × List Effect) :=
  let store : List Effect :=
    [.storeInvalidate "Channel.InvalidateAllChannelMembersForUser" userId,
     .storeInvalidate "User.InvalidateProfilesInChannelCacheByUser" userId,
     .storeInvalidate "User.InvalidatProfileCacheForUser" userId]
  if hubs.length ≠ 0 then
    match hubIndexForUserId hubs userId with
    | none => none
    | some index =>
      match hubs[index]? with
      | none => none
      | some hub => some (hubs.set index (hub.InvalidateUser userId), store)
  else some (hubs, store)

/-- The five channels of a hub. -/
inductive Chan where
  | register
  | unregister
  | invalidateUser
  | broadcast
  | stop
deriving DecidableEq, Repr

/-- The receive of the `select`: the first message waiting in the channel, taken out. -/
def Hub.receive (h : Hub) : Chan → Option (Msg × Hub)
  | .register =>
    match h.register with
    | [] => none
    | webCon :: rest => some (.register webCon, { h with register := rest })
  | .unregister =>
    match h.unregister with
    | [] => none
    | webCon :: rest => some (.unregister webCon, { h with unregister := rest })
  | .invalidateUser =>
    match h.invalidateUser with
    | [] => none
    | userId :: rest => some (.invalidateUser userId, { h with invalidateUser := rest })
  | .broadcast =>
    match h.broadcast with
    | [] => none
    | msg :: rest => some (.broadcast msg, { h with broadcast := rest })
  | .stop =>
    match h.stop with
    | [] => none
    | arg :: rest => some (.stop arg, { h with stop := rest })

/-- The process-wide state: the global `hubs` and the heap of connections. -/
structure Registry where
  hubs : List Hub
  heap : Heap

/-- What can happen to the registry: a call of one of the routed entry points, or the
loop of hub `index` receiving from one of its channels and handling the message. -/
inductive Action where
  | hubRegister (webConn : ConnId)
  | hubUnregister (webConn : ConnId)
  | invalidateWebConnSessionCacheForUser (userId : String)
  | invalidateCacheForUserSkipClusterSend (userId : String)
  | loopReceives (index : Nat) (chan : Chan)
deriving DecidableEq, Repr

/-- One action on the registry; `none` when it panics in the caller or is not enabled
(no such hub, loop stopped, nothing waiting in the channel). -/
def Registry.act (ShouldSendEvent : ConnId → WebSocketEvent → Bool)
    (IsAuthenticated : ConnId → Bool) (w : Registry) : Action → Option (Registry × List Effect)
  | .hubRegister webConn =>
    (HubRegister IsAuthenticated w.hubs w.heap webConn).map
      (fun r => ({ w with hubs := r.1 }, r.2))
  | .hubUnregister webConn =>
    (HubUnregister w.hubs w.heap webConn).map (fun r => ({ w with hubs := r.1 }, r.2))
  | .invalidateWebConnSessionCacheForUser userId =>
    (InvalidateWebConnSessionCacheForUser w.hubs userId).map
      (fun r => ({ w with hubs := r.1 }, r.2))
  | .invalidateCacheForUserSkipClusterSend userId =>
    (InvalidateCacheForUserSkipClusterSend w.hubs userId).map
      (fun r => ({ w with hubs := r.1 }, r.2))
  | .loopReceives index chan =>
    match w.hubs[index]? with
    | none => none
    | some hub =>
      if hub.ExplicitStop then none
      else
        match hub.receive chan with
        | none => none
        | some (m, hub1) =>
          some ({ hubs := w.hubs.set index (hub1.step ShouldSendEvent w.heap m).hub,
                  heap := (hub1.step ShouldSendEvent w.heap m).heap },
                (hub1.step ShouldSendEvent w.heap m).effects)

/-- A sequence of actions, each enabled in turn. -/
def Registry.exec (ShouldSendEvent : ConnId → WebSocketEvent → Bool)
    (IsAuthenticated : ConnId → Bool) : List Action → Registry → Option Registry
  | [], w => some w
  | a :: rest, w =>
    match w.act ShouldSendEvent IsAuthenticated a with
    | none => none
    | some r => Registry.exec ShouldSendEvent IsAuthenticated rest r.1

/-- Every connection held by a hub, in its list or waiting in its `register` channel, is
held by the hub that `GetHubForUserId` gives for its `UserId`. -/
def Registry.Routed (w : Registry) : Prop :=
  ∀ (index : Nat) (hub : Hub), w.hubs[index]? = some hub →
    ∀ c, c ∈ hub.connections ∨ c ∈ hub.register →
      hubIndexForUserId w.hubs (w.heap c).UserId = some index

/-! ## One connection's share of a broadcast

The part of the body of the broadcast loop that concerns the visited connection alone,
used to state what the loop does as a whole. -/

/-- The connection is in scope and the non-blocking send finds its buffer full. -/
def isEvicted (ShouldSendEvent : ConnId → WebSocketEvent → Bool) (msg : WebSocketEvent)
    (webCon : ConnId) (conn : WebConn) : Bool :=
  ShouldSendEvent webCon msg && decide (conn.Send.cap ≤ conn.Send.buf.length)

/-- The visited connection after the `select`: `msg` appended, or the channel closed. -/
def broadcastOne (ShouldSendEvent : ConnId → WebSocketEvent → Bool) (msg : WebSocketEvent)
    (webCon : ConnId) (conn : WebConn) : WebConn :=
  if ShouldSendEvent webCon msg then
    if conn.Send.buf.length < conn.Send.cap then { conn with Send := conn.Send.push msg }
    else { conn with Send := { conn.Send with closed := true } }
  else conn

/-- The effects of the `select` on the visited connection. -/
def broadcastOneEffects (ShouldSendEvent : ConnId → WebSocketEvent → Bool)
    (msg : WebSocketEvent) (webCon : ConnId) (conn : WebConn) : List Effect :=
  if ShouldSendEvent webCon msg then
    if conn.Send.buf.length < conn.Send.cap then [.enqueue webCon msg]
    else [.logCannotSend conn.UserId, .closeSend webCon]
  else []

/-- The invariant of the broadcast loop before index `i`, on a list `L` without
duplicates whose channels are open, started in heap `heap0`. -/
structure BcastInv (ShouldSendEvent : ConnId → WebSocketEvent → Bool) (msg : WebSocketEvent)
    (L : List ConnId) (heap0 : Heap) (i : Nat) (s : BcastState) : Prop where
  length_arr : s.arr.length = L.length
  len_le : s.len ≤ L.length
  drop_eq : s.arr.drop i = L.drop i
  perm : List.Perm s.connections
    ((L.take i).filter (fun c => !isEvicted ShouldSendEvent msg c (heap0 c)) ++ L.drop i)
  heap_eq : ∀ c, s.heap c
    = if c ∈ L.take i then broadcastOne ShouldSendEvent msg c (heap0 c) else heap0 c
  effects_eq : s.effects
    = (L.take i).flatMap (fun c => broadcastOneEffects ShouldSendEvent msg c (heap0 c))

/-- What every run of the broadcast loop respects, from state `s` to state `s1`, whether
it ends normally or in a panic. -/
structure BcastFrame (ShouldSendEvent : ConnId → WebSocketEvent → Bool) (msg : WebSocketEvent)
    (s s1 : BcastState) : Prop where
  len_le : s1.len ≤ s1.arr.length
  arr_sub : ∀ x ∈ s1.arr, x ∈ s.arr
  conn_sub : ∀ x ∈ s1.connections, x ∈ s.connections
  heap_out : ∀ c, c ∉ s.arr → s1.heap c = s.heap c
  heap_skip : ∀ c, ShouldSendEvent c msg = false → s1.heap c = s.heap c
  userId : ∀ c, (s1.heap c).UserId = (s.heap c).UserId
  count_skip : ∀ c, ShouldSendEvent c msg = false →
    s1.connections.count c = s.connections.count c
  offline : ∀ u, s1.effects.count (.setStatusOffline u) = s.effects.count (.setStatusOffline u)
  enqueue_out : ∀ c m, c ∉ s.arr →
    s1.effects.count (.enqueue c m) = s.effects.count (.enqueue c m)
  count_le : ∀ c, s1.connections.count c ≤ s.connections.count c

/-- The state in which an iteration or a loop ends, normally or not. -/
def endState : Except BcastState BcastState → BcastState
  | .ok s => s
  | .error s => s

/-! ## Messages about one user -/

/-- The connections of user `u` that `ms` unregisters, in the order of the messages
(`uid` gives the `UserId` of a connection). -/
def unregisteredOf (uid : ConnId → String) (u : String) : List Msg → List ConnId
  | [] => []
  | .unregister webCon :: ms =>
    if uid webCon = u then webCon :: unregisteredOf uid u ms else unregisteredOf uid u ms
  | _ :: ms => unregisteredOf uid u ms

/-- The message neither adds a connection of user `u` to the list nor lets a broadcast
reach one, and does not stop the loop: a `Register` of another user's connection, any
`Unregister` or `InvalidateUser`, or a `Broadcast` out of scope for every connection of
`u`. -/
def Msg.leavesUser (ShouldSendEvent : ConnId → WebSocketEvent → Bool)
    (uid : ConnId → String) (u : String) : Msg → Prop
  | .register webCon => uid webCon ≠ u
  | .unregister _ => True
  | .invalidateUser _ => True
  | .broadcast msg => ∀ c, uid c = u → ShouldSendEvent c msg = false
  | .stop _ => False

/-! ## A concrete shard

The shard of the scenarios: `connA` (pointer 0) and `connB` (pointer 1) belong to user
`U1`, `connC` (pointer 2) to user `U2`; the queues have capacity 2 and the queue of
`connA` is full. -/

/-- The event that is published. -/
def scenarioEvent : WebSocketEvent := { Event := "posted", Payload := 1 }

/-- The connections of the scenario. -/
def scenarioHeap : Heap := fun c =>
  if c = 0 then
    { UserId := "U1", Send := { buf := [scenarioEvent, scenarioEvent], cap := 2, closed := false } }
  else if c = 1 then
    { UserId := "U1", Send := { buf := [], cap := 2, closed := false } }
  else
    { UserId := "U2", Send := { buf := [], cap := 2, closed := false } }

/-- The shard of the scenario, with the three connections registered. -/
def scenarioHub : Hub := { NewWebHub with connections := [0, 1, 2], connectionCount := 3 }

/-- The event is in scope for the connections of `U1` only. -/
def scenarioScope : ConnId → WebSocketEvent → Bool := fun c _ => c != 2

/-! ## The supervisor of `Hub.Start` -/

/-- How a run of `doStart` ends: it returns, or it panics with a value. -/
inductive LoopEnd where
  | returned
  | panicked (value : String)
deriving DecidableEq, Repr

/-- What becomes of the goroutine of `doRecoverableStart` in the deferred `doRecover`:
a new one is launched (`go doRecoverableStart()`), it just ends, or the panic, not
recovered, goes on. -/
inductive Supervision where
  | relaunched
  | ended
  | crashed
deriving DecidableEq, Repr

/-- The deferred function `doRecover`, for the hub as it stands when `doStart` ends:
unless `ExplicitStop` is set it recovers, logs (`stack` is the text of `debug.Stack()`)
and launches the loop again. -/
def doRecover (stack : String) (h : Hub) (how : LoopEnd) : Supervision × List Effect :=
  if !h.ExplicitStop then
    (.relaunched,
      [match how with
        | .panicked value => .logErrorText "Recovering from Hub panic. Panic was: %v" value
        | .returned => .logError "Webhub stopped unexpectedly. Recovering." [],
       .logErrorText "%s" stack])
  else
    match how with
    | .returned => (.ended, [])
    | .panicked _ => (.crashed, [])

/-- The first statements of `doStart`: store the id of the goroutine (the result of
`getGoroutineId`, a parameter) and log it. -/
def doStartEnter (goroutineId : Int) (h : Hub) : Hub × List Effect :=
  ({ h with goroutineId := goroutineId },
    [.logDebug "Hub for index %v is starting with goroutine %v"
      [h.connectionIndex, goroutineId]])

/-- What the run-time supplies to the supervisor: the id of the next goroutine, the text
of the stack trace and the text of the panic value. -/
structure Runtime where
  goroutineId : Int
  stack : String
  panicValue : String

/-- A hub together with the heap and with whether a goroutine is running its loop. -/
structure Shard where
  hub : Hub
  heap : Heap
  alive : Bool

/-- Method `Hub.Start`: launch `doRecoverableStart`. -/
def Hub.Start (rt : Runtime) (h : Hub) (heap : Heap) : Shard × List Effect :=
  ({ hub := (doStartEnter rt.goroutineId h).1, heap := heap, alive := true },
    (doStartEnter rt.goroutineId h).2)

/-- The end of `doStart` under `doRecoverableStart`, after the step `r`: `doRecover`
runs, and a relaunched loop enters `doStart` again on the same hub. -/
def superviseEnd (rt : Runtime) (r : Step) (how : LoopEnd) : Shard × List Effect :=
  match (doRecover rt.stack r.hub how).1 with
  | .relaunched =>
    ({ hub := (doStartEnter rt.goroutineId r.hub).1, heap := r.heap, alive := true },
      r.effects ++ (doRecover rt.stack r.hub how).2 ++ (doStartEnter rt.goroutineId r.hub).2)
  | .ended =>
    ({ hub := r.hub, heap := r.heap, alive := false },
      r.effects ++ (doRecover rt.stack r.hub how).2)
  | .crashed =>
    ({ hub := r.hub, heap := r.heap, alive := false },
      r.effects ++ (doRecover rt.stack r.hub how).2)

/-- One message sent to a shard: a loop that is alive receives and handles it, and the
supervisor acts if the loop ends; when no loop is alive nothing receives the message. -/
def Shard.handle (ShouldSendEvent : ConnId → WebSocketEvent → Bool) (rt : Runtime)
    (s : Shard) (m : Msg) : Shard × List Effect :=
  if s.alive then
    match (s.hub.step ShouldSendEvent s.heap m).status with
    | .running =>
      ({ hub := (s.hub.step ShouldSendEvent s.heap m).hub,
         heap := (s.hub.step ShouldSendEvent s.heap m).heap, alive := true },
        (s.hub.step ShouldSendEvent s.heap m).effects)
    | .stopped => superviseEnd rt (s.hub.step ShouldSendEvent s.heap m) .returned
    | .panicked =>
      superviseEnd rt (s.hub.step ShouldSendEvent s.heap m) (.panicked rt.panicValue)
  else (s, [])

/-- A sequence of messages sent to a shard, one after the other. -/
def Shard.handleAll (ShouldSendEvent : ConnId → WebSocketEvent → Bool) (rt : Runtime) :
    List Msg → Shard → Shard × List Effect
  | [], s => (s, [])
  | m :: ms, s =>
    ((Shard.handleAll ShouldSendEvent rt ms (s.handle ShouldSendEvent rt m).1).1,
      (s.handle ShouldSendEvent rt m).2 ++
        (Shard.handleAll ShouldSendEvent rt ms (s.handle ShouldSendEvent rt m).1).2)

/-- Whether every `Register` handled in the run of `ms` is for a connection that is not
in the list at that moment (the run goes on as in `Hub.run`). -/
def registersAbsent (ShouldSendEvent : ConnId → WebSocketEvent → Bool) :
    List Msg → Hub → Heap → Bool
  | [], _, _ => true
  | m :: ms, h, heap =>
    (match m with
      | .register webCon => !h.connections.contains webCon
      | _ => true) &&
    match (h.step ShouldSendEvent heap m).status with
    | .stopped => true
    | .panicked =>
      if (h.step ShouldSendEvent heap m).hub.ExplicitStop then true
      else registersAbsent ShouldSendEvent ms (h.step ShouldSendEvent heap m).hub
        (h.step ShouldSendEvent heap m).heap
    | .running =>
      registersAbsent ShouldSendEvent ms (h.step ShouldSendEvent heap m).hub
        (h.step ShouldSendEvent heap m).heap

/-! ## The global hub list: `HubStart`, `HubStop`, the watchdog -/

/-- Constant `BROADCAST_QUEUE_SIZE`. -/
def BROADCAST_QUEUE_SIZE : Nat := 4096

/-- Constant `DEADLOCK_WARN`: `(BROADCAST_QUEUE_SIZE * 99) / 100`, an integer division. -/
def DEADLOCK_WARN : Nat := (BROADCAST_QUEUE_SIZE * 99) / 100

/-- The global `hubs` as declared: `make([]*Hub, 0)`. -/
def initialHubs : List Hub := []

/-- Function `HubStart`, the new value of `hubs`: `runtime.NumCPU()*2` new hubs, hub `i`
with `connectionIndex = i` (`numCPU` is the result of `runtime.NumCPU()`). -/
def HubStart (numCPU : Nat) : List Hub :=
  (List.range (numCPU * 2)).map
    (fun (i : Nat) => { NewWebHub with connectionIndex := Int.ofNat i })

/-- Function `HubStop`: `"all"` is sent on the `stop` channel of every hub, then `hubs`
is `make([]*Hub, 0)`.  The new value of `hubs`, and the hubs it held. -/
def HubStop (hubs : List Hub) : List Hub × List Hub :=
  ([], hubs.map (fun h => { h with stop := h.stop ++ ["all"] }))

/-- A call that replaces the global `hubs`. -/
inductive Lifecycle where
  | hubStart (numCPU : Nat)
  | hubStop
deriving DecidableEq, Repr

/-- The value of the global `hubs` after a sequence of `HubStart` and `HubStop` calls. -/
def hubsAfter : List Lifecycle → List Hub → List Hub
  | [], hubs => hubs
  | .hubStart numCPU :: rest, _ => hubsAfter rest (HubStart numCPU)
  | .hubStop :: rest, hubs => hubsAfter rest (HubStop hubs).1

/-- The trace lines of the watchdog: one for each part of the stack dump in which the
text of the goroutine id occurs (`mentions part id` is
`strings.Index(part, fmt.Sprintf("%v", id)) > -1`). -/
def traceLogs (mentions : String → Int → Bool) (goroutineId : Int) : List String → List Effect
  | [] => []
  | part :: rest =>
    if mentions part goroutineId then
      .logErrorText "Trace for possible deadlock goroutine %v" part ::
        traceLogs mentions goroutineId rest
    else traceLogs mentions goroutineId rest

/-- The body of the ticker branch of the watchdog for one hub: the hub as the body
leaves it, and the log lines (`stackParts` gives, for the hub's index, the stack dump
split on `"goroutine "`). -/
def watchdogHub (stackParts : Int → List String) (mentions : String → Int → Bool)
    (hub : Hub) : Hub × List Effect :=
  if hub.broadcast.length ≥ DEADLOCK_WARN then
    (hub,
      .logError
        "Hub processing might be deadlock on hub %v goroutine %v with %v events in the buffer"
        [hub.connectionIndex, hub.goroutineId, (hub.broadcast.length : Int)] ::
      traceLogs mentions hub.goroutineId (stackParts hub.connectionIndex))
  else (hub, [])

/-- One tick of the watchdog: the ticker branch, ranging over `hubs`. -/
def watchdogTick (stackParts : Int → List String) (mentions : String → Int → Bool) :
    List Hub → List Hub × List Effect
  | [] => ([], [])
  | hub :: rest =>
    ((watchdogHub stackParts mentions hub).1 :: (watchdogTick stackParts mentions rest).1,
      (watchdogHub stackParts mentions hub).2 ++ (watchdogTick stackParts mentions rest).2)

/-- The effect is a line of a log. -/
def Effect.isLog : Effect → Bool
  | .logError _ _ => true
  | .logErrorText _ _ => true
  | .logDebug _ _ => true
  | .logCannotSend _ => true
  | _ => false

/-! ## The publisher -/

/-- Method `Hub.Broadcast`: nothing for a nil message, otherwise a send on the buffered
channel `h.broadcast`; `none` when the buffer is full and the send blocks. -/
def Hub.Broadcast (h : Hub) (message : Option WebSocketEvent) : Option Hub :=
  match message with
  | none => some h
  | some msg =>
    if h.broadcast.length < BROADCAST_QUEUE_SIZE then
      some { h with broadcast := h.broadcast ++ [msg] }
    else none

/-- The loop `for _, hub := range hubs { hub.Broadcast(message) }`: the hubs as the loop
leaves them, and whether it reached the end (`false`: it is blocked in a send). -/
def broadcastAll (message : Option WebSocketEvent) : List Hub → List Hub × Bool
  | [] => ([], true)
  | hub :: rest =>
    match hub.Broadcast message with
    | none => (hub :: rest, false)
    | some hub1 => (hub1 :: (broadcastAll message rest).1, (broadcastAll message rest).2)

/-- How a call ends: it returns, it is blocked in a channel send, or it panics. -/
inductive CallEnd where
  | returned
  | blocked
  | panicked
deriving DecidableEq, Repr

/-- The outcome of `Publish` and `PublishSkipClusterSend`. -/
structure PublishResult where
  hubs : List Hub
  effects : List Effect
  status : CallEnd
deriving DecidableEq, Repr

/-- Function `Publish` (`metrics`, `cluster`: whether `GetMetricsInterface()` and
`GetClusterInterface()` are non-nil).  With a metrics interface a nil message panics
in `message.Event`. -/
def Publish (metrics cluster : Bool) (hubs : List Hub) (message : Option WebSocketEvent) :
    PublishResult :=
  match metrics, message with
  | true, none => { hubs := hubs, effects := [], status := .panicked }
  | _, _ =>
    let counted : List Effect :=
      match metrics, message with
      | true, some msg => [.incrementWebsocketEvent msg.Event]
      | _, _ => []
    if (broadcastAll message hubs).2 then
      { hubs := (broadcastAll message hubs).1,
        effects := counted ++ (if cluster then [.clusterPublish message] else []),
        status := .returned }
    else
      { hubs := (broadcastAll message hubs).1, effects := counted, status := .blocked }

/-- Function `PublishSkipClusterSend`. -/
def PublishSkipClusterSend (hubs : List Hub) (message : Option WebSocketEvent) :
    PublishResult :=
  if (broadcastAll message hubs).2 then
    { hubs := (broadcastAll message hubs).1, effects := [], status := .returned }
  else
    { hubs := (broadcastAll message hubs).1, effects := [], status := .blocked }

/-- Modelled from the spec: `PublishSkipClusterSend` as the claim words it, the outcome
of `Publish` with the calls of the cluster interface's `Publish` left out. -/
def specPublishSkipClusterSend (metrics cluster : Bool) (hubs : List Hub)
    (message : Option WebSocketEvent) : PublishResult :=
  { hubs := (Publish metrics cluster hubs message).hubs,
    effects := (Publish metrics cluster hubs message).effects.filter
      (fun e => match e with
        | .clusterPublish _ => false
        | _ => true),
    status := (Publish metrics cluster hubs message).status }

/-! ## A shard with a closed channel in its list -/

/-- The shard of the scenario after `connA`, evicted by a broadcast, has been registered
again, followed by `connB`. -/
def scenarioReRegistered : Step :=
  Hub.run scenarioScope [.register 0, .broadcast scenarioEvent, .register 0, .register 1]
    NewWebHub scenarioHeap

/-- What the run-time supplies in the scenario. -/
def scenarioRuntime : Runtime :=
  { goroutineId := 42, stack := "goroutine 42 [running]",
    panicValue := "send on closed channel" }

end WebHub

/-! # The email batching job of `app/email_batching.go` -/

namespace EmailBatching

/-- The fields of `model.Post` that `email_batching.go` and its test use; a post pointer
is taken to be non-nil. -/
structure Post where
  UserId : String
  Message : String
  CreateAt : Int
deriving DecidableEq, Repr

/-- The struct `batchedNotification`. -/
structure batchedNotification where
  userId : String
  post : Post
  teamName : String
deriving DecidableEq, Repr

/-- A map `map[string][]*batchedNotification`: `none` for a key that is not in the map. -/
abbrev Pending := String → Option (List batchedNotification)

/-- The assignment `pending[userId] = notifications`. -/
def Pending.set (pending : Pending) (userId : String)
    (notifications : List batchedNotification) : Pending :=
  fun u => if u = userId then some notifications else pending u

/-- The statement `delete(pending, userId)`. -/
def Pending.delete (pending : Pending) (userId : String) : Pending :=
  fun u => if u = userId then none else pending u

/-- The struct `EmailBatchingJob`: the buffered channel `newNotifications` is the list of
the notifications waiting in it, with its capacity `bufferSize`. -/
structure EmailBatchingJob where
  newNotifications : List batchedNotification
  bufferSize : Nat
  pendingNotifications : Pending

/-- The loop of `handleNewNotifications` on the channel contents and the map: receive
until the channel is empty; what is left in the channel, and the map. -/
def receiveAll : List batchedNotification → Pending → List batchedNotification × Pending
  | [], pending => ([], pending)
  | notification :: queue, pending =>
    receiveAll queue
      (match pending notification.userId with
        | none => pending.set notification.userId [notification]
        | some notifications =>
          pending.set notification.userId (notifications ++ [notification]))

/-- Method `handleNewNotifications`. -/
def EmailBatchingJob.handleNewNotifications (job : EmailBatchingJob) : EmailBatchingJob :=
  { job with
    newNotifications := (receiveAll job.newNotifications job.pendingNotifications).1,
    pendingNotifications := (receiveAll job.newNotifications job.pendingNotifications).2 }

/-- The value of a decimal digit. -/
def digitValue (c : Char) : Option Nat :=
  if 48 ≤ c.toNat ∧ c.toNat ≤ 57 then some (c.toNat - 48) else none

/-- The number written by a sequence of decimal digits, after `n`; `none` when a
character is not a digit. -/
def parseDigits : List Char → Nat → Option Nat
  | [], n => some n
  | c :: cs, n =>
    match digitValue c with
    | none => none
    | some d => parseDigits cs (n * 10 + d)

/-- Library function `strconv.ParseInt(s, 10, 64)`: the value and whether `err != nil`.
A syntax error gives 0, a range error the nearest `int64`. -/
def ParseInt (s : String) : Int × Bool :=
  match s.data with
  | [] => (0, true)
  | c :: cs =>
    let neg : Bool := c.toNat = 45
    let digits := if c.toNat = 43 ∨ c.toNat = 45 then cs else c :: cs
    match digits with
    | [] => (0, true)
    | d :: ds =>
      match parseDigits (d :: ds) 0 with
      | none => (0, true)
      | some un =>
        if !neg && decide (2 ^ 63 ≤ un) then (2 ^ 63 - 1, true)
        else if neg && decide (2 ^ 63 < un) then (-(2 ^ 63), true)
        else (if neg then -(un : Int) else (un : Int), false)

/-- The store behind `Srv.Store`, as far as `checkPendingNotifications` reads it. -/
structure Store where
  /-- the call `Status().Get(userId)`: `LastActivityAt` of the status, `none` when
  `result.Err != nil` -/
  status : String → Option Int
  /-- the call `Preference().Get(userId, ...)` for the email interval: the `Value` of the
  preference, `none` when `result.Err != nil` -/
  preference : String → Option String

/-- The variable `interval` of `checkPendingNotifications`, in seconds
(`defaultInterval` is the constant `model.PREFERENCE_DEFAULT_EMAIL_INTERVAL`). -/
def emailInterval (store : Store) (defaultInterval : String) (userId : String) : Int :=
  match store.preference userId with
  | none => (ParseInt defaultInterval).1
  | some value =>
    if (ParseInt value).2 then (ParseInt defaultInterval).1 else (ParseInt value).1

/-- Constant `time.Second`, in nanoseconds. -/
def Second : Int := 1000000000

/-- Library method `now.Sub(time.Unix(sec, 0))`, for `now` in nanoseconds since the Unix
epoch: the difference as a `time.Duration`, the largest or smallest duration when it
does not fit. -/
def subUnix (now sec : Int) : Int :=
  if now - sec * Second > 2 ^ 63 - 1 then 2 ^ 63 - 1
  else if now - sec * Second < -(2 ^ 63) then -(2 ^ 63)
  else now - sec * Second

/-- The expression `time.Duration(interval) * time.Second`, a product in `int64`. -/
def intervalDuration (interval : Int) : Int :=
  WebHub.wrapInt64 (interval * Second)

/-- Calls that leave `checkPendingNotifications`. -/
inductive EmailEffect where
  /-- the error log line for a failed status lookup -/
  | logStatusError
  /-- the spawned call `go handler(userId, notifications)` -/
  | handler (userId : String) (notifications : List batchedNotification)
deriving DecidableEq, Repr

/-- The body of the loop of `checkPendingNotifications` for one entry of the map:
whether the entry is deleted, and the calls made.  `none` is the panic of
`notifications[0]` on an empty batch. -/
def checkBatch (store : Store) (defaultInterval : String) (now : Int) (userId : String)
    (notifications : List batchedNotification) : Option (Bool × List EmailEffect) :=
  match notifications with
  | [] => none
  | first :: _ =>
    match store.status userId with
    | none => some (true, [.logStatusError])
    | some lastActivityAt =>
      if lastActivityAt ≥ first.post.CreateAt then some (true, [])
      else if subUnix now (Int.tdiv first.post.CreateAt 1000)
          > intervalDuration (emailInterval store defaultInterval userId) then
        some (true, [.handler userId notifications])
      else some (false, [])

/-- The outcome of `checkPendingNotifications`. -/
structure CheckResult where
  pending : Pending
  effects : List EmailEffect
  panicked : Bool

/-- The loop `for userId, notifications := range job.pendingNotifications`, on the keys
in the order in which the range yields them. -/
def checkLoop (store : Store) (defaultInterval : String) (now : Int) :
    List String → Pending → CheckResult
  | [], pending => { pending := pending, effects := [], panicked := false }
  | userId :: rest, pending =>
    match pending userId with
    | none => checkLoop store defaultInterval now rest pending
    | some notifications =>
      match checkBatch store defaultInterval now userId notifications with
      | none => { pending := pending, effects := [], panicked := true }
      | some (deleted, effects) =>
        { pending := (checkLoop store defaultInterval now rest
            (if deleted then pending.delete userId else pending)).pending,
          effects := effects ++ (checkLoop store defaultInterval now rest
            (if deleted then pending.delete userId else pending)).effects,
          panicked := (checkLoop store defaultInterval now rest
            (if deleted then pending.delete userId else pending)).panicked }

/-- Method `checkPendingNotifications(now, handler)`: `order` is the order in which the
range yields the keys of the map, `now` is in nanoseconds since the Unix epoch, and a
call of `handler` is an effect. -/
def EmailBatchingJob.checkPendingNotifications (store : Store) (defaultInterval : String)
    (order : List String) (job : EmailBatchingJob) (now : Int) :
    EmailBatchingJob × List EmailEffect × Bool :=
  ({ job with pendingNotifications :=
      (checkLoop store defaultInterval now order job.pendingNotifications).pending },
    (checkLoop store defaultInterval now order job.pendingNotifications).effects,
    (checkLoop store defaultInterval now order job.pendingNotifications).panicked)

/-- The two posts of the test of `checkPendingNotifications`, as a batch. -/
def testBatch : List batchedNotification :=
  [{ userId := "", post := { UserId := "id1", Message := "post1", CreateAt := 10060000 },
     teamName := "" },
   { userId := "", post := { UserId := "id1", Message := "post2", CreateAt := 10090000 },
     teamName := "" }]

/-- The job of the test: the batch is pending for `id1`. -/
def testJob : EmailBatchingJob :=
  { newNotifications := [], bufferSize := 128,
    pendingNotifications := fun u => if u = "id1" then some testBatch else none }

/-- The store of the test, with the preference value as a parameter: `id1` was last
active at 10001000. -/
def testStore (value : String) : Store :=
  { status := fun u => if u = "id1" then some 10001000 else none,
    preference := fun u => if u = "id1" then some value else none }

/-- The field of `model.User` that `Add` reads; the pointer is taken to be non-nil. -/
structure User where
  Id : String
deriving DecidableEq, Repr

/-- The field of `model.Team` that `Add` reads; the pointer is taken to be non-nil. -/
structure Team where
  Name : String
deriving DecidableEq, Repr

/-- Function `MakeEmailBatchingJob`: an empty channel of capacity `bufferSize` and an
empty map; `none` is the panic of `make` on a negative size. -/
def MakeEmailBatchingJob (bufferSize : Int) : Option EmailBatchingJob :=
  if bufferSize < 0 then none
  else some { newNotifications := [], bufferSize := bufferSize.toNat,
              pendingNotifications := fun _ => none }

/-- Method `Add`: the `select` takes the send when the channel has room and the
`default` branch otherwise; the job afterwards and the value returned. -/
def EmailBatchingJob.Add (job : EmailBatchingJob) (user : User) (post : Post) (team : Team) :
    EmailBatchingJob × Bool :=
  if job.newNotifications.length < job.bufferSize then
    ({ job with newNotifications := job.newNotifications ++
        [{ userId := user.Id, post := post, teamName := team.Name }] }, true)
  else (job, false)

/-- A sequence of calls of `Add` and `handleNewNotifications` on a job. -/
inductive JobCall where
  | add (user : User) (post : Post) (team : Team)
  | handleNewNotifications

/-- The job after a sequence of calls. -/
def EmailBatchingJob.after : List JobCall → EmailBatchingJob → EmailBatchingJob
  | [], job => job
  | .add user post team :: calls, job =>
    EmailBatchingJob.after calls (job.Add user post team).1
  | .handleNewNotifications :: calls, job =>
    EmailBatchingJob.after calls job.handleNewNotifications

/-- The batch of the first part of the test of `checkPendingNotifications`, pending for
`id1`, who was active after its post. -/
def testActiveJob : EmailBatchingJob :=
  { newNotifications := [], bufferSize := 128,
    pendingNotifications := fun u =>
      if u = "id1" then
        some [{ userId := "",
                post := { UserId := "id1", Message := "", CreateAt := 10000000 },
                teamName := "" }]
      else none }

end EmailBatching

/-! # Posts: `DeletePostFiles` of `app/post.go` and `CreateWebhookPost` of `app/webhook.go` -/

namespace Posts

/-- A value of type `interface{}` in a field of a Slack attachment: a string, or a value
of another type (told apart by a tag). -/
inductive FieldValue where
  | str (s : String)
  | other (tag : Nat)
deriving DecidableEq, Repr

/-- The fields of `model.SlackAttachmentField` that `parseSlackAttachment` uses. -/
structure SlackAttachmentField where
  Title : String
  Value : FieldValue
deriving DecidableEq, Repr

/-- The fields of `model.SlackAttachment` that `parseSlackAttachment` uses. -/
structure SlackAttachment where
  Text : String
  Pretext : String
  Fields : List SlackAttachmentField
deriving DecidableEq, Repr

/-- A value of type `interface{}` in a props map: a string, a `[]*model.SlackAttachment`,
or a value of another type (told apart by a tag). -/
inductive PropValue where
  | str (s : String)
  | attachments (list : List SlackAttachment)
  | other (tag : Nat)
deriving DecidableEq, Repr

/-- A map `model.StringInterface`, as the post holds it: `none` for a key that is not in
the map. -/
abbrev Props := String → Option PropValue

/-- The fields of `model.Post` that `post.go` and `webhook.go` use here. -/
structure Post where
  Id : String
  UserId : String
  ChannelId : String
  Message : String
  /-- the field `Type` -/
  PostType : String
  FileIds : List String
  Props : Props

/-- Modelled from the spec: the method `AddProp` of `model.Post` (`model/post.go` is not
under `src/`), the assignment `o.Props[key] = value` on a map made non-nil. -/
def Post.AddProp (post : Post) (key : String) (value : PropValue) : Post :=
  { post with Props := fun k => if k = key then some value else post.Props k }

/-- Calls that leave `post.go` and `webhook.go`. -/
inductive PostEffect where
  /-- the call `Srv.Store.FileInfo().DeleteForPost(postId)` -/
  | deleteForPost (postId : String)
  /-- a line of the warning log, with the message key and the post id -/
  | logWarn (key : String) (postId : String)
  /-- the call `metrics.IncrementWebhookPost()` -/
  | incrementWebhookPost
deriving DecidableEq, Repr

/-- Function `DeletePostFiles` (`deleteForPostFails`: whether the store call ends with
`result.Err != nil`). -/
def DeletePostFiles (deleteForPostFails : String → Bool) (post : Post) : List PostEffect :=
  if post.FileIds.length ≠ 0 then []
  else
    .deleteForPost post.Id ::
      (if deleteForPostFails post.Id then
        [.logWarn "api.post.delete_post_files.app_error.warn" post.Id]
      else [])

/-- What `CreateWebhookPost` takes from outside `webhook.go`: the regular expression
replacement, the settings, two constants of `model`, and `CreatePost`. -/
structure WebhookEnv where
  /-- the call `linkWithTextRegex.ReplaceAllString(text, "[${2}](${1})")` -/
  parseLinks : String → String
  /-- whether `einterfaces.GetMetricsInterface()` is non-nil -/
  metrics : Bool
  EnablePostUsernameOverride : Bool
  EnablePostIconOverride : Bool
  DEFAULT_WEBHOOK_USERNAME : String
  POST_SLACK_ATTACHMENT : String
  /-- the call `CreatePost(post, teamId, false)`: the message of the error, if any -/
  createPostError : Post → String → Option String

/-- Function `parseSlackAttachment` of `post.go`. -/
def parseSlackAttachment (env : WebhookEnv) (post : Post) (attachments : List SlackAttachment) :
    Post :=
  { post with PostType := env.POST_SLACK_ATTACHMENT }.AddProp "attachments"
    (.attachments (attachments.map (fun (attachment : SlackAttachment) =>
      { Text := env.parseLinks attachment.Text,
        Pretext := env.parseLinks attachment.Pretext,
        Fields := attachment.Fields.map (fun (field : SlackAttachmentField) =>
          match field.Value with
          | .str value => { field with Value := .str (env.parseLinks value) }
          | .other _ => field) })))

/-- The body of the loop `for key, val := range props` of `CreateWebhookPost`. -/
def copyProp (env : WebhookEnv) (post : Post) (key : String) (val : PropValue) : Post :=
  if key = "attachments" then
    match val with
    | .attachments attachments => parseSlackAttachment env post attachments
    | .str _ => post
    | .other _ => post
  else if key ≠ "override_icon_url" ∧ key ≠ "override_username" ∧ key ≠ "from_webhook" then
    post.AddProp key val
  else post

/-- The loop `for key, val := range props` of `CreateWebhookPost`, on the entries of the
map in the order in which the range yields them. -/
def copyProps (env : WebhookEnv) : List (String × PropValue) → Post → Post
  | [], post => post
  | (key, val) :: rest, post => copyProps env rest (copyProp env post key val)

/-- The post that `CreateWebhookPost` builds and hands to `CreatePost`; a string is
empty exactly when its `len` is 0. -/
def webhookPost (env : WebhookEnv) (userId channelId text overrideUsername overrideIconUrl : String)
    (props : List (String × PropValue)) (postType : String) : Post :=
  let post0 : Post :=
    { Id := "", UserId := userId, ChannelId := channelId, Message := env.parseLinks text,
      PostType := postType, FileIds := [], Props := fun _ => none }
  let post1 := post0.AddProp "from_webhook" (.str "true")
  let post2 :=
    if env.EnablePostUsernameOverride then
      if overrideUsername ≠ "" then post1.AddProp "override_username" (.str overrideUsername)
      else post1.AddProp "override_username" (.str env.DEFAULT_WEBHOOK_USERNAME)
    else post1
  let post3 :=
    if env.EnablePostIconOverride then
      if overrideIconUrl ≠ "" then post2.AddProp "override_icon_url" (.str overrideIconUrl)
      else post2
    else post2
  copyProps env props post3

/-- The outcome of `CreateWebhookPost`: the post handed to `CreatePost`, the calls made
before it, and the result, a post or the detail of the error. -/
structure WebhookResult where
  handed : Post
  effects : List PostEffect
  result : Except String Post

/-- Function `CreateWebhookPost`. -/
def CreateWebhookPost (env : WebhookEnv)
    (userId teamId channelId text overrideUsername overrideIconUrl : String)
    (props : List (String × PropValue)) (postType : String) : WebhookResult :=
  { handed := webhookPost env userId channelId text overrideUsername overrideIconUrl props
      postType,
    effects := if env.metrics then [.incrementWebhookPost] else [],
    result :=
      match env.createPostError
          (webhookPost env userId channelId text overrideUsername overrideIconUrl props postType)
          teamId with
      | some message => .error ("err=" ++ message)
      | none =>
        .ok (webhookPost env userId channelId text overrideUsername overrideIconUrl props
          postType) }

/-- The settings of a server that allows both overrides. -/
def testEnv : WebhookEnv :=
  { parseLinks := fun s => s, metrics := false, EnablePostUsernameOverride := true,
    EnablePostIconOverride := true, DEFAULT_WEBHOOK_USERNAME := "webhook",
    POST_SLACK_ATTACHMENT := "slack_attachment", createPostError := fun _ _ => none }

/-- A props map that tries the three reserved keys, next to a key of its own. -/
def spoofingProps : List (String × PropValue) :=
  [("from_webhook", .str "false"), ("override_username", .str "admin"),
   ("card", .str "hello"), ("override_icon_url", .str "http://evil/icon.png")]

end Posts

/-! # Files: `DoUploadFile` and the public links of `app/file.go`, `getPublicFile` of `api4/file.go` -/

namespace Files

/-- The fields of `model.FileInfo` that the functions here use. -/
structure FileInfo where
  Id : String
  CreatorId : String
  Path : String
  ThumbnailPath : String
  PreviewPath : String
  Name : String
  MimeType : String
  Width : Int
  Height : Int
deriving DecidableEq, Repr

/-- Library function `filepath.Base`, with the separator `/`: the last element of the
path, after the trailing separators have been removed; `"."` for the empty path and
`"/"` for a path of separators only. -/
def Base (path : String) : String :=
  if path = "" then "."
  else if ((path.data.reverse.dropWhile (fun c => c == '/')).takeWhile
      (fun c => c != '/')).reverse = [] then "/"
  else String.mk ((path.data.reverse.dropWhile (fun c => c == '/')).takeWhile
      (fun c => c != '/')).reverse

/-- The expression `filename[:strings.LastIndex(filename, ".")]` on the characters of
`filename`: the part before the last `.`; `none` is the panic of the slice when there is
no `.`, and `LastIndex` is `-1`. -/
def cutAtLastDot (filename : List Char) : Option (List Char) :=
  match filename.reverse.dropWhile (fun c => c != '.') with
  | [] => none
  | _ :: before => some before.reverse

/-- Constant `MaxImageSize`. -/
def MaxImageSize : Int := 6048 * 4032

/-- What `DoUploadFile` takes from outside `app/file.go`. -/
structure UploadEnv where
  /-- the call `model.GetInfoForBytes(filename, data)`: `none` when `err != nil` -/
  GetInfoForBytes : String → List Nat → Option FileInfo
  /-- the method `info.IsImage()` -/
  IsImage : FileInfo → Bool
  /-- the result of `model.NewId()` -/
  NewId : String
  /-- whether `WriteFile(data, path)` returns an error -/
  WriteFile : List Nat → String → Bool
  /-- whether `Srv.Store.FileInfo().Save(info)` ends with `result.Err != nil` -/
  Save : FileInfo → Bool

/-- How `DoUploadFile` ends: with the info it stored, with an error (the place is
named), or in a panic. -/
inductive UploadResult where
  | ok (info : FileInfo)
  | error (place : String)
  | panic
deriving DecidableEq, Repr

/-- The end of `DoUploadFile`: the file is written, then the info is saved. -/
def writeAndSave (env : UploadEnv) (data : List Nat) (info : FileInfo) : UploadResult :=
  if env.WriteFile data info.Path then .error "WriteFile"
  else if env.Save info then .error "FileInfo.Save"
  else .ok info

/-- The variable `pathPrefix` of `DoUploadFile`. -/
def pathPrefix (env : UploadEnv) (teamId channelId userId : String) : String :=
  "teams/" ++ teamId ++ "/channels/" ++ channelId ++ "/users/" ++ userId ++ "/" ++
    env.NewId ++ "/"

/-- The info of `DoUploadFile` after the assignments to `Id`, `CreatorId` and `Path`. -/
def withPath (env : UploadEnv) (teamId channelId userId filename : String) (info : FileInfo) :
    FileInfo :=
  { info with
    Id := env.NewId
    CreatorId := userId
    Path := pathPrefix env teamId channelId userId ++ filename }

/-- Function `DoUploadFile`. -/
def DoUploadFile (env : UploadEnv) (teamId channelId userId rawFilename : String)
    (data : List Nat) : UploadResult :=
  match env.GetInfoForBytes (Base rawFilename) data with
  | none => .error "GetInfoForBytes"
  | some info =>
    if env.IsImage (withPath env teamId channelId userId (Base rawFilename) info) then
      if WebHub.wrapInt64 (info.Width * info.Height) > MaxImageSize then .error "large_image"
      else
        match cutAtLastDot (Base rawFilename).data with
        | none => .panic
        | some nameWithoutExtension =>
          writeAndSave env data
            { withPath env teamId channelId userId (Base rawFilename) info with
              PreviewPath := pathPrefix env teamId channelId userId ++
                String.mk nameWithoutExtension ++ "_preview.jpg"
              ThumbnailPath := pathPrefix env teamId channelId userId ++
                String.mk nameWithoutExtension ++ "_thumb.jpg" }
    else
      writeAndSave env data (withPath env teamId channelId userId (Base rawFilename) info)

/-! ## The hash of a public link: SHA-256 and unpadded URL-safe base64 -/

/-- The round constants of SHA-256 (FIPS 180-4), in decimal. -/
def sha256RoundConstants : List Nat :=
  [
   1116352408, 1899447441, 3049323471, 3921009573, 961987163, 1508970993,
   2453635748, 2870763221, 3624381080, 310598401, 607225278, 1426881987,
   1925078388, 2162078206, 2614888103, 3248222580, 3835390401, 4022224774,
   264347078, 604807628, 770255983, 1249150122, 1555081692, 1996064986,
   2554220882, 2821834349, 2952996808, 3210313671, 3336571891, 3584528711,
   113926993, 338241895, 666307205, 773529912, 1294757372, 1396182291,
   1695183700, 1986661051, 2177026350, 2456956037, 2730485921, 2820302411,
   3259730800, 3345764771, 3516065817, 3600352804, 4094571909, 275423344,
   430227734, 506948616, 659060556, 883997877, 958139571, 1322822218,
   1537002063, 1747873779, 1955562222, 2024104815, 2227730452, 2361852424,
   2428436474, 2756734187, 3204031479, 3329325298]

/-- The state of a SHA-256 computation: eight 32-bit words. -/
structure Sha256State where
  a : Nat
  b : Nat
  c : Nat
  d : Nat
  e : Nat
  f : Nat
  g : Nat
  h : Nat
deriving DecidableEq, Repr

/-- The initial state of SHA-256. -/
def sha256Init : Sha256State :=
  { a := 1779033703, b := 3144134277, c := 1013904242, d := 2773480762,
    e := 1359893119, f := 2600822924, g := 528734635, h := 1541459225 }

/-- Rotation of a 32-bit word to the right. -/
def rotateRight32 (x n : Nat) : Nat :=
  (x / 2 ^ n + x % 2 ^ n * 2 ^ (32 - n)) % 2 ^ 32

/-- The message padded to a multiple of 64 bytes: the byte `0x80`, zero bytes, and the
length in bits as eight bytes, most significant first. -/
def sha256Pad (message : List Nat) : List Nat :=
  message ++ [128] ++ List.replicate ((64 - (message.length + 9) % 64) % 64) 0 ++
    (List.range 8).map (fun i => (message.length * 8) / 2 ^ (8 * (7 - i)) % 256)

/-- The 32-bit words of a list of bytes, four bytes to a word, most significant first. -/
def wordsOfBytes : List Nat → List Nat
  | b0 :: b1 :: b2 :: b3 :: rest =>
    (b0 * 16777216 + b1 * 65536 + b2 * 256 + b3) :: wordsOfBytes rest
  | _ => []

/-- The message schedule: `count` more words after the words `w`. -/
def sha256Schedule : Nat → List Nat → List Nat
  | 0, w => w
  | count + 1, w =>
    let w15 := w.getD (w.length - 15) 0
    let w2 := w.getD (w.length - 2) 0
    let s0 := rotateRight32 w15 7 ^^^ rotateRight32 w15 18 ^^^ (w15 / 2 ^ 3)
    let s1 := rotateRight32 w2 17 ^^^ rotateRight32 w2 19 ^^^ (w2 / 2 ^ 10)
    sha256Schedule count
      (w ++ [(w.getD (w.length - 16) 0 + s0 + w.getD (w.length - 7) 0 + s1) % 2 ^ 32])

/-- One round of the compression function, for the round constant `k` and the schedule
word `w`. -/
def sha256Round (s : Sha256State) (k w : Nat) : Sha256State :=
  let s1 := rotateRight32 s.e 6 ^^^ rotateRight32 s.e 11 ^^^ rotateRight32 s.e 25
  let ch := (s.e &&& s.f) ^^^ ((4294967295 - s.e) &&& s.g)
  let t1 := (s.h + s1 + ch + k + w) % 2 ^ 32
  let s0 := rotateRight32 s.a 2 ^^^ rotateRight32 s.a 13 ^^^ rotateRight32 s.a 22
  let maj := (s.a &&& s.b) ^^^ (s.a &&& s.c) ^^^ (s.b &&& s.c)
  let t2 := (s0 + maj) % 2 ^ 32
  { a := (t1 + t2) % 2 ^ 32, b := s.a, c := s.b, d := s.c,
    e := (s.d + t1) % 2 ^ 32, f := s.e, g := s.f, h := s.g }

/-- The compression of one block of 64 bytes into the state. -/
def sha256Block (s : Sha256State) (block : List Nat) : Sha256State :=
  let r := (sha256RoundConstants.zip (sha256Schedule 48 (wordsOfBytes block))).foldl
    (fun (t : Sha256State) (kw : Nat × Nat) => sha256Round t kw.1 kw.2) s
  { a := (s.a + r.a) % 2 ^ 32, b := (s.b + r.b) % 2 ^ 32, c := (s.c + r.c) % 2 ^ 32,
    d := (s.d + r.d) % 2 ^ 32, e := (s.e + r.e) % 2 ^ 32, f := (s.f + r.f) % 2 ^ 32,
    g := (s.g + r.g) % 2 ^ 32, h := (s.h + r.h) % 2 ^ 32 }

/-- The blocks of a padded message: `count` blocks of 64 bytes. -/
def sha256Blocks : Nat → List Nat → List (List Nat)
  | 0, _ => []
  | count + 1, bytes => bytes.take 64 :: sha256Blocks count (bytes.drop 64)

/-- The four bytes of a 32-bit word, most significant first. -/
def bytesOfWord (w : Nat) : List Nat :=
  [w / 16777216 % 256, w / 65536 % 256, w / 256 % 256, w % 256]

/-- Library function: the SHA-256 digest of a message, as `hash.Sum(nil)` returns it
after the bytes have been written to `sha256.New()`: 32 bytes. -/
def sha256 (message : List Nat) : List Nat :=
  let s := (sha256Blocks ((sha256Pad message).length / 64) (sha256Pad message)).foldl
    sha256Block sha256Init
  bytesOfWord s.a ++ bytesOfWord s.b ++ bytesOfWord s.c ++ bytesOfWord s.d ++
    bytesOfWord s.e ++ bytesOfWord s.f ++ bytesOfWord s.g ++ bytesOfWord s.h

/-- The alphabet of `base64.RawURLEncoding`. -/
def base64URLAlphabet : List Char :=
  "ABCDEFGHIJKLMNOPQRSTUVWXYZabcdefghijklmnopqrstuvwxyz0123456789-_".data

/-- The character for a 6-bit value in the URL-safe alphabet. -/
def base64URLChar (n : Nat) : Char :=
  base64URLAlphabet.getD n (Char.ofNat 65)

/-- Library function `base64.RawURLEncoding.EncodeToString`: three bytes give four
characters, a rest of one or two bytes gives two or three, and there is no padding. -/
def encodeRawURL : List Nat → List Char
  | b0 :: b1 :: b2 :: rest =>
    base64URLChar (b0 / 4) :: base64URLChar (b0 % 4 * 16 + b1 / 16) ::
      base64URLChar (b1 % 16 * 4 + b2 / 64) :: base64URLChar (b2 % 64) :: encodeRawURL rest
  | [b0, b1] =>
    [base64URLChar (b0 / 4), base64URLChar (b0 % 4 * 16 + b1 / 16),
     base64URLChar (b1 % 16 * 4)]
  | [b0] => [base64URLChar (b0 / 4), base64URLChar (b0 % 4 * 16)]
  | [] => []

/-- The bytes of a Go string, as numbers. -/
def bytesOfString (s : String) : List Nat :=
  (WebHub.stringBytes s).map UInt8.toNat

/-- Function `GeneratePublicLinkHash`: the salt and then the file id are written to the
hash, and the digest is encoded. -/
def GeneratePublicLinkHash (fileId salt : String) : String :=
  String.mk (encodeRawURL (sha256 (bytesOfString salt ++ bytesOfString fileId)))

/-- Function `GeneratePublicLink` (`salt` is the setting `PublicLinkSalt`):
`fmt.Sprintf("%s/files/%v/public?h=%s", siteURL, info.Id, hash)`. -/
def GeneratePublicLink (salt siteURL : String) (info : FileInfo) : String :=
  siteURL ++ "/files/" ++ info.Id ++ "/public?h=" ++ GeneratePublicLinkHash info.Id salt

/-- What `getPublicFile` takes from outside `api4/file.go` and `app/file.go`. -/
structure PublicFileEnv where
  /-- whether `c.RequireFileId()` leaves `c.Err` set, for the file id of the request -/
  requireFileIdFails : String → Bool
  EnablePublicLink : Bool
  PublicLinkSalt : String
  /-- the call `Srv.Store.FileInfo().Get(fileId)`: `none` when `result.Err != nil` -/
  fileInfoStore : String → Option FileInfo
  /-- the call `ReadFile(path)` of `app`: `none` for an error -/
  ReadFile : String → Option (List Nat)

/-- How `getPublicFile` leaves the request. -/
inductive Response where
  /-- the error set by `c.RequireFileId()` -/
  | invalidParam
  /-- an error made by `getPublicFile`, with its message key and its status code -/
  | appError (id : String) (statusCode : Nat)
  /-- the error of `app.GetFileInfo`, passed on as it is -/
  | fileInfoError
  /-- the error of `app.ReadFile`, with the status code 404 -/
  | readFileError (statusCode : Nat)
  /-- the call `writeFileResponse(info.Name, info.MimeType, data, true, w, r)` -/
  | file (name mimeType : String) (data : List Nat)
deriving DecidableEq, Repr

/-- Function `GetFileInfo` of `app/file.go`. -/
def GetFileInfo (env : PublicFileEnv) (fileId : String) : Option FileInfo :=
  env.fileInfoStore fileId

/-- Function `getPublicFile` of `api4/file.go`, for the file id of the route and the
value `h` of `r.URL.Query().Get("h")`. -/
def getPublicFile (env : PublicFileEnv) (fileId h : String) : Response :=
  if env.requireFileIdFails fileId then .invalidParam
  else if !env.EnablePublicLink then
    .appError "api.file.get_public_link.disabled.app_error" 501
  else
    match GetFileInfo env fileId with
    | none => .fileInfoError
    | some info =>
      if h = "" then .appError "api.file.get_file.public_invalid.app_error" 400
      else if h ≠ GeneratePublicLinkHash info.Id env.PublicLinkSalt then
        .appError "api.file.get_file.public_invalid.app_error" 400
      else
        match env.ReadFile info.Path with
        | none => .readFileError 404
        | some data => .file info.Name info.MimeType data

/-- Whether `getPublicFile` went on to serve the file: it reached `app.ReadFile`. -/
def Response.served : Response → Bool
  | .readFileError _ => true
  | .file _ _ _ => true
  | _ => false

/-- The file info of the tests: `test.png`, uploaded and stored. -/
def testInfo : FileInfo :=
  { Id := "abcdefghijklmnopqrstuvwxyz", CreatorId := "user1",
    Path := "teams/noteam/channels/c1/users/user1/abcdefghijklmnopqrstuvwxyz/test.png",
    ThumbnailPath :=
      "teams/noteam/channels/c1/users/user1/abcdefghijklmnopqrstuvwxyz/test_thumb.jpg",
    PreviewPath :=
      "teams/noteam/channels/c1/users/user1/abcdefghijklmnopqrstuvwxyz/test_preview.jpg",
    Name := "test.png", MimeType := "image/png", Width := 10, Height := 10 }

/-- A server with public links enabled, that stores `testInfo`. -/
def testPublicEnv : PublicFileEnv :=
  { requireFileIdFails := fun fileId => fileId.length != 26,
    EnablePublicLink := true, PublicLinkSalt := "salt",
    fileInfoStore := fun fileId => if fileId = testInfo.Id then some testInfo else none,
    ReadFile := fun _ => some [137, 80, 78, 71] }

/-- The environment of an upload of a file whose name ends in `.png`, taken as an image
of 10 by 10 pixels, or of any other file. -/
def testUploadEnv : UploadEnv :=
  { GetInfoForBytes := fun name _ =>
      some { Id := "", CreatorId := "", Path := "", ThumbnailPath := "", PreviewPath := "",
             Name := name,
             MimeType :=
               if ".png".data.isSuffixOf name.data then "image/png" else "text/plain",
             Width := 10, Height := 10 },
    IsImage := fun info => "image".data.isPrefixOf info.MimeType.data,
    NewId := "abcdefghijklmnopqrstuvwxyz",
    WriteFile := fun _ _ => false,
    Save := fun _ => false }

end Files

namespace WebHub

/-! # Theorems -/

/-! ## Swap-with-last removal -/

theorem set_getLast_dropLast_perm (l : List ConnId) :
    ∀ (i : Nat) (last : ConnId), i < l.length → l[l.length - 1]? = some last →
      List.Perm ((l.set i last).take (l.length - 1)) (l.eraseIdx i) := by
  induction l with
  | nil => intro i last hi; simp at hi
  | cons x xs ih =>
    intro i last hi hlast
    cases xs with
    | nil =>
      have : i = 0 := by simpa using hi
      subst this
      simp
    | cons y ys =>
      have hlast' : (y :: ys)[(y :: ys).length - 1]? = some last := by
        simpa using hlast
      cases i with
      | zero =>
        have hd : (y :: ys).take ((y :: ys).length - 1) ++ [last] = y :: ys := by
          rw [← List.dropLast_eq_take]
          have h1 : (y :: ys).getLast? = some last := by
            rw [List.getLast?_eq_getElem?]; exact hlast'
          exact List.dropLast_append_getLast? last h1
        have : ((x :: y :: ys).set 0 last).take ((x :: y :: ys).length - 1)
            = last :: (y :: ys).take ((y :: ys).length - 1) := by simp
        rw [this, List.eraseIdx_cons_zero]
        conv_rhs => rw [← hd]
        exact (List.perm_append_singleton _ _).symm
      | succ j =>
        have hj : j < (y :: ys).length := by simpa using hi
        have := ih j last hj hlast'
        simpa using this

theorem swapWithLast_eq (arr : List ConnId) (len i : Nat) (hi : i < len)
    (hlen : len ≤ arr.length) :
    ∃ last, arr[len - 1]? = some last ∧ swapWithLast arr len i = some (arr.set i last, len - 1) := by
  have h1 : len - 1 < arr.length := by omega
  refine ⟨arr[len - 1], List.getElem?_eq_getElem h1, ?_⟩
  simp [swapWithLast, hi, List.getElem?_eq_getElem h1]

theorem swapWithLast_perm (arr : List ConnId) (len i : Nat) (hi : i < len)
    (hlen : len ≤ arr.length) (r : List ConnId × Nat)
    (hr : swapWithLast arr len i = some r) :
    r.2 = len - 1 ∧ List.Perm (r.1.take r.2) ((arr.take len).eraseIdx i) := by
  obtain ⟨last, hlast, heq⟩ := swapWithLast_eq arr len i hi hlen
  rw [heq] at hr
  cases hr
  refine ⟨rfl, ?_⟩
  have hl : (arr.take len).length = len := by simp [hlen]
  have h2 : (arr.take len)[(arr.take len).length - 1]? = some last := by
    rw [hl, List.getElem?_take_of_lt (by omega)]; exact hlast
  have h3 := set_getLast_dropLast_perm (arr.take len) i last (by rw [hl]; exact hi) h2
  rw [hl] at h3
  have h4 : ((arr.take len).set i last).take (len - 1) = (arr.set i last).take (len - 1) := by
    rw [List.set_take, List.set_take, List.take_take, Nat.min_eq_left (Nat.sub_le _ _)]
  rw [h4] at h3
  exact h3

theorem utf8ByteSize_eq_zero_iff (s : String) : s.utf8ByteSize = 0 ↔ s = "" := by
  cases s with
  | mk cs =>
    cases cs with
    | nil => simp [String.utf8ByteSize, String.utf8ByteSize.go]
    | cons c cs =>
      have hc := Char.utf8Size_pos c
      constructor
      · intro h
        simp [String.utf8ByteSize, String.utf8ByteSize.go] at h
        omega
      · intro h
        have h1 := congrArg String.data h
        simp at h1

/-! ## The scan of the unregister case -/

theorem unregisterScan_found (heap : Heap) (webCon : ConnId) (userId : String) :
    ∀ (l : List ConnId) (i : Nat) (found : Bool) (indexToDel : Int),
      (unregisterScan heap webCon userId l i found indexToDel).1
        = (found || l.any (fun d => decide (d ≠ webCon) && decide (userId = (heap d).UserId))) := by
  intro l
  induction l with
  | nil => intro i found indexToDel; simp [unregisterScan]
  | cons d rest ih =>
    intro i found indexToDel
    unfold unregisterScan
    by_cases h1 : d = webCon
    · simp [h1, ih]
    · rw [if_neg h1]
      by_cases h2 : userId = (heap d).UserId
      · rw [if_pos h2]
        have hd : (decide (d ≠ webCon) && decide (userId = (heap d).UserId)) = true := by
          simp [h1, ← h2]
        by_cases h3 : indexToDel = -1
        · rw [if_neg (not_not.2 h3), ih, List.any_cons, hd]; simp
        · rw [if_pos h3, List.any_cons, hd]; simp
      · rw [if_neg h2, ih, List.any_cons]
        simp [h2]

theorem unregisterScan_index_of_not_mem (heap : Heap) (webCon : ConnId) (userId : String) :
    ∀ (l : List ConnId) (i : Nat) (found : Bool) (indexToDel : Int), webCon ∉ l →
      (unregisterScan heap webCon userId l i found indexToDel).2 = indexToDel := by
  intro l
  induction l with
  | nil => intro i found indexToDel _; simp [unregisterScan]
  | cons d rest ih =>
    intro i found indexToDel hmem
    have h1 : d ≠ webCon := fun h => hmem (by simp [h])
    have h2 : webCon ∉ rest := fun h => hmem (by simp [h])
    unfold unregisterScan
    rw [if_neg h1]
    by_cases h3 : userId = (heap d).UserId
    · rw [if_pos h3]
      by_cases h4 : indexToDel = -1
      · rw [if_neg (not_not.2 h4), ih _ _ _ h2]
      · rw [if_pos h4]
    · rw [if_neg h3, ih _ _ _ h2]

theorem unregisterScan_index_cases (heap : Heap) (webCon : ConnId) (userId : String) :
    ∀ (l : List ConnId) (i : Nat) (found : Bool) (indexToDel : Int),
      (unregisterScan heap webCon userId l i found indexToDel).2 = indexToDel ∨
      ∃ p, p < l.length ∧ l[p]? = some webCon ∧
        (unregisterScan heap webCon userId l i found indexToDel).2 = ((i + p : Nat) : Int) := by
  intro l
  induction l with
  | nil => intro i found indexToDel; simp [unregisterScan]
  | cons d rest ih =>
    intro i found indexToDel
    unfold unregisterScan
    by_cases h1 : d = webCon
    · simp only [h1, if_true]
      right
      rcases ih (i + 1) found (i : Int) with h | ⟨p, hp, hget, heq⟩
      · exact ⟨0, by simp, by simp, by simpa using h⟩
      · refine ⟨p + 1, by simpa using hp, by simpa using hget, ?_⟩
        rw [heq]; congr 1; omega
    · rw [if_neg h1]
      by_cases h3 : userId = (heap d).UserId
      · rw [if_pos h3]
        by_cases h4 : indexToDel = -1
        · rw [if_neg (not_not.2 h4)]
          rcases ih (i + 1) true indexToDel with h | ⟨p, hp, hget, heq⟩
          · left; exact h
          · right
            refine ⟨p + 1, by simpa using hp, by simpa using hget, ?_⟩
            rw [heq]; congr 1; omega
        · rw [if_pos h4]; left; rfl
      · rw [if_neg h3]
        rcases ih (i + 1) found indexToDel with h | ⟨p, hp, hget, heq⟩
        · left; exact h
        · right
          refine ⟨p + 1, by simpa using hp, by simpa using hget, ?_⟩
          rw [heq]; congr 1; omega

theorem unregisterScan_index_of_mem (heap : Heap) (webCon : ConnId) (userId : String) :
    ∀ (l : List ConnId) (i : Nat) (found : Bool), webCon ∈ l →
      (unregisterScan heap webCon userId l i found (-1)).2 ≠ -1 := by
  intro l
  induction l with
  | nil => intro i found h; simp at h
  | cons d rest ih =>
    intro i found hmem
    unfold unregisterScan
    by_cases h1 : d = webCon
    · simp only [h1, if_true]
      rcases unregisterScan_index_cases heap webCon userId rest (i + 1) found (i : Int) with
        h | ⟨p, _, _, heq⟩
      · rw [h]; omega
      · rw [heq]; omega
    · have h2 : webCon ∈ rest := by
        rcases List.mem_cons.1 hmem with h | h
        · exact absurd h.symm h1
        · exact h
      rw [if_neg h1]
      by_cases h3 : userId = (heap d).UserId
      · rw [if_pos h3, if_neg (by simp)]
        exact ih _ _ h2
      · rw [if_neg h3]
        exact ih _ _ h2

theorem unregisterScan_index_of_count_one (heap : Heap) (webCon : ConnId) (userId : String) :
    ∀ (l : List ConnId) (i : Nat) (found : Bool), l.count webCon = 1 →
      (unregisterScan heap webCon userId l i found (-1)).2
        = ((i + l.indexOf webCon : Nat) : Int) := by
  intro l
  induction l with
  | nil => intro i found h; simp at h
  | cons d rest ih =>
    intro i found hcount
    unfold unregisterScan
    by_cases h1 : d = webCon
    · subst h1
      have h0 : rest.count d = 0 := by simpa using hcount
      have hnm : d ∉ rest := List.count_eq_zero.1 h0
      simp only [if_true]
      rw [unregisterScan_index_of_not_mem heap d userId rest _ _ _ hnm]
      simp
    · have hc : rest.count webCon = 1 := by
        rw [List.count_cons_of_ne (Ne.symm h1)] at hcount; exact hcount
      rw [List.indexOf_cons_ne _ h1]
      rw [if_neg h1]
      by_cases h3 : userId = (heap d).UserId
      · rw [if_pos h3, if_neg (by simp), ih _ _ hc]; congr 1; omega
      · rw [if_neg h3, ih _ _ hc]; congr 1; omega

theorem perm_cons_eraseIdx (c : ConnId) :
    ∀ (l : List ConnId) (p : Nat), l[p]? = some c → List.Perm l (c :: l.eraseIdx p) := by
  intro l
  induction l with
  | nil => intro p h; simp at h
  | cons x xs ih =>
    intro p h
    cases p with
    | zero =>
      have : x = c := by simpa using h
      subst this
      simp
    | succ q =>
      have h1 : xs[q]? = some c := by simpa using h
      have := ih q h1
      rw [List.eraseIdx_cons_succ]
      exact (List.Perm.cons x this).trans (List.Perm.swap c x _)

theorem eraseIdx_perm_erase (c : ConnId) (l : List ConnId) (p : Nat) (h : l[p]? = some c) :
    List.Perm (l.eraseIdx p) (l.erase c) := by
  have hmem : c ∈ l := by
    rw [List.getElem?_eq_some_iff] at h
    obtain ⟨hp, rfl⟩ := h
    exact List.getElem_mem hp
  have h1 := perm_cons_eraseIdx c l p h
  have h2 := List.perm_cons_erase hmem
  exact (h1.symm.trans h2).cons_inv

/-- The effects of the unregister case: the offline signal, when it is due. -/
theorem handleUnregister_spec (h : Hub) (heap : Heap) (webCon : ConnId) :
    ∃ connections : List ConnId,
      h.handleUnregister heap webCon =
        { hub := { h with connections := connections }, heap := heap,
          effects :=
            if (heap webCon).UserId = "" then []
            else if h.connections.any
                (fun d => decide (d ≠ webCon) && decide ((heap webCon).UserId = (heap d).UserId))
              then [] else [.setStatusOffline (heap webCon).UserId],
          status := .running } ∧
      (webCon ∉ h.connections → connections = h.connections) ∧
      (webCon ∈ h.connections → List.Perm connections (h.connections.erase webCon)) ∧
      (h.connections.count webCon = 1 → ∃ last,
        h.connections[h.connections.length - 1]? = some last ∧
        connections = (h.connections.set (h.connections.indexOf webCon) last).take
          (h.connections.length - 1)) := by
  have hfound := unregisterScan_found heap webCon (heap webCon).UserId h.connections 0 false (-1)
  rw [Bool.false_or] at hfound
  by_cases hmem : webCon ∈ h.connections
  · have hne := unregisterScan_index_of_mem heap webCon (heap webCon).UserId h.connections 0
      false hmem
    rcases unregisterScan_index_cases heap webCon (heap webCon).UserId h.connections 0 false (-1)
      with hc | ⟨p, hp, hget, heq⟩
    · exact absurd hc hne
    · obtain ⟨last, hlast, hswap⟩ :=
        swapWithLast_eq h.connections h.connections.length p hp (Nat.le_refl _)
      have hperm := swapWithLast_perm h.connections h.connections.length p hp (Nat.le_refl _)
        _ hswap
      refine ⟨(h.connections.set p last).take (h.connections.length - 1), ?_,
        fun hn => absurd hmem hn, fun _ => ?_, fun hone => ?_⟩
      · have hidx : (unregisterScan heap webCon (heap webCon).UserId h.connections 0 false
            (-1)).2.toNat = p := by rw [heq]; simp
        unfold Hub.handleUnregister
        simp only [hne, hidx, hswap, hfound, if_true, ne_eq, not_false_eq_true, Option.map_some']
        by_cases hu : (heap webCon).UserId = ""
        · rw [if_pos ((utf8ByteSize_eq_zero_iff _).2 hu), if_pos hu]
        · rw [if_neg (fun hz => hu ((utf8ByteSize_eq_zero_iff _).1 hz)), if_neg hu]
          cases h.connections.any
            (fun d => decide (d ≠ webCon) && decide ((heap webCon).UserId = (heap d).UserId))
            <;> simp
      · have h1 := hperm.2
        simp only [List.take_length] at h1
        exact h1.trans (eraseIdx_perm_erase webCon h.connections p hget)
      · have h2 := unregisterScan_index_of_count_one heap webCon (heap webCon).UserId
          h.connections 0 false hone
        rw [heq] at h2
        have h3 : p = h.connections.indexOf webCon := by omega
        exact ⟨last, hlast, by rw [h3]⟩
  · have hidx := unregisterScan_index_of_not_mem heap webCon (heap webCon).UserId h.connections
      0 false (-1) hmem
    refine ⟨h.connections, ?_, fun _ => rfl, fun hn => absurd hn hmem, fun hone => ?_⟩
    swap
    · have : h.connections.count webCon = 0 := List.count_eq_zero.2 hmem
      omega
    unfold Hub.handleUnregister
    simp only [hidx, hfound, ne_eq, not_true_eq_false, if_false]
    by_cases hu : (heap webCon).UserId = ""
    · rw [if_pos ((utf8ByteSize_eq_zero_iff _).2 hu), if_pos hu]
    · rw [if_neg (fun hz => hu ((utf8ByteSize_eq_zero_iff _).1 hz)), if_neg hu]
      cases h.connections.any
        (fun d => decide (d ≠ webCon) && decide ((heap webCon).UserId = (heap d).UserId))
        <;> simp

theorem fnv32aStep_lt (hash : Nat) (b : UInt8) : fnv32aStep hash b < 2 ^ 32 :=
  Nat.mod_lt _ (by norm_num)

theorem fnv32a_lt (bytes : List UInt8) : fnv32a bytes < 2 ^ 32 := by
  unfold fnv32a
  have key : ∀ (bs : List UInt8) (h0 : Nat), h0 < 2 ^ 32 → bs.foldl fnv32aStep h0 < 2 ^ 32 := by
    intro bs
    induction bs with
    | nil => intro h0 hlt; simpa using hlt
    | cons b bs ih => intro h0 _; exact ih _ (fnv32aStep_lt h0 b)
  exact key bytes _ (by norm_num)

/-- C4. Shard router: on a hub list of `n ≥ 1` hubs (`n` below `2^32`, so that the
conversion `uint32(len(hubs))` is exact, as it is for the `2 * NumCPU` hubs of `HubStart`),
`GetHubForUserId` returns the hub at index `fnv32a(bytes of the id) mod n`; the hash is a
32-bit value, the index lies in `0 .. n-1`, and it is the same for every hub list of the
same length. -/
theorem getHubForUserId_routes (hubs : List Hub) (userId : String)
    (hpos : 1 ≤ hubs.length) (hlt : hubs.length < 2 ^ 32) :
    fnv32a (stringBytes userId) < 2 ^ 32 ∧
    fnv32a (stringBytes userId) % hubs.length < hubs.length ∧
    hubIndexForUserId hubs userId = some (fnv32a (stringBytes userId) % hubs.length) ∧
    GetHubForUserId hubs userId = hubs[fnv32a (stringBytes userId) % hubs.length]? ∧
    (∃ hub, GetHubForUserId hubs userId = some hub) ∧
    (∀ hubs2 : List Hub, hubs2.length = hubs.length →
      hubIndexForUserId hubs2 userId = hubIndexForUserId hubs userId) := by
  have hmod : hubs.length % 2 ^ 32 = hubs.length := Nat.mod_eq_of_lt hlt
  have hidx : fnv32a (stringBytes userId) % hubs.length < hubs.length :=
    Nat.mod_lt _ (by omega)
  have h1 : hubIndexForUserId hubs userId
      = some (fnv32a (stringBytes userId) % hubs.length) := by
    unfold hubIndexForUserId
    simp only [hmod]
    rw [if_neg (by omega)]
  have h2 : GetHubForUserId hubs userId
      = hubs[fnv32a (stringBytes userId) % hubs.length]? := by
    unfold GetHubForUserId
    rw [h1]
  refine ⟨fnv32a_lt _, hidx, h1, h2, ?_, ?_⟩
  · rw [h2]
    exact ⟨hubs[fnv32a (stringBytes userId) % hubs.length], List.getElem?_eq_getElem hidx⟩
  · intro hubs2 hlen
    unfold hubIndexForUserId
    rw [hlen]

/-- C4 at two hubs and the user id `U1`. -/
theorem getHubForUserId_routes_witness :
    (1 ≤ [NewWebHub, { NewWebHub with connectionIndex := 1 }].length ∧
      [NewWebHub, { NewWebHub with connectionIndex := 1 }].length < 2 ^ 32) ∧
    GetHubForUserId [NewWebHub, { NewWebHub with connectionIndex := 1 }] "U1"
      = [NewWebHub, { NewWebHub with connectionIndex := 1 }][
          fnv32a (stringBytes "U1") %
            [NewWebHub, { NewWebHub with connectionIndex := 1 }].length]? :=
  ⟨⟨by decide, by decide⟩,
   (getHubForUserId_routes [NewWebHub, { NewWebHub with connectionIndex := 1 }] "U1"
    (by decide) (by decide)).2.2.2.1⟩

theorem handleUnregister_hub (h : Hub) (heap : Heap) (webCon : ConnId) :
    (h.handleUnregister heap webCon).hub
      = { h with connections := (h.handleUnregister heap webCon).hub.connections } ∧
    (h.handleUnregister heap webCon).heap = heap ∧
    (h.handleUnregister heap webCon).status = .running := by
  obtain ⟨connections, heq, _⟩ := handleUnregister_spec h heap webCon
  rw [heq]
  exact ⟨rfl, rfl, rfl⟩

/-- C6. Unregister removal: when `c` occurs exactly once in the list, the unregister case
ends normally with a list that no longer contains `c`, is one element shorter, and holds
every other connection as often as before; the list is the old one with the slot of `c`
(its index `i`) overwritten by the former last element and the last slot cut off, so
every slot other than `i` keeps its element.  Register followed by Unregister of a
connection that was not in the list gives back the original list. -/
theorem unregister_swap_removes (h : Hub) (heap : Heap) (c : ConnId)
    (hc : h.connections.count c = 1) :
    (h.handleUnregister heap c).status = .running ∧
    c ∉ (h.handleUnregister heap c).hub.connections ∧
    (h.handleUnregister heap c).hub.connections.length + 1 = h.connections.length ∧
    (∀ d, d ≠ c →
      (h.handleUnregister heap c).hub.connections.count d = h.connections.count d) ∧
    (∃ last, h.connections.getLast? = some last ∧
      (h.handleUnregister heap c).hub.connections
        = (h.connections.set (h.connections.indexOf c) last).dropLast ∧
      ∀ j, j < h.connections.length - 1 →
        (h.handleUnregister heap c).hub.connections[j]?
          = if j = h.connections.indexOf c then some last else h.connections[j]?) ∧
    (∀ h0 : Hub, c ∉ h0.connections →
      ((h0.handleRegister heap c).hub.handleUnregister heap c).hub.connections
        = h0.connections) := by
  obtain ⟨connections, heq, _, hperm, hone⟩ := handleUnregister_spec h heap c
  have hmem : c ∈ h.connections := List.count_pos_iff.1 (by omega)
  have hp := hperm hmem
  obtain ⟨last, hlast, hconn⟩ := hone hc
  have hidx : h.connections.indexOf c < h.connections.length := List.indexOf_lt_length.2 hmem
  rw [heq]
  refine ⟨rfl, ?_, ?_, ?_, ⟨last, ?_, ?_, ?_⟩, ?_⟩
  · show c ∉ connections
    intro hin
    have h1 : connections.count c = (h.connections.erase c).count c := hp.count_eq c
    rw [List.count_erase_self, hc] at h1
    have h2 : 0 < connections.count c := List.count_pos_iff.2 hin
    omega
  · show connections.length + 1 = h.connections.length
    rw [hp.length_eq, List.length_erase_of_mem hmem]
    omega
  · intro d hd
    show connections.count d = h.connections.count d
    rw [hp.count_eq d, List.count_erase_of_ne hd]
  · rw [List.getLast?_eq_getElem?]; exact hlast
  · show connections = _
    rw [hconn, List.dropLast_eq_take, List.length_set]
  · intro j hj
    show connections[j]? = _
    rw [hconn, List.getElem?_take_of_lt hj, List.getElem?_set]
    by_cases hji : h.connections.indexOf c = j
    · rw [if_pos hji, if_pos hji.symm, if_pos (hji ▸ hidx)]
    · rw [if_neg hji, if_neg (fun e => hji e.symm)]
  · intro h0 hnot
    obtain ⟨conns0, heq0, _, _, hone0⟩ :=
      handleUnregister_spec (h0.handleRegister heap c).hub heap c
    have hreg : (h0.handleRegister heap c).hub.connections = h0.connections ++ [c] := rfl
    have hcount : (h0.handleRegister heap c).hub.connections.count c = 1 := by
      rw [hreg, List.count_append, List.count_eq_zero.2 hnot]
      simp
    obtain ⟨last0, hlast0, hconn0⟩ := hone0 hcount
    rw [heq0]
    show conns0 = h0.connections
    rw [hconn0, hreg]
    have hl : last0 = c := by
      rw [hreg] at hlast0
      simpa using hlast0.symm
    rw [hl, List.indexOf_append_of_not_mem hnot, List.indexOf_cons_self, Nat.add_zero,
      List.set_append_right _ _ (Nat.le_refl _), Nat.sub_self, List.set_cons_zero,
      List.length_append, List.length_singleton, Nat.add_sub_cancel, List.take_left']
    rfl

/-- C6 on the list `[10, 11, 12, 13]`: unregistering `11` gives `[10, 13, 12]`. -/
theorem unregister_swap_removes_witness :
    [10, 11, 12, 13].count 11 = 1 ∧
    (({ NewWebHub with connections := [10, 11, 12, 13] } : Hub).handleUnregister
      (fun _ => ⟨"U1", ⟨[], 4, false⟩⟩) 11).hub.connections = [10, 13, 12] := by
  refine ⟨by decide, ?_⟩
  obtain ⟨_, _, _, _, ⟨last, hlast, hconn, _⟩, _⟩ :=
    unregister_swap_removes { NewWebHub with connections := [10, 11, 12, 13] }
      (fun _ => ⟨"U1", ⟨[], 4, false⟩⟩) 11 (by decide)
  have h13 : last = 13 := by
    have : [10, 11, 12, 13].getLast? = some last := hlast
    simpa using this.symm
  rw [hconn, h13]
  decide

/-- C7 (the code at the failing input). The unregister case never writes `connectionCount`:
after `Register(c)` then `Unregister(c)` on a new hub the list is empty again while
`connectionCount`, and with it `TotalWebsocketConnections`, is still 1. -/
theorem unregister_leaves_connectionCount :
    (NewWebHub.handleRegister (fun _ => ⟨"U1", ⟨[], 4, false⟩⟩) 7).hub.connectionCount = 1 ∧
    (((NewWebHub.handleRegister (fun _ => ⟨"U1", ⟨[], 4, false⟩⟩) 7).hub.handleUnregister
        (fun _ => ⟨"U1", ⟨[], 4, false⟩⟩) 7).hub.connections = []) ∧
    (((NewWebHub.handleRegister (fun _ => ⟨"U1", ⟨[], 4, false⟩⟩) 7).hub.handleUnregister
        (fun _ => ⟨"U1", ⟨[], 4, false⟩⟩) 7).hub.connectionCount = 1) ∧
    NewWebHub.connectionCount = 0 ∧
    TotalWebsocketConnections
      [((NewWebHub.handleRegister (fun _ => ⟨"U1", ⟨[], 4, false⟩⟩) 7).hub.handleUnregister
        (fun _ => ⟨"U1", ⟨[], 4, false⟩⟩) 7).hub] = 1 := by
  refine ⟨by decide, by decide, by decide, by decide, by decide⟩

/-- The unregister case leaves `connectionCount` as it was, whatever the list. -/
theorem handleUnregister_connectionCount (h : Hub) (heap : Heap) (webCon : ConnId) :
    (h.handleUnregister heap webCon).hub.connectionCount = h.connectionCount := by
  rw [(handleUnregister_hub h heap webCon).1]

/-- C9 (counterexample). Unregistering a connection that is not in the (empty) list of a
new hub emits the offline signal for its user. -/
theorem unregister_unknown_emits_offline :
    7 ∉ NewWebHub.connections ∧
    (NewWebHub.handleUnregister (fun _ => ⟨"U1", ⟨[], 4, false⟩⟩) 7).effects
      = [Effect.setStatusOffline "U1"] ∧
    (NewWebHub.handleUnregister (fun _ => ⟨"U1", ⟨[], 4, false⟩⟩) 7).effects ≠ [] := by
  refine ⟨by decide, by decide, by decide⟩

/-- C9 (amended). Unregister of a connection that is not in the list ends normally and
leaves the hub (list, counter, every other field) and the heap unchanged; its only
possible effect is the offline signal for the connection's user, emitted exactly when the
user id is non-empty and no list entry has that user id. -/
theorem unregister_unknown_frame (h : Hub) (heap : Heap) (c : ConnId)
    (hc : c ∉ h.connections) :
    (h.handleUnregister heap c).status = .running ∧
    (h.handleUnregister heap c).hub = h ∧
    (h.handleUnregister heap c).heap = heap ∧
    (h.handleUnregister heap c).effects
      = if (heap c).UserId ≠ "" ∧ ∀ d ∈ h.connections, (heap d).UserId ≠ (heap c).UserId
        then [Effect.setStatusOffline (heap c).UserId] else [] := by
  obtain ⟨connections, heq, hsame, _, _⟩ := handleUnregister_spec h heap c
  have hconn := hsame hc
  subst hconn
  rw [heq]
  refine ⟨rfl, rfl, rfl, ?_⟩
  show (if (heap c).UserId = "" then [] else _) = _
  by_cases hu : (heap c).UserId = ""
  · simp [hu]
  · by_cases hall : ∀ d ∈ h.connections, (heap d).UserId ≠ (heap c).UserId
    · have hany : h.connections.any
          (fun d => decide (d ≠ c) && decide ((heap c).UserId = (heap d).UserId)) = false := by
        rw [List.any_eq_false]
        intro d hd
        have hne := hall d hd
        have hne2 : ¬ (heap c).UserId = (heap d).UserId := fun e => hne e.symm
        simp [hne2]
      rw [if_neg hu, hany, if_neg Bool.false_ne_true, if_pos ⟨hu, hall⟩]
    · have hany : h.connections.any
          (fun d => decide (d ≠ c) && decide ((heap c).UserId = (heap d).UserId)) = true := by
        rw [List.any_eq_true]
        push_neg at hall
        obtain ⟨d, hd, hdu⟩ := hall
        refine ⟨d, hd, ?_⟩
        have hne : d ≠ c := fun e => hc (e ▸ hd)
        simp [hne, hdu]
      rw [if_neg hu, hany, if_pos rfl, if_neg (fun hh => hall hh.2)]

/-- C9 (amended) on a list that holds one connection of another user. -/
theorem unregister_unknown_frame_witness :
    7 ∉ ({ NewWebHub with connections := [3] } : Hub).connections ∧
    (({ NewWebHub with connections := [3] } : Hub).handleUnregister
      (fun c => if c = 3 then ⟨"U1", ⟨[], 4, false⟩⟩ else ⟨"U2", ⟨[], 4, false⟩⟩) 7).effects
      = [Effect.setStatusOffline "U2"] := by
  refine ⟨by decide, ?_⟩
  rw [(unregister_unknown_frame { NewWebHub with connections := [3] }
    (fun c => if c = 3 then ⟨"U1", ⟨[], 4, false⟩⟩ else ⟨"U2", ⟨[], 4, false⟩⟩) 7
    (by decide)).2.2.2]
  decide

theorem invalidateLoop_eq (heap : Heap) (userId : String) (l : List ConnId) :
    invalidateLoop heap userId l
      = (l.filter (fun c => decide ((heap c).UserId = userId))).map Effect.invalidateCache := by
  induction l with
  | nil => rfl
  | cons c rest ih =>
    unfold invalidateLoop
    by_cases hu : (heap c).UserId = userId
    · rw [if_pos hu, ih, List.filter_cons_of_pos (by simpa using hu), List.map_cons]
    · rw [if_neg hu, ih, List.filter_cons_of_neg (by simpa using hu)]

/-- C10. InvalidateUser: the case calls `InvalidateCache` on the list entries whose
`UserId` is `u`, once per entry and in list order, and on nothing else (these calls are
all of its effects); the hub (list membership and order, counter, all other fields) and
the heap, hence every Send queue, are unchanged, and the loop goes on. -/
theorem invalidateUser_only_invalidates (h : Hub) (heap : Heap) (u : String) :
    (h.handleInvalidateUser heap u).hub = h ∧
    (h.handleInvalidateUser heap u).heap = heap ∧
    (h.handleInvalidateUser heap u).status = .running ∧
    (h.handleInvalidateUser heap u).effects
      = (h.connections.filter (fun c => decide ((heap c).UserId = u))).map
          Effect.invalidateCache ∧
    (∀ c, (h.handleInvalidateUser heap u).effects.count (Effect.invalidateCache c)
      = if (heap c).UserId = u then h.connections.count c else 0) := by
  have heff : (h.handleInvalidateUser heap u).effects
      = (h.connections.filter (fun c => decide ((heap c).UserId = u))).map
          Effect.invalidateCache := invalidateLoop_eq heap u h.connections
  refine ⟨rfl, rfl, rfl, heff, ?_⟩
  intro c
  rw [heff]
  have hinj : Function.Injective Effect.invalidateCache := by
    intro a b hab
    cases hab
    rfl
  rw [List.count_map_of_injective _ _ hinj]
  by_cases hu : (heap c).UserId = u
  · rw [if_pos hu, List.count_filter (by simpa using hu)]
  · rw [if_neg hu, List.count_eq_zero]
    intro hmem
    have := (List.mem_filter.1 hmem).2
    exact hu (by simpa using this)

/-! ## The broadcast loop on a list without duplicates -/

theorem evictLoop_eq (webCon : ConnId) (s : BcastState) :
    ∀ (cands : List ConnId) (k : Nat),
      evictLoop webCon s cands k =
        if webCon ∈ cands then
          (swapWithLast s.arr s.len (k + cands.indexOf webCon)).map
            (fun r => { s with arr := r.1, len := r.2 })
        else some s := by
  intro cands
  induction cands with
  | nil => intro k; simp [evictLoop]
  | cons d rest ih =>
    intro k
    unfold evictLoop
    by_cases h1 : d = webCon
    · subst h1
      rw [if_pos rfl, if_pos (List.mem_cons_self _ _), List.indexOf_cons_self, Nat.add_zero]
      cases swapWithLast s.arr s.len k <;> rfl
    · rw [if_neg h1, ih, List.indexOf_cons_ne _ h1]
      have hiff : webCon ∈ d :: rest ↔ webCon ∈ rest := by
        constructor
        · intro h
          rcases List.mem_cons.1 h with h | h
          · exact absurd h.symm h1
          · exact h
        · exact List.mem_cons_of_mem _
      by_cases h2 : webCon ∈ rest
      · rw [if_pos h2, if_pos (hiff.2 h2)]
        congr 2
        omega
      · rw [if_neg h2, if_neg (fun h => h2 (hiff.1 h))]

theorem nodup_split (L : List ConnId) (i : Nat) (hi : i < L.length) (hnd : L.Nodup) :
    L.take (i + 1) = L.take i ++ [L[i]] ∧ L.drop i = L[i] :: L.drop (i + 1) ∧
    L[i] ∉ L.take i ∧ L[i] ∉ L.drop (i + 1) := by
  have h1 : L.take (i + 1) = L.take i ++ [L[i]] := by
    rw [List.take_succ, List.getElem?_eq_getElem hi]; rfl
  have h2 : L.drop i = L[i] :: L.drop (i + 1) := List.drop_eq_getElem_cons hi
  have h3 : L = L.take i ++ (L[i] :: L.drop (i + 1)) := by
    rw [← h2, List.take_append_drop]
  have h4 : (L.take i ++ (L[i] :: L.drop (i + 1))).Nodup := by rw [← h3]; exact hnd
  rw [List.nodup_append] at h4
  obtain ⟨_, h5, h6⟩ := h4
  refine ⟨h1, h2, ?_, (List.nodup_cons.1 h5).1⟩
  intro hmem
  exact h6 hmem (List.mem_cons_self _ _)

theorem bcastInv_nodup {ShouldSendEvent : ConnId → WebSocketEvent → Bool}
    {msg : WebSocketEvent} {L : List ConnId} {heap0 : Heap} {i : Nat} {s : BcastState}
    (hnd : L.Nodup) (inv : BcastInv ShouldSendEvent msg L heap0 i s) :
    s.connections.Nodup := by
  rw [inv.perm.nodup_iff]
  have hsub : List.Sublist
      ((L.take i).filter (fun c => !isEvicted ShouldSendEvent msg c (heap0 c)) ++ L.drop i)
      (L.take i ++ L.drop i) :=
    List.Sublist.append (List.filter_sublist _) (List.Sublist.refl _)
  rw [List.take_append_drop] at hsub
  exact hnd.sublist hsub

theorem broadcastBody_inv (ShouldSendEvent : ConnId → WebSocketEvent → Bool)
    (msg : WebSocketEvent) (L : List ConnId) (heap0 : Heap) (i : Nat) (s : BcastState)
    (hnd : L.Nodup)
    (hopen : ∀ c ∈ L, ShouldSendEvent c msg = true → (heap0 c).Send.closed = false)
    (hi : i < L.length) (inv : BcastInv ShouldSendEvent msg L heap0 i s) :
    ∃ s1, broadcastBody ShouldSendEvent msg i s = .ok s1 ∧
      BcastInv ShouldSendEvent msg L heap0 (i + 1) s1 := by
  obtain ⟨htake, hdrop, hnot1, hnot2⟩ := nodup_split L i hi hnd
  have hget : s.arr[i]? = some L[i] := by
    have h1 := congrArg (fun l => l[0]?) inv.drop_eq
    simp only [List.getElem?_drop, Nat.add_zero] at h1
    rw [h1, List.getElem?_eq_getElem hi]
  have hheap : s.heap L[i] = heap0 L[i] := by rw [inv.heap_eq, if_neg hnot1]
  have hdrop1 : s.arr.drop (i + 1) = L.drop (i + 1) := by
    rw [← List.tail_drop, ← List.tail_drop, inv.drop_eq]
  have hmemiff : ∀ c, c ∈ L.take (i + 1) ↔ (c ∈ L.take i ∨ c = L[i]) := by
    intro c
    rw [htake, List.mem_append, List.mem_singleton]
  unfold broadcastBody
  rw [hget]
  simp only [hheap]
  by_cases hs : ShouldSendEvent L[i] msg = true
  · have hclosed : (heap0 L[i]).Send.closed = false := hopen _ (List.getElem_mem hi) hs
    rw [if_pos hs, hclosed]
    simp only [Bool.false_eq_true, if_false]
    by_cases hroom : (heap0 L[i]).Send.buf.length < (heap0 L[i]).Send.cap
    · rw [if_pos hroom]
      refine ⟨_, rfl, ?_⟩
      have hev : isEvicted ShouldSendEvent msg L[i] (heap0 L[i]) = false := by
        simp [isEvicted, hs, hroom]
      constructor
      · exact inv.length_arr
      · exact inv.len_le
      · exact hdrop1
      · show List.Perm s.connections _
        refine inv.perm.trans ?_
        rw [htake, List.filter_append, hdrop, List.filter_cons_of_pos (by simp [hev]),
          List.filter_nil, List.append_assoc]
        rfl
      · intro c
        show Function.update s.heap L[i] _ c = _
        by_cases hc : c = L[i]
        · subst hc
          rw [Function.update_same, if_pos ((hmemiff _).2 (Or.inr rfl))]
          simp [broadcastOne, hs, hroom]
        · rw [Function.update_noteq hc, inv.heap_eq]
          by_cases hm : c ∈ L.take i
          · rw [if_pos hm, if_pos ((hmemiff c).2 (Or.inl hm))]
          · rw [if_neg hm, if_neg (fun h => ((hmemiff c).1 h).elim hm hc)]
      · show s.effects ++ _ = _
        rw [inv.effects_eq, htake, List.flatMap_append, List.flatMap_singleton]
        simp [broadcastOneEffects, hs, hroom]
    · rw [if_neg hroom]
      have hev : isEvicted ShouldSendEvent msg L[i] (heap0 L[i]) = true := by
        simp only [isEvicted, hs, Bool.true_and, decide_eq_true_eq]
        omega
      have hlenarr : s.len ≤ s.arr.length := by rw [inv.length_arr]; exact inv.len_le
      have hcurlen : s.connections.length = s.len := by
        simp [BcastState.connections, hlenarr]
      have hxmem : L[i] ∈ s.connections := by
        rw [inv.perm.mem_iff, hdrop]
        exact List.mem_append_right _ (List.mem_cons_self _ _)
      have hj : s.connections.indexOf L[i] < s.len := by
        rw [← hcurlen]; exact List.indexOf_lt_length.2 hxmem
      have hjget : s.connections[s.connections.indexOf L[i]]? = some L[i] :=
        List.getElem?_indexOf hxmem
      have hji : s.connections.indexOf L[i] ≤ i := by
        by_cases hlt : i < s.len
        · have hci : i < s.connections.length := by rw [hcurlen]; exact hlt
          have hcur : s.connections[i] = L[i] := by
            have h1 : s.connections[i]? = some L[i] := by
              show (s.arr.take s.len)[i]? = _
              rw [List.getElem?_take_of_lt hlt, hget]
            rw [List.getElem?_eq_getElem hci] at h1
            exact Option.some.inj h1
          have := List.indexOf_getElem (bcastInv_nodup hnd inv) i hci
          rw [hcur] at this
          omega
        · omega
      obtain ⟨last, hlast, hswap⟩ :=
        swapWithLast_eq s.arr s.len (s.connections.indexOf L[i]) hj hlenarr
      have hperm := (swapWithLast_perm s.arr s.len _ hj hlenarr _ hswap).2
      have hev2 : evictLoop L[i]
          { s with
            heap := Function.update s.heap L[i]
              { heap0 L[i] with Send := { (heap0 L[i]).Send with closed := true } },
            effects := s.effects ++
              [.logCannotSend (heap0 L[i]).UserId, .closeSend L[i]] }
          s.connections 0
          = some
            { arr := s.arr.set (s.connections.indexOf L[i]) last, len := s.len - 1,
              heap := Function.update s.heap L[i]
                { heap0 L[i] with Send := { (heap0 L[i]).Send with closed := true } },
              effects := s.effects ++
                [.logCannotSend (heap0 L[i]).UserId, .closeSend L[i]] } := by
        rw [evictLoop_eq, if_pos hxmem, Nat.zero_add]
        show Option.map _ (swapWithLast s.arr s.len _) = _
        rw [hswap]
        rfl
      refine ⟨{ arr := s.arr.set (s.connections.indexOf L[i]) last, len := s.len - 1,
                heap := Function.update s.heap L[i]
                  { heap0 L[i] with Send := { (heap0 L[i]).Send with closed := true } },
                effects := s.effects ++
                  [.logCannotSend (heap0 L[i]).UserId, .closeSend L[i]] }, ?_, ?_⟩
      · show (match evictLoop L[i] _ s.connections 0 with
          | some s2 => Except.ok s2
          | none => Except.error _) = _
        rw [hev2]
      · constructor
        · show (s.arr.set _ last).length = _
          rw [List.length_set]; exact inv.length_arr
        · show s.len - 1 ≤ L.length
          have := inv.len_le
          omega
        · show (s.arr.set _ last).drop (i + 1) = _
          rw [List.drop_set_of_lt _ _ (by omega)]
          exact hdrop1
        · show List.Perm ((s.arr.set _ last).take (s.len - 1)) _
          refine hperm.trans ?_
          refine (eraseIdx_perm_erase L[i] _ _ hjget).trans ?_
          refine (inv.perm.erase L[i]).trans ?_
          have hnotf : L[i] ∉
              (L.take i).filter (fun c => !isEvicted ShouldSendEvent msg c (heap0 c)) :=
            fun h => hnot1 (List.mem_filter.1 h).1
          rw [List.erase_append_right _ hnotf, hdrop, List.erase_cons_head, htake,
            List.filter_append, List.filter_cons_of_neg (by simp [hev]), List.filter_nil,
            List.append_nil]
        · intro c
          show Function.update s.heap L[i] _ c = _
          by_cases hc : c = L[i]
          · subst hc
            rw [Function.update_same, if_pos ((hmemiff _).2 (Or.inr rfl))]
            simp [broadcastOne, hs, hroom]
          · rw [Function.update_noteq hc, inv.heap_eq]
            by_cases hm : c ∈ L.take i
            · rw [if_pos hm, if_pos ((hmemiff c).2 (Or.inl hm))]
            · rw [if_neg hm, if_neg (fun h => ((hmemiff c).1 h).elim hm hc)]
        · show s.effects ++ _ = _
          rw [inv.effects_eq, htake, List.flatMap_append, List.flatMap_singleton]
          simp [broadcastOneEffects, hs, hroom]
  · rw [if_neg hs]
    have hsf : ShouldSendEvent L[i] msg = false := by simpa using hs
    refine ⟨s, rfl, ?_⟩
    have hev : isEvicted ShouldSendEvent msg L[i] (heap0 L[i]) = false := by
      simp [isEvicted, hsf]
    constructor
    · exact inv.length_arr
    · exact inv.len_le
    · exact hdrop1
    · refine inv.perm.trans ?_
      rw [htake, List.filter_append, hdrop, List.filter_cons_of_pos (by simp [hev]),
        List.filter_nil, List.append_assoc]
      rfl
    · intro c
      rw [inv.heap_eq]
      by_cases hc : c = L[i]
      · subst hc
        rw [if_neg hnot1, if_pos ((hmemiff _).2 (Or.inr rfl))]
        simp [broadcastOne, hsf]
      · by_cases hm : c ∈ L.take i
        · rw [if_pos hm, if_pos ((hmemiff c).2 (Or.inl hm))]
        · rw [if_neg hm, if_neg (fun h => ((hmemiff c).1 h).elim hm hc)]
    · rw [inv.effects_eq, htake, List.flatMap_append, List.flatMap_singleton]
      simp [broadcastOneEffects, hsf]

theorem broadcastLoop_inv (ShouldSendEvent : ConnId → WebSocketEvent → Bool)
    (msg : WebSocketEvent) (L : List ConnId) (heap0 : Heap)
    (hnd : L.Nodup)
    (hopen : ∀ c ∈ L, ShouldSendEvent c msg = true → (heap0 c).Send.closed = false) :
    ∀ (count i : Nat) (s : BcastState), i + count = L.length →
      BcastInv ShouldSendEvent msg L heap0 i s →
      ∃ s1, broadcastLoop ShouldSendEvent msg count i s = .ok s1 ∧
        BcastInv ShouldSendEvent msg L heap0 L.length s1 := by
  intro count
  induction count with
  | zero =>
    intro i s hlen inv
    have : i = L.length := by omega
    subst this
    exact ⟨s, rfl, inv⟩
  | succ k ih =>
    intro i s hlen inv
    obtain ⟨s1, hbody, inv1⟩ :=
      broadcastBody_inv ShouldSendEvent msg L heap0 i s hnd hopen (by omega) inv
    obtain ⟨s2, hloop, inv2⟩ := ih (i + 1) s1 (by omega) inv1
    refine ⟨s2, ?_, inv2⟩
    unfold broadcastLoop
    rw [hbody]
    exact hloop

/-- The broadcast case on a list without duplicates in which no connection in scope has a closed channel: the loop
ends normally, every connection of the list gets its share exactly once and in list
order, and the new list is a permutation of the connections that were not evicted. -/
theorem handleBroadcast_spec (ShouldSendEvent : ConnId → WebSocketEvent → Bool)
    (h : Hub) (heap : Heap) (msg : WebSocketEvent)
    (hnd : h.connections.Nodup)
    (hopen : ∀ c ∈ h.connections, ShouldSendEvent c msg = true →
      (heap c).Send.closed = false) :
    ∃ connections : List ConnId,
      h.handleBroadcast ShouldSendEvent heap msg =
        { hub := { h with connections := connections },
          heap := fun c =>
            if c ∈ h.connections then broadcastOne ShouldSendEvent msg c (heap c) else heap c,
          effects := h.connections.flatMap
            (fun c => broadcastOneEffects ShouldSendEvent msg c (heap c)),
          status := .running } ∧
      List.Perm connections
        (h.connections.filter (fun c => !isEvicted ShouldSendEvent msg c (heap c))) := by
  have inv0 : BcastInv ShouldSendEvent msg h.connections heap 0
      { arr := h.connections, len := h.connections.length, heap := heap, effects := [] } := by
    constructor
    · rfl
    · exact Nat.le_refl _
    · rfl
    · show List.Perm (h.connections.take h.connections.length) _
      simp
    · intro c; simp
    · simp
  obtain ⟨s1, hloop, inv1⟩ := broadcastLoop_inv ShouldSendEvent msg h.connections heap hnd hopen
    h.connections.length 0 _ (by omega) inv0
  refine ⟨s1.connections, ?_, ?_⟩
  · unfold Hub.handleBroadcast
    simp only [hloop]
    have hheap : s1.heap = fun c =>
        if c ∈ h.connections then broadcastOne ShouldSendEvent msg c (heap c) else heap c := by
      funext c
      have := inv1.heap_eq c
      rw [List.take_length] at this
      exact this
    have heff : s1.effects = h.connections.flatMap
        (fun c => broadcastOneEffects ShouldSendEvent msg c (heap c)) := by
      have := inv1.effects_eq
      rw [List.take_length] at this
      exact this
    rw [hheap, heff]
  · have := inv1.perm
    rw [List.take_length, List.drop_length, List.append_nil] at this
    exact this

/-! ## The broadcast loop on an arbitrary list: what it leaves alone -/

theorem BcastFrame.refl (ShouldSendEvent : ConnId → WebSocketEvent → Bool)
    (msg : WebSocketEvent) (s : BcastState) (hlen : s.len ≤ s.arr.length) :
    BcastFrame ShouldSendEvent msg s s :=
  ⟨hlen, fun _ h => h, fun _ h => h, fun _ _ => rfl, fun _ _ => rfl, fun _ => rfl,
    fun _ _ => rfl, fun _ => rfl, fun _ _ _ => rfl, fun _ => Nat.le_refl _⟩

theorem BcastFrame.trans {ShouldSendEvent : ConnId → WebSocketEvent → Bool}
    {msg : WebSocketEvent} {s s1 s2 : BcastState}
    (f1 : BcastFrame ShouldSendEvent msg s s1) (f2 : BcastFrame ShouldSendEvent msg s1 s2) :
    BcastFrame ShouldSendEvent msg s s2 where
  len_le := f2.len_le
  arr_sub := fun x hx => f1.arr_sub x (f2.arr_sub x hx)
  conn_sub := fun x hx => f1.conn_sub x (f2.conn_sub x hx)
  heap_out := fun c hc =>
    (f2.heap_out c (fun h1 => hc (f1.arr_sub c h1))).trans (f1.heap_out c hc)
  heap_skip := fun c hc => (f2.heap_skip c hc).trans (f1.heap_skip c hc)
  userId := fun c => (f2.userId c).trans (f1.userId c)
  count_skip := fun c hc => (f2.count_skip c hc).trans (f1.count_skip c hc)
  offline := fun u => (f2.offline u).trans (f1.offline u)
  enqueue_out := fun c m hc =>
    (f2.enqueue_out c m (fun h1 => hc (f1.arr_sub c h1))).trans (f1.enqueue_out c m hc)
  count_le := fun c => Nat.le_trans (f2.count_le c) (f1.count_le c)

theorem broadcastBody_frame (ShouldSendEvent : ConnId → WebSocketEvent → Bool)
    (msg : WebSocketEvent) (i : Nat) (s : BcastState) (hlen : s.len ≤ s.arr.length) :
    BcastFrame ShouldSendEvent msg s (endState (broadcastBody ShouldSendEvent msg i s)) := by
  unfold broadcastBody
  cases hget : s.arr[i]? with
  | none => exact BcastFrame.refl _ _ s hlen
  | some webCon =>
    have hmem : webCon ∈ s.arr := by
      rw [List.getElem?_eq_some_iff] at hget
      obtain ⟨hp, rfl⟩ := hget
      exact List.getElem_mem hp
    simp only
    by_cases hs : ShouldSendEvent webCon msg = true
    · rw [if_pos hs]
      by_cases hcl : (s.heap webCon).Send.closed = true
      · rw [if_pos hcl]; exact BcastFrame.refl _ _ s hlen
      · rw [if_neg hcl]
        have hne1 : ∀ c, c ∉ s.arr → c ≠ webCon := fun c hc e => hc (e ▸ hmem)
        have hne2 : ∀ c, ShouldSendEvent c msg = false → c ≠ webCon := by
          intro c hc e
          rw [e, hs] at hc
          exact Bool.noConfusion hc
        by_cases hroom : (s.heap webCon).Send.buf.length < (s.heap webCon).Send.cap
        · rw [if_pos hroom]
          refine ⟨hlen, fun _ h => h, fun _ h => h, ?_, ?_, ?_, fun _ _ => rfl, ?_, ?_,
            fun _ => Nat.le_refl _⟩
          · intro c hc
            exact Function.update_noteq (hne1 c hc) _ _
          · intro c hc
            exact Function.update_noteq (hne2 c hc) _ _
          · intro c
            show (Function.update s.heap webCon _ c).UserId = _
            by_cases hc : c = webCon
            · subst hc; rw [Function.update_same]
            · rw [Function.update_noteq hc]
          · intro u
            show (s.effects ++ [Effect.enqueue webCon msg]).count _ = _
            rw [List.count_append]
            simp
          · intro c m hc
            show (s.effects ++ [Effect.enqueue webCon msg]).count _ = _
            rw [List.count_append]
            have : c ≠ webCon := hne1 c hc
            simp [List.count_cons, this.symm]
        · rw [if_neg hroom]
          have hheapU : ∀ c, (Function.update s.heap webCon
              { s.heap webCon with Send := { (s.heap webCon).Send with closed := true } }
              c).UserId = (s.heap c).UserId := by
            intro c
            by_cases hc : c = webCon
            · subst hc; rw [Function.update_same]
            · rw [Function.update_noteq hc]
          have hoff : ∀ u, (s.effects ++
              [Effect.logCannotSend (s.heap webCon).UserId, Effect.closeSend webCon]).count
              (.setStatusOffline u) = s.effects.count (.setStatusOffline u) := by
            intro u
            rw [List.count_append]
            simp [List.count_cons]
          have henq : ∀ c m, (s.effects ++
              [Effect.logCannotSend (s.heap webCon).UserId, Effect.closeSend webCon]).count
              (.enqueue c m) = s.effects.count (.enqueue c m) := by
            intro c m
            rw [List.count_append]
            simp [List.count_cons]
          rw [evictLoop_eq]
          by_cases hin : webCon ∈ s.connections
          · have hin1 : webCon ∈ BcastState.connections
                { s with
                  heap := Function.update s.heap webCon
                    { s.heap webCon with
                      Send := { (s.heap webCon).Send with closed := true } },
                  effects := s.effects ++
                    [Effect.logCannotSend (s.heap webCon).UserId,
                      Effect.closeSend webCon] } := hin
            rw [if_pos hin1, Nat.zero_add]
            have hcurlen : s.connections.length = s.len := by
              simp [BcastState.connections, hlen]
            have hj : s.connections.indexOf webCon < s.len := by
              rw [← hcurlen]; exact List.indexOf_lt_length.2 hin
            have hjget : s.connections[s.connections.indexOf webCon]? = some webCon :=
              List.getElem?_indexOf hin
            obtain ⟨last, hlast, hswap⟩ :=
              swapWithLast_eq s.arr s.len (s.connections.indexOf webCon) hj hlen
            have hperm := (swapWithLast_perm s.arr s.len _ hj hlen _ hswap).2
            have hperm2 : List.Perm
                ((s.arr.set (s.connections.indexOf webCon) last).take (s.len - 1))
                (s.connections.erase webCon) :=
              hperm.trans (eraseIdx_perm_erase webCon _ _ hjget)
            show BcastFrame ShouldSendEvent msg s
              (endState (match Option.map _ (swapWithLast s.arr s.len
                (s.connections.indexOf webCon)) with
              | some s2 => Except.ok s2
              | none => Except.error _))
            rw [hswap]
            have hlastmem : last ∈ s.arr := by
              rw [List.getElem?_eq_some_iff] at hlast
              obtain ⟨hp, rfl⟩ := hlast
              exact List.getElem_mem hp
            refine ⟨?_, ?_, ?_, ?_, ?_, hheapU, ?_, hoff, fun c m _ => henq c m, ?_⟩
            · show s.len - 1 ≤ (s.arr.set _ last).length
              rw [List.length_set]; omega
            · intro x hx
              rcases List.mem_or_eq_of_mem_set hx with h1 | h1
              · exact h1
              · exact h1 ▸ hlastmem
            · intro x hx
              have hx1 : x ∈ s.connections.erase webCon := hperm2.mem_iff.1 hx
              exact List.mem_of_mem_erase hx1
            · intro c hc
              exact Function.update_noteq (hne1 c hc) _ _
            · intro c hc
              exact Function.update_noteq (hne2 c hc) _ _
            · intro c hc
              show ((s.arr.set _ last).take (s.len - 1)).count c = _
              rw [hperm2.count_eq, List.count_erase_of_ne (hne2 c hc)]
            · intro c
              show ((s.arr.set _ last).take (s.len - 1)).count c ≤ _
              rw [hperm2.count_eq]
              exact (List.erase_sublist webCon s.connections).count_le c
          · have hin1 : webCon ∉ BcastState.connections
                { s with
                  heap := Function.update s.heap webCon
                    { s.heap webCon with
                      Send := { (s.heap webCon).Send with closed := true } },
                  effects := s.effects ++
                    [Effect.logCannotSend (s.heap webCon).UserId,
                      Effect.closeSend webCon] } := hin
            rw [if_neg hin1]
            refine ⟨hlen, fun _ h => h, fun _ h => h, ?_, ?_, hheapU, fun _ _ => rfl, hoff,
              fun c m _ => henq c m, fun _ => Nat.le_refl _⟩
            · intro c hc
              exact Function.update_noteq (hne1 c hc) _ _
            · intro c hc
              exact Function.update_noteq (hne2 c hc) _ _
    · rw [if_neg hs]; exact BcastFrame.refl _ _ s hlen

theorem broadcastLoop_frame (ShouldSendEvent : ConnId → WebSocketEvent → Bool)
    (msg : WebSocketEvent) :
    ∀ (count i : Nat) (s : BcastState), s.len ≤ s.arr.length →
      BcastFrame ShouldSendEvent msg s (endState (broadcastLoop ShouldSendEvent msg count i s)) := by
  intro count
  induction count with
  | zero => intro i s hlen; exact BcastFrame.refl _ _ s hlen
  | succ k ih =>
    intro i s hlen
    have hb := broadcastBody_frame ShouldSendEvent msg i s hlen
    unfold broadcastLoop
    cases hbody : broadcastBody ShouldSendEvent msg i s with
    | error s1 =>
      rw [hbody] at hb
      exact hb
    | ok s1 =>
      rw [hbody] at hb
      exact hb.trans (ih (i + 1) s1 hb.len_le)

theorem handleBroadcast_eq (ShouldSendEvent : ConnId → WebSocketEvent → Bool)
    (h : Hub) (heap : Heap) (msg : WebSocketEvent) :
    ∃ s1 : BcastState,
      BcastFrame ShouldSendEvent msg
        { arr := h.connections, len := h.connections.length, heap := heap, effects := [] } s1 ∧
      (h.handleBroadcast ShouldSendEvent heap msg).hub
        = { h with connections := s1.connections } ∧
      (h.handleBroadcast ShouldSendEvent heap msg).heap = s1.heap ∧
      (h.handleBroadcast ShouldSendEvent heap msg).effects = s1.effects ∧
      (h.handleBroadcast ShouldSendEvent heap msg).status ≠ .stopped := by
  have hf := broadcastLoop_frame ShouldSendEvent msg h.connections.length 0
    { arr := h.connections, len := h.connections.length, heap := heap, effects := [] }
    (Nat.le_refl _)
  cases hloop : broadcastLoop ShouldSendEvent msg h.connections.length 0
    { arr := h.connections, len := h.connections.length, heap := heap, effects := [] } with
  | ok s1 =>
    rw [hloop] at hf
    refine ⟨s1, hf, ?_, ?_, ?_, ?_⟩ <;> unfold Hub.handleBroadcast <;> simp only [hloop]
    simp
  | error s1 =>
    rw [hloop] at hf
    refine ⟨s1, hf, ?_, ?_, ?_, ?_⟩ <;> unfold Hub.handleBroadcast <;> simp only [hloop]
    simp

/-- The broadcast case on any list: it never returns from the loop, changes no field of
the hub but the list, which it can only shorten, leaves alone every connection that is
not in the list or not in scope, keeps every `UserId`, and emits no offline signal. -/
theorem handleBroadcast_frame (ShouldSendEvent : ConnId → WebSocketEvent → Bool)
    (h : Hub) (heap : Heap) (msg : WebSocketEvent) :
    (h.handleBroadcast ShouldSendEvent heap msg).hub
      = { h with connections := (h.handleBroadcast ShouldSendEvent heap msg).hub.connections } ∧
    (h.handleBroadcast ShouldSendEvent heap msg).status ≠ .stopped ∧
    (∀ x ∈ (h.handleBroadcast ShouldSendEvent heap msg).hub.connections, x ∈ h.connections) ∧
    (∀ c, c ∉ h.connections → (h.handleBroadcast ShouldSendEvent heap msg).heap c = heap c) ∧
    (∀ c, ShouldSendEvent c msg = false →
      (h.handleBroadcast ShouldSendEvent heap msg).heap c = heap c ∧
      (h.handleBroadcast ShouldSendEvent heap msg).hub.connections.count c
        = h.connections.count c) ∧
    (∀ c, ((h.handleBroadcast ShouldSendEvent heap msg).heap c).UserId = (heap c).UserId) ∧
    (∀ u, (h.handleBroadcast ShouldSendEvent heap msg).effects.count
      (.setStatusOffline u) = 0) ∧
    (∀ c m, c ∉ h.connections →
      (h.handleBroadcast ShouldSendEvent heap msg).effects.count (.enqueue c m) = 0) := by
  obtain ⟨s1, hf, hhub, hheap, heff, hst⟩ := handleBroadcast_eq ShouldSendEvent h heap msg
  have hconn0 : BcastState.connections
      { arr := h.connections, len := h.connections.length, heap := heap, effects := [] }
      = h.connections := by
    simp [BcastState.connections]
  rw [hhub, hheap, heff]
  refine ⟨rfl, hst, ?_, ?_, ?_, ?_, ?_, ?_⟩
  · intro x hx
    have := hf.conn_sub x hx
    rw [hconn0] at this
    exact this
  · intro c hc
    exact hf.heap_out c hc
  · intro c hc
    refine ⟨hf.heap_skip c hc, ?_⟩
    have := hf.count_skip c hc
    rw [hconn0] at this
    exact this
  · intro c
    exact hf.userId c
  · intro u
    have := hf.offline u
    simpa using this
  · intro c m hc
    have := hf.enqueue_out c m hc
    simpa using this

/-- A connection that is not in the list stays out of it and is not touched, whatever
message is handled, unless the message registers it. -/
theorem step_absent (ShouldSendEvent : ConnId → WebSocketEvent → Bool)
    (h : Hub) (heap : Heap) (m : Msg) (c : ConnId)
    (hc : c ∉ h.connections) (hm : m ≠ .register c) :
    c ∉ (h.step ShouldSendEvent heap m).hub.connections ∧
    (h.step ShouldSendEvent heap m).heap c = heap c ∧
    (∀ e, (h.step ShouldSendEvent heap m).effects.count (.enqueue c e) = 0) := by
  cases m with
  | register d =>
    have hne : c ≠ d := fun e => hm (by rw [e])
    refine ⟨?_, rfl, fun _ => rfl⟩
    show c ∉ h.connections ++ [d]
    simp [hc, hne]
  | unregister d =>
    obtain ⟨connections, heq, hsame, hperm, _⟩ := handleUnregister_spec h heap d
    show c ∉ (h.handleUnregister heap d).hub.connections ∧
      (h.handleUnregister heap d).heap c = heap c ∧
      ∀ e, (h.handleUnregister heap d).effects.count (.enqueue c e) = 0
    rw [heq]
    refine ⟨?_, rfl, ?_⟩
    · show c ∉ connections
      by_cases hd : d ∈ h.connections
      · intro hin
        exact hc (List.mem_of_mem_erase ((hperm hd).mem_iff.1 hin))
      · rw [hsame hd]; exact hc
    · intro e
      show List.count _ (if (heap d).UserId = "" then [] else _) = 0
      split_ifs <;> simp [List.count_cons]
  | invalidateUser u =>
    refine ⟨hc, rfl, ?_⟩
    intro e
    show (invalidateLoop heap u h.connections).count _ = 0
    rw [invalidateLoop_eq, List.count_eq_zero]
    intro hin
    obtain ⟨_, _, hx⟩ := List.mem_map.1 hin
    cases hx
  | broadcast msg =>
    obtain ⟨_, _, hsub, hout, _, _, _, henq⟩ := handleBroadcast_frame ShouldSendEvent h heap msg
    exact ⟨fun hin => hc (hsub c hin), hout c hc, fun e => henq c e hc⟩
  | stop arg =>
    refine ⟨hc, rfl, ?_⟩
    intro e
    show (h.connections.map Effect.webSocketClose).count _ = 0
    rw [List.count_eq_zero]
    intro hin
    obtain ⟨_, _, hx⟩ := List.mem_map.1 hin
    cases hx

theorem run_absent (ShouldSendEvent : ConnId → WebSocketEvent → Bool) (c : ConnId) :
    ∀ (ms : List Msg) (h : Hub) (heap : Heap), c ∉ h.connections → Msg.register c ∉ ms →
      c ∉ (Hub.run ShouldSendEvent ms h heap).hub.connections ∧
      (Hub.run ShouldSendEvent ms h heap).heap c = heap c ∧
      (∀ e, (Hub.run ShouldSendEvent ms h heap).effects.count (.enqueue c e) = 0) := by
  intro ms
  induction ms with
  | nil => intro h heap hc _; exact ⟨hc, rfl, fun _ => rfl⟩
  | cons m ms ih =>
    intro h heap hc hms
    have hm : m ≠ .register c := fun e => hms (by rw [e]; exact List.mem_cons_self _ _)
    have hms1 : Msg.register c ∉ ms := fun hin => hms (List.mem_cons_of_mem _ hin)
    obtain ⟨h1, h2, h3⟩ := step_absent ShouldSendEvent h heap m c hc hm
    obtain ⟨i1, i2, i3⟩ := ih (h.step ShouldSendEvent heap m).hub
      (h.step ShouldSendEvent heap m).heap h1 hms1
    unfold Hub.run
    simp only
    cases hst : (h.step ShouldSendEvent heap m).status with
    | stopped => exact ⟨h1, h2, h3⟩
    | running =>
      refine ⟨i1, i2.trans h2, ?_⟩
      intro e
      show List.count _ (_ ++ _) = 0
      rw [List.count_append, h3 e, i3 e]
    | panicked =>
      by_cases hex : (h.step ShouldSendEvent heap m).hub.ExplicitStop = true
      · simp only [hex, if_true]
        exact ⟨h1, h2, h3⟩
      · simp only [hex]
        refine ⟨i1, i2.trans h2, ?_⟩
        intro e
        show List.count _ (_ ++ _) = 0
        rw [List.count_append, h3 e, i3 e]

theorem run_cons_continue (ShouldSendEvent : ConnId → WebSocketEvent → Bool)
    (m : Msg) (ms : List Msg) (h : Hub) (heap : Heap)
    (hst : (h.step ShouldSendEvent heap m).status = .running ∨
      ((h.step ShouldSendEvent heap m).status = .panicked ∧
        (h.step ShouldSendEvent heap m).hub.ExplicitStop = false)) :
    Hub.run ShouldSendEvent (m :: ms) h heap
      = { hub := (Hub.run ShouldSendEvent ms (h.step ShouldSendEvent heap m).hub
            (h.step ShouldSendEvent heap m).heap).hub,
          heap := (Hub.run ShouldSendEvent ms (h.step ShouldSendEvent heap m).hub
            (h.step ShouldSendEvent heap m).heap).heap,
          effects := (h.step ShouldSendEvent heap m).effects ++
            (Hub.run ShouldSendEvent ms (h.step ShouldSendEvent heap m).hub
              (h.step ShouldSendEvent heap m).heap).effects,
          status := (Hub.run ShouldSendEvent ms (h.step ShouldSendEvent heap m).hub
            (h.step ShouldSendEvent heap m).heap).status } := by
  rw [Hub.run]
  rcases hst with hst | ⟨hst, hex⟩
  · simp only [hst]
  · simp only [hst, hex, Bool.false_eq_true, if_false]

theorem count_flatMap_owner (e : Effect) (c : ConnId) (f : ConnId → List Effect)
    (hown : ∀ d, d ≠ c → e ∉ f d) :
    ∀ L : List ConnId, (L.flatMap f).count e = L.count c * (f c).count e := by
  intro L
  induction L with
  | nil => simp
  | cons d L ih =>
    rw [List.flatMap_cons, List.count_append, ih]
    by_cases hd : d = c
    · subst hd
      rw [List.count_cons_self, Nat.add_mul, Nat.one_mul, Nat.add_comm]
    · rw [List.count_eq_zero.2 (hown d hd), List.count_cons_of_ne (fun e => hd e.symm),
        Nat.zero_add]

theorem enqueue_not_mem_broadcastOneEffects (ShouldSendEvent : ConnId → WebSocketEvent → Bool)
    (msg e : WebSocketEvent) (c d : ConnId) (conn : WebConn) (hd : d ≠ c) :
    Effect.enqueue c e ∉ broadcastOneEffects ShouldSendEvent msg d conn := by
  unfold broadcastOneEffects
  split_ifs <;> simp [hd.symm]

theorem closeSend_not_mem_broadcastOneEffects (ShouldSendEvent : ConnId → WebSocketEvent → Bool)
    (msg : WebSocketEvent) (c d : ConnId) (conn : WebConn) (hd : d ≠ c) :
    Effect.closeSend c ∉ broadcastOneEffects ShouldSendEvent msg d conn := by
  unfold broadcastOneEffects
  split_ifs <;> simp [hd.symm]

/-- The broadcast case keeps the list free of duplicates, and a connection that is still
in the list afterwards was in it before and has its channel neither closed nor opened. -/
theorem handleBroadcast_keeps_wf (ShouldSendEvent : ConnId → WebSocketEvent → Bool)
    (h : Hub) (heap : Heap) (msg : WebSocketEvent)
    (hnd : h.connections.Nodup)
    (hopen : ∀ c ∈ h.connections, ShouldSendEvent c msg = true →
      (heap c).Send.closed = false) :
    (h.handleBroadcast ShouldSendEvent heap msg).hub.connections.Nodup ∧
    (∀ c ∈ (h.handleBroadcast ShouldSendEvent heap msg).hub.connections,
      c ∈ h.connections ∧
      ((h.handleBroadcast ShouldSendEvent heap msg).heap c).Send.closed
        = (heap c).Send.closed) := by
  obtain ⟨connections, heq, hperm⟩ := handleBroadcast_spec ShouldSendEvent h heap msg hnd hopen
  rw [heq]
  refine ⟨?_, ?_⟩
  · show connections.Nodup
    rw [hperm.nodup_iff]
    exact hnd.filter _
  · intro c hc
    have hc1 : c ∈ connections := hc
    have hf := List.mem_filter.1 (hperm.mem_iff.1 hc1)
    have hmem := hf.1
    have hne : isEvicted ShouldSendEvent msg c (heap c) = false := by simpa using hf.2
    refine ⟨hmem, ?_⟩
    show (if c ∈ h.connections then broadcastOne ShouldSendEvent msg c (heap c)
      else heap c).Send.closed = _
    rw [if_pos hmem]
    unfold broadcastOne
    by_cases hs : ShouldSendEvent c msg = true
    · rw [if_pos hs]
      by_cases hroom : (heap c).Send.buf.length < (heap c).Send.cap
      · rw [if_pos hroom]
        rfl
      · exfalso
        have : isEvicted ShouldSendEvent msg c (heap c) = true := by
          simp only [isEvicted, hs, Bool.true_and, decide_eq_true_eq]
          omega
        rw [hne] at this
        exact Bool.noConfusion this
    · rw [if_neg hs]

/-- C1 (amended). Broadcast isolation: on a list without duplicates in which no
connection in scope for `m` has an already closed Send channel, handling `Broadcast(m)`
ends normally; its effects are, connection by connection in list order, the share of
each connection exactly once, and the new state of a connection is a function of that
connection alone.  A connection in scope with room has `m` appended to its queue exactly
once and stays in the list; a connection out of scope keeps its state (queue included,
full or not) and its place in the list, and nothing is sent to it.  Evictions of other
connections in the same loop change none of this. -/
theorem broadcast_isolation (ShouldSendEvent : ConnId → WebSocketEvent → Bool)
    (h : Hub) (heap : Heap) (m : WebSocketEvent)
    (hnd : h.connections.Nodup)
    (hopen : ∀ c ∈ h.connections, ShouldSendEvent c m = true →
      (heap c).Send.closed = false) :
    (h.handleBroadcast ShouldSendEvent heap m).status = .running ∧
    (h.handleBroadcast ShouldSendEvent heap m).effects
      = h.connections.flatMap (fun c => broadcastOneEffects ShouldSendEvent m c (heap c)) ∧
    (∀ c, (h.handleBroadcast ShouldSendEvent heap m).heap c
      = if c ∈ h.connections then broadcastOne ShouldSendEvent m c (heap c) else heap c) ∧
    (∀ c ∈ h.connections, ShouldSendEvent c m = true →
      (heap c).Send.buf.length < (heap c).Send.cap →
      ((h.handleBroadcast ShouldSendEvent heap m).heap c).Send.buf = (heap c).Send.buf ++ [m] ∧
      ((h.handleBroadcast ShouldSendEvent heap m).heap c).Send.closed = false ∧
      (h.handleBroadcast ShouldSendEvent heap m).effects.count (.enqueue c m) = 1 ∧
      (h.handleBroadcast ShouldSendEvent heap m).hub.connections.count c = 1) ∧
    (∀ c ∈ h.connections, ShouldSendEvent c m = false →
      (h.handleBroadcast ShouldSendEvent heap m).heap c = heap c ∧
      (h.handleBroadcast ShouldSendEvent heap m).hub.connections.count c = 1 ∧
      ∀ e, (h.handleBroadcast ShouldSendEvent heap m).effects.count (.enqueue c e) = 0) := by
  obtain ⟨hnd1, _⟩ := handleBroadcast_keeps_wf ShouldSendEvent h heap m hnd hopen
  obtain ⟨connections, heq, hperm⟩ := handleBroadcast_spec ShouldSendEvent h heap m hnd hopen
  rw [heq] at hnd1 ⊢
  have hnd2 : connections.Nodup := hnd1
  have hstay : ∀ c ∈ h.connections, isEvicted ShouldSendEvent m c (heap c) = false →
      connections.count c = 1 := by
    intro c hc hev
    apply List.count_eq_one_of_mem hnd2
    rw [hperm.mem_iff, List.mem_filter]
    exact ⟨hc, by simp [hev]⟩
  refine ⟨rfl, rfl, fun _ => rfl, ?_, ?_⟩
  · intro c hc hs hroom
    have hev : isEvicted ShouldSendEvent m c (heap c) = false := by
      simp [isEvicted, hs, hroom]
    refine ⟨?_, ?_, ?_, hstay c hc hev⟩
    · show (if c ∈ h.connections then broadcastOne ShouldSendEvent m c (heap c)
        else heap c).Send.buf = _
      rw [if_pos hc]
      simp [broadcastOne, hs, hroom, SendChan.push]
    · show (if c ∈ h.connections then broadcastOne ShouldSendEvent m c (heap c)
        else heap c).Send.closed = _
      rw [if_pos hc]
      simp [broadcastOne, hs, hroom, SendChan.push, hopen c hc hs]
    · show List.count _ (h.connections.flatMap _) = 1
      rw [count_flatMap_owner (.enqueue c m) c _
        (fun d hd => enqueue_not_mem_broadcastOneEffects ShouldSendEvent m m c d _ hd),
        List.count_eq_one_of_mem hnd hc]
      simp [broadcastOneEffects, hs, hroom]
  · intro c hc hs
    have hev : isEvicted ShouldSendEvent m c (heap c) = false := by
      simp [isEvicted, hs]
    refine ⟨?_, hstay c hc hev, ?_⟩
    · show (if c ∈ h.connections then broadcastOne ShouldSendEvent m c (heap c)
        else heap c) = _
      rw [if_pos hc]
      simp [broadcastOne, hs]
    · intro e
      show List.count _ (h.connections.flatMap _) = 0
      rw [count_flatMap_owner (.enqueue c e) c _
        (fun d hd => enqueue_not_mem_broadcastOneEffects ShouldSendEvent m e c d _ hd)]
      simp [broadcastOneEffects, hs]

/-- C2 (amended). Backpressure eviction: on a list without duplicates in which no
connection in scope for `m` has an already closed Send channel, after `Broadcast(m)` the
list is a permutation of the old list minus exactly the connections in scope whose queue
was full.  Each of those has its Send channel closed by exactly one `close`, its queue
unchanged (it did not receive `m`), and is out of the list; as long as no `Register` for
it is handled, whatever else is, it stays out of the list, its state is not touched and
nothing is sent to it. -/
theorem broadcast_evicts_full (ShouldSendEvent : ConnId → WebSocketEvent → Bool)
    (h : Hub) (heap : Heap) (m : WebSocketEvent)
    (hnd : h.connections.Nodup)
    (hopen : ∀ c ∈ h.connections, ShouldSendEvent c m = true →
      (heap c).Send.closed = false) :
    (h.handleBroadcast ShouldSendEvent heap m).status = .running ∧
    List.Perm (h.handleBroadcast ShouldSendEvent heap m).hub.connections
      (h.connections.filter (fun c =>
        !(ShouldSendEvent c m && decide ((heap c).Send.cap ≤ (heap c).Send.buf.length)))) ∧
    (∀ c ∈ h.connections, ShouldSendEvent c m = true →
      (heap c).Send.cap ≤ (heap c).Send.buf.length →
      c ∉ (h.handleBroadcast ShouldSendEvent heap m).hub.connections ∧
      ((h.handleBroadcast ShouldSendEvent heap m).heap c).Send.closed = true ∧
      ((h.handleBroadcast ShouldSendEvent heap m).heap c).Send.buf = (heap c).Send.buf ∧
      (h.handleBroadcast ShouldSendEvent heap m).effects.count (.closeSend c) = 1 ∧
      (∀ e, (h.handleBroadcast ShouldSendEvent heap m).effects.count (.enqueue c e) = 0) ∧
      ∀ ms : List Msg, Msg.register c ∉ ms →
        c ∉ (Hub.run ShouldSendEvent ms (h.handleBroadcast ShouldSendEvent heap m).hub
          (h.handleBroadcast ShouldSendEvent heap m).heap).hub.connections ∧
        (Hub.run ShouldSendEvent ms (h.handleBroadcast ShouldSendEvent heap m).hub
          (h.handleBroadcast ShouldSendEvent heap m).heap).heap c
          = (h.handleBroadcast ShouldSendEvent heap m).heap c ∧
        ∀ e, (Hub.run ShouldSendEvent ms (h.handleBroadcast ShouldSendEvent heap m).hub
          (h.handleBroadcast ShouldSendEvent heap m).heap).effects.count (.enqueue c e) = 0) := by
  obtain ⟨connections, heq, hperm⟩ := handleBroadcast_spec ShouldSendEvent h heap m hnd hopen
  have hconn : (h.handleBroadcast ShouldSendEvent heap m).hub.connections = connections := by
    rw [heq]
  have hheap : ∀ c, (h.handleBroadcast ShouldSendEvent heap m).heap c
      = if c ∈ h.connections then broadcastOne ShouldSendEvent m c (heap c) else heap c := by
    intro c; rw [heq]
  have heff : (h.handleBroadcast ShouldSendEvent heap m).effects
      = h.connections.flatMap (fun c => broadcastOneEffects ShouldSendEvent m c (heap c)) := by
    rw [heq]
  refine ⟨by rw [heq], ?_, ?_⟩
  · rw [hconn]; exact hperm
  · intro c hc hs hfull
    have hroom : ¬ (heap c).Send.buf.length < (heap c).Send.cap := by omega
    have hev : isEvicted ShouldSendEvent m c (heap c) = true := by
      simp [isEvicted, hs, hfull]
    have hout : c ∉ (h.handleBroadcast ShouldSendEvent heap m).hub.connections := by
      rw [hconn, hperm.mem_iff, List.mem_filter]
      intro hh
      have := hh.2
      simp [hev] at this
    refine ⟨hout, ?_, ?_, ?_, ?_, ?_⟩
    · rw [hheap, if_pos hc]
      simp [broadcastOne, hs, hroom]
    · rw [hheap, if_pos hc]
      simp [broadcastOne, hs, hroom]
    · rw [heff, count_flatMap_owner (.closeSend c) c _
        (fun d hd => closeSend_not_mem_broadcastOneEffects ShouldSendEvent m c d _ hd),
        List.count_eq_one_of_mem hnd hc]
      simp [broadcastOneEffects, hs, hroom, List.count_cons]
    · intro e
      rw [heff, count_flatMap_owner (.enqueue c e) c _
        (fun d hd => enqueue_not_mem_broadcastOneEffects ShouldSendEvent m e c d _ hd)]
      simp [broadcastOneEffects, hs, hroom, List.count_cons]
    · intro ms hms
      exact run_absent ShouldSendEvent c ms _ _ hout hms

/-- A connection that survives a broadcast has `msg` appended to its queue if it is
in scope, and keeps its queue otherwise. -/
theorem handleBroadcast_survivor (ShouldSendEvent : ConnId → WebSocketEvent → Bool)
    (h : Hub) (heap : Heap) (msg : WebSocketEvent)
    (hnd : h.connections.Nodup)
    (hopen : ∀ c ∈ h.connections, ShouldSendEvent c msg = true →
      (heap c).Send.closed = false) :
    (h.handleBroadcast ShouldSendEvent heap msg).status = .running ∧
    ∀ c ∈ h.connections, c ∈ (h.handleBroadcast ShouldSendEvent heap msg).hub.connections →
      ((h.handleBroadcast ShouldSendEvent heap msg).heap c).Send.buf
        = (heap c).Send.buf ++ [msg].filter (fun m => ShouldSendEvent c m) := by
  obtain ⟨connections, heq, hperm⟩ := handleBroadcast_spec ShouldSendEvent h heap msg hnd hopen
  rw [heq]
  refine ⟨rfl, ?_⟩
  intro c hc hc1
  have hc2 : c ∈ connections := hc1
  have hf := (List.mem_filter.1 (hperm.mem_iff.1 hc2)).2
  have hne : isEvicted ShouldSendEvent msg c (heap c) = false := by simpa using hf
  show (if c ∈ h.connections then broadcastOne ShouldSendEvent msg c (heap c)
    else heap c).Send.buf = _
  rw [if_pos hc]
  unfold broadcastOne
  by_cases hs : ShouldSendEvent c msg = true
  · rw [if_pos hs, List.filter_cons_of_pos hs]
    by_cases hroom : (heap c).Send.buf.length < (heap c).Send.cap
    · rw [if_pos hroom]
      rfl
    · exfalso
      have : isEvicted ShouldSendEvent msg c (heap c) = true := by
        simp only [isEvicted, hs, Bool.true_and, decide_eq_true_eq]
        omega
      rw [hne] at this
      exact Bool.noConfusion this
  · rw [if_neg hs, List.filter_cons_of_neg hs]
    simp

/-- C3 (amended). Publish order: a shard whose list has no duplicates, and in which no
connection in scope for one of the events has an already closed Send channel, handles the
broadcasts `m1 .. mk` in this order without a panic, and a connection of the list that is
still in the list afterwards (it was never evicted) has had appended to its Send queue
exactly the `mi` for which `ShouldSendEvent(c, mi)` holds, one copy each, in the order
`i = 1 .. k`. -/
theorem broadcasts_in_publish_order (ShouldSendEvent : ConnId → WebSocketEvent → Bool)
    (ms : List WebSocketEvent) (h : Hub) (heap : Heap) (c : ConnId)
    (hnd : h.connections.Nodup)
    (hopen : ∀ m ∈ ms, ∀ d ∈ h.connections, ShouldSendEvent d m = true →
      (heap d).Send.closed = false)
    (hc : c ∈ h.connections)
    (hstay : c ∈ (Hub.run ShouldSendEvent (ms.map Msg.broadcast) h heap).hub.connections) :
    (Hub.run ShouldSendEvent (ms.map Msg.broadcast) h heap).status = .running ∧
    ((Hub.run ShouldSendEvent (ms.map Msg.broadcast) h heap).heap c).Send.buf
      = (heap c).Send.buf ++ ms.filter (fun m => ShouldSendEvent c m) := by
  induction ms generalizing h heap with
  | nil =>
    refine ⟨rfl, ?_⟩
    show (heap c).Send.buf = (heap c).Send.buf ++ []
    rw [List.append_nil]
  | cons m rest ih =>
    have hopen0 := hopen m (List.mem_cons_self _ _)
    obtain ⟨hnd1, hkeep⟩ := handleBroadcast_keeps_wf ShouldSendEvent h heap m hnd hopen0
    obtain ⟨hrun, hsurv⟩ := handleBroadcast_survivor ShouldSendEvent h heap m hnd hopen0
    have hopen1 : ∀ m1 ∈ rest,
        ∀ d ∈ (h.handleBroadcast ShouldSendEvent heap m).hub.connections,
        ShouldSendEvent d m1 = true →
        ((h.handleBroadcast ShouldSendEvent heap m).heap d).Send.closed = false := by
      intro m1 hm1 d hd hs
      rw [(hkeep d hd).2]
      exact hopen m1 (List.mem_cons_of_mem _ hm1) d (hkeep d hd).1 hs
    have hunf := run_cons_continue ShouldSendEvent (.broadcast m) (rest.map Msg.broadcast)
      h heap (Or.inl hrun)
    rw [List.map_cons] at hstay ⊢
    rw [hunf] at hstay ⊢
    have hstay1 : c ∈ (Hub.run ShouldSendEvent (rest.map Msg.broadcast)
        (h.handleBroadcast ShouldSendEvent heap m).hub
        (h.handleBroadcast ShouldSendEvent heap m).heap).hub.connections := hstay
    have hnoreg : Msg.register c ∉ rest.map Msg.broadcast := by
      intro hmem
      obtain ⟨_, _, hx⟩ := List.mem_map.1 hmem
      cases hx
    have hc1 : c ∈ (h.handleBroadcast ShouldSendEvent heap m).hub.connections := by
      by_contra hnot
      exact (run_absent ShouldSendEvent c _ _ _ hnot hnoreg).1 hstay1
    obtain ⟨ih1, ih2⟩ := ih _ _ hnd1 hopen1 hc1 hstay1
    refine ⟨ih1, ?_⟩
    show ((Hub.run ShouldSendEvent (rest.map Msg.broadcast)
        (h.handleBroadcast ShouldSendEvent heap m).hub
        (h.handleBroadcast ShouldSendEvent heap m).heap).heap c).Send.buf = _
    rw [ih2, hsurv c hc hc1, List.append_assoc, ← List.filter_append]
    rfl

/-! ## The offline signal -/

theorem countP_eq_of_count_eq (p : ConnId → Bool) (l1 l2 : List ConnId)
    (hcount : ∀ c, p c = true → l1.count c = l2.count c) :
    l1.countP p = l2.countP p := by
  rw [List.countP_eq_length_filter, List.countP_eq_length_filter]
  apply List.Perm.length_eq
  rw [List.perm_iff_count]
  intro c
  by_cases hp : p c = true
  · rw [List.count_filter hp, List.count_filter hp, hcount c hp]
  · have h1 : c ∉ l1.filter p := fun hm => hp (List.mem_filter.1 hm).2
    have h2 : c ∉ l2.filter p := fun hm => hp (List.mem_filter.1 hm).2
    rw [List.count_eq_zero.2 h1, List.count_eq_zero.2 h2]

theorem step_continues (ShouldSendEvent : ConnId → WebSocketEvent → Bool)
    (h : Hub) (heap : Heap) (m : Msg) (hm : ∀ arg, m ≠ .stop arg)
    (hex : h.ExplicitStop = false) :
    ((h.step ShouldSendEvent heap m).status = .running ∨
      ((h.step ShouldSendEvent heap m).status = .panicked ∧
        (h.step ShouldSendEvent heap m).hub.ExplicitStop = false)) ∧
    (h.step ShouldSendEvent heap m).hub.ExplicitStop = false ∧
    (∀ c, ((h.step ShouldSendEvent heap m).heap c).UserId = (heap c).UserId) := by
  cases m with
  | register d => exact ⟨Or.inl rfl, hex, fun _ => rfl⟩
  | unregister d =>
    obtain ⟨h1, h2, h3⟩ := handleUnregister_hub h heap d
    refine ⟨Or.inl h3, ?_, ?_⟩
    · show (h.handleUnregister heap d).hub.ExplicitStop = false
      rw [h1]; exact hex
    · intro c
      show ((h.handleUnregister heap d).heap c).UserId = _
      rw [h2]
  | invalidateUser u => exact ⟨Or.inl rfl, hex, fun _ => rfl⟩
  | broadcast msg =>
    obtain ⟨h1, h2, _, _, _, h3, _, _⟩ := handleBroadcast_frame ShouldSendEvent h heap msg
    have hex1 : (h.handleBroadcast ShouldSendEvent heap msg).hub.ExplicitStop = false := by
      rw [h1]; exact hex
    refine ⟨?_, hex1, h3⟩
    show (h.handleBroadcast ShouldSendEvent heap msg).status = .running ∨
      ((h.handleBroadcast ShouldSendEvent heap msg).status = .panicked ∧
        (h.handleBroadcast ShouldSendEvent heap msg).hub.ExplicitStop = false)
    cases hst : (h.handleBroadcast ShouldSendEvent heap msg).status with
    | running => exact Or.inl rfl
    | panicked => exact Or.inr ⟨rfl, hex1⟩
    | stopped => exact absurd hst h2
  | stop arg => exact absurd rfl (hm arg)

theorem leavesUser_ne_stop {ShouldSendEvent : ConnId → WebSocketEvent → Bool}
    {uid : ConnId → String} {u : String} {m : Msg}
    (hm : Msg.leavesUser ShouldSendEvent uid u m) : ∀ arg, m ≠ .stop arg := by
  intro arg e
  rw [e] at hm
  exact hm

/-- A message that leaves user `u` alone and is not an `Unregister` of one of the
connections of `u` keeps the connections of `u` in the list and emits no offline signal
for `u`. -/
theorem step_leavesUser (ShouldSendEvent : ConnId → WebSocketEvent → Bool)
    (uid : ConnId → String) (u : String) (h : Hub) (heap : Heap) (m : Msg)
    (huid : ∀ c, (heap c).UserId = uid c)
    (hm : Msg.leavesUser ShouldSendEvent uid u m)
    (hnot : ∀ c, m = .unregister c → uid c ≠ u) :
    (∀ c, uid c = u →
      (h.step ShouldSendEvent heap m).hub.connections.count c = h.connections.count c) ∧
    (h.step ShouldSendEvent heap m).effects.count (.setStatusOffline u) = 0 := by
  cases m with
  | register d =>
    have hd : uid d ≠ u := hm
    refine ⟨?_, rfl⟩
    intro c hc
    show (h.connections ++ [d]).count c = _
    have hne : d ≠ c := fun e => hd (e ▸ hc)
    rw [List.count_append, List.count_cons_of_ne (fun e => hne e.symm)]
    simp
  | unregister d =>
    have hd : uid d ≠ u := hnot d rfl
    obtain ⟨connections, heq, hsame, hperm, _⟩ := handleUnregister_spec h heap d
    show (∀ c, uid c = u → (h.handleUnregister heap d).hub.connections.count c = _) ∧
      (h.handleUnregister heap d).effects.count _ = 0
    rw [heq]
    refine ⟨?_, ?_⟩
    · intro c hc
      show connections.count c = _
      have hne : c ≠ d := fun e => hd (e ▸ hc)
      by_cases hin : d ∈ h.connections
      · rw [(hperm hin).count_eq, List.count_erase_of_ne hne]
      · rw [hsame hin]
    · show List.count _ (if (heap d).UserId = "" then [] else _) = 0
      have hne : ¬ (heap d).UserId = u := by rw [huid]; exact hd
      have hne2 : ¬ u = (heap d).UserId := fun e => hne e.symm
      split_ifs <;> simp [List.count_cons, hne2]
  | invalidateUser v =>
    refine ⟨fun _ _ => rfl, ?_⟩
    show (invalidateLoop heap v h.connections).count _ = 0
    rw [invalidateLoop_eq, List.count_eq_zero]
    intro hin
    obtain ⟨_, _, hx⟩ := List.mem_map.1 hin
    cases hx
  | broadcast msg =>
    have hscope : ∀ c, uid c = u → ShouldSendEvent c msg = false := hm
    obtain ⟨_, _, _, _, hskip, _, hoff, _⟩ := handleBroadcast_frame ShouldSendEvent h heap msg
    exact ⟨fun c hc => (hskip c (hscope c hc)).2, hoff u⟩
  | stop arg => exact absurd hm (fun hf => hf)

/-- Unregister of a connection `c` of user `u` that is in the list exactly once: it is
removed, and the offline signal for `u` is emitted exactly when `c` was the only
connection of `u` in the list. -/
theorem step_unregister_user (uid : ConnId → String) (u : String) (h : Hub) (heap : Heap)
    (c : ConnId) (hu : u ≠ "") (huid : ∀ d, (heap d).UserId = uid d) (hcu : uid c = u)
    (hc : h.connections.count c = 1) :
    (∀ d, (h.handleUnregister heap c).hub.connections.count d
      = if d = c then 0 else h.connections.count d) ∧
    (h.handleUnregister heap c).hub.connections.countP (fun d => decide (uid d = u)) + 1
      = h.connections.countP (fun d => decide (uid d = u)) ∧
    (h.handleUnregister heap c).effects.count (.setStatusOffline u)
      = if h.connections.countP (fun d => decide (uid d = u)) = 1 then 1 else 0 := by
  obtain ⟨connections, heq, _, hperm, _⟩ := handleUnregister_spec h heap c
  have hmem : c ∈ h.connections := List.count_pos_iff.1 (by omega)
  have hp := hperm hmem
  have hsplit := List.perm_cons_erase hmem
  have hK : h.connections.countP (fun d => decide (uid d = u))
      = (h.connections.erase c).countP (fun d => decide (uid d = u)) + 1 := by
    rw [hsplit.countP_eq, List.countP_cons_of_pos]
    simpa using hcu
  have hcnot : c ∉ h.connections.erase c := by
    rw [← List.count_eq_zero, List.count_erase_self, hc]
  rw [heq]
  refine ⟨?_, ?_, ?_⟩
  · intro d
    show connections.count d = _
    rw [hp.count_eq]
    by_cases hd : d = c
    · rw [if_pos hd, hd, List.count_erase_self, hc]
    · rw [if_neg hd, List.count_erase_of_ne hd]
  · show connections.countP _ + 1 = _
    rw [hp.countP_eq, hK]
  · show List.count _ (if (heap c).UserId = "" then [] else _) = _
    have hcu1 : (heap c).UserId = u := by rw [huid]; exact hcu
    rw [if_neg (by rw [hcu1]; exact hu), hcu1]
    by_cases hany : h.connections.any
        (fun d => decide (d ≠ c) && decide (u = (heap d).UserId)) = true
    · rw [if_pos hany]
      obtain ⟨d, hd, hdp⟩ := List.any_eq_true.1 hany
      have hdc : d ≠ c := by
        intro e
        simp [e] at hdp
      have hdu : uid d = u := by
        have : u = (heap d).UserId := by simpa [hdc] using hdp
        rw [← huid]; exact this.symm
      have hde : d ∈ h.connections.erase c := (List.mem_erase_of_ne hdc).2 hd
      have hpos : 0 < (h.connections.erase c).countP (fun d => decide (uid d = u)) :=
        List.countP_pos_iff.2 ⟨d, hde, by simpa using hdu⟩
      rw [if_neg (by omega)]
      rfl
    · rw [if_neg hany]
      have hzero : (h.connections.erase c).countP (fun d => decide (uid d = u)) = 0 := by
        rw [List.countP_eq_zero]
        intro d hd hdu
        have hdu1 : uid d = u := by simpa using hdu
        have hdc : d ≠ c := fun e => hcnot (e ▸ hd)
        apply hany
        rw [List.any_eq_true]
        refine ⟨d, List.mem_of_mem_erase hd, ?_⟩
        have : u = (heap d).UserId := by rw [huid]; exact hdu1.symm
        simp [hdc, this]
      rw [if_pos (by omega)]
      simp

theorem unregisteredOf_uid (uid : ConnId → String) (u : String) :
    ∀ (ms : List Msg) (c : ConnId), c ∈ unregisteredOf uid u ms → uid c = u := by
  intro ms
  induction ms with
  | nil => intro c hc; simp [unregisteredOf] at hc
  | cons m ms ih =>
    intro c hc
    cases m with
    | unregister d =>
      simp only [unregisteredOf] at hc
      by_cases hd : uid d = u
      · rw [if_pos hd] at hc
        rcases List.mem_cons.1 hc with h1 | h1
        · rw [h1]; exact hd
        · exact ih c h1
      · rw [if_neg hd] at hc
        exact ih c hc
    | register d => exact ih c hc
    | invalidateUser v => exact ih c hc
    | broadcast msg => exact ih c hc
    | stop arg => exact ih c hc

theorem unregisteredOf_cons_other (uid : ConnId → String) (u : String) (m : Msg)
    (ms : List Msg) (hnot : ∀ c, m = .unregister c → uid c ≠ u) :
    unregisteredOf uid u (m :: ms) = unregisteredOf uid u ms := by
  cases m with
  | unregister d =>
    simp only [unregisteredOf]
    rw [if_neg (hnot d rfl)]
  | register d => rfl
  | invalidateUser v => rfl
  | broadcast msg => rfl
  | stop arg => rfl

theorem unregisteredOf_append (uid : ConnId → String) (u : String) :
    ∀ (pre post : List Msg),
      unregisteredOf uid u (pre ++ post)
        = unregisteredOf uid u pre ++ unregisteredOf uid u post := by
  intro pre
  induction pre with
  | nil => intro post; rfl
  | cons m pre ih =>
    intro post
    cases m with
    | unregister d =>
      show (if uid d = u then d :: unregisteredOf uid u (pre ++ post)
        else unregisteredOf uid u (pre ++ post))
        = (if uid d = u then d :: unregisteredOf uid u pre else unregisteredOf uid u pre)
          ++ unregisteredOf uid u post
      by_cases hd : uid d = u
      · rw [if_pos hd, if_pos hd, ih, List.cons_append]
      · rw [if_neg hd, if_neg hd, ih]
    | register d => exact ih post
    | invalidateUser v => exact ih post
    | broadcast msg => exact ih post
    | stop arg => exact ih post

/-- The run of messages that leave user `u` alone apart from unregistering connections of
`u` that are in the list, each at most once: what is left of the connections of `u`, and
how often the offline signal for `u` is emitted. -/
theorem run_offline (ShouldSendEvent : ConnId → WebSocketEvent → Bool)
    (uid : ConnId → String) (u : String) (hu : u ≠ "") :
    ∀ (ms : List Msg) (h : Hub) (heap : Heap),
      h.ExplicitStop = false →
      (∀ c, (heap c).UserId = uid c) →
      (∀ c, uid c = u → h.connections.count c ≤ 1) →
      (∀ m ∈ ms, Msg.leavesUser ShouldSendEvent uid u m) →
      (unregisteredOf uid u ms).Nodup →
      (∀ c ∈ unregisteredOf uid u ms, c ∈ h.connections) →
      (Hub.run ShouldSendEvent ms h heap).hub.ExplicitStop = false ∧
      (∀ c, ((Hub.run ShouldSendEvent ms h heap).heap c).UserId = uid c) ∧
      (∀ c, uid c = u → (Hub.run ShouldSendEvent ms h heap).hub.connections.count c
        = if c ∈ unregisteredOf uid u ms then 0 else h.connections.count c) ∧
      (Hub.run ShouldSendEvent ms h heap).hub.connections.countP (fun d => decide (uid d = u))
        + (unregisteredOf uid u ms).length
        = h.connections.countP (fun d => decide (uid d = u)) ∧
      (Hub.run ShouldSendEvent ms h heap).effects.count (.setStatusOffline u)
        = if unregisteredOf uid u ms ≠ [] ∧
            (unregisteredOf uid u ms).length
              = h.connections.countP (fun d => decide (uid d = u))
          then 1 else 0 := by
  intro ms
  induction ms with
  | nil =>
    intro h heap hex huid _ _ _ _
    refine ⟨hex, huid, ?_, rfl, ?_⟩
    · intro c _
      show h.connections.count c = if c ∈ [] then 0 else _
      simp
    · show List.count _ [] = _
      simp [unregisteredOf]
  | cons m ms ih =>
    intro h heap hex huid hone hleave hnd hmem
    have hm := hleave m (List.mem_cons_self _ _)
    have hleave1 : ∀ m1 ∈ ms, Msg.leavesUser ShouldSendEvent uid u m1 :=
      fun m1 h1 => hleave m1 (List.mem_cons_of_mem _ h1)
    obtain ⟨hcont, hex1, huid1⟩ :=
      step_continues ShouldSendEvent h heap m (leavesUser_ne_stop hm) hex
    have huid2 : ∀ c, ((h.step ShouldSendEvent heap m).heap c).UserId = uid c :=
      fun c => (huid1 c).trans (huid c)
    rw [run_cons_continue ShouldSendEvent m ms h heap hcont]
    by_cases hcase : ∀ c, m = .unregister c → uid c ≠ u
    · obtain ⟨hcount, hoff⟩ := step_leavesUser ShouldSendEvent uid u h heap m huid hm hcase
      rw [unregisteredOf_cons_other uid u m ms hcase] at hnd hmem ⊢
      have hone1 : ∀ c, uid c = u →
          (h.step ShouldSendEvent heap m).hub.connections.count c ≤ 1 := by
        intro c hc; rw [hcount c hc]; exact hone c hc
      have hmem1 : ∀ c ∈ unregisteredOf uid u ms,
          c ∈ (h.step ShouldSendEvent heap m).hub.connections := by
        intro c hc
        have hcu := unregisteredOf_uid uid u ms c hc
        rw [← List.count_pos_iff, hcount c hcu, List.count_pos_iff]
        exact hmem c hc
      have hP : (h.step ShouldSendEvent heap m).hub.connections.countP
          (fun d => decide (uid d = u)) = h.connections.countP (fun d => decide (uid d = u)) :=
        countP_eq_of_count_eq _ _ _ (fun c hc => hcount c (by simpa using hc))
      obtain ⟨i1, i2, i3, i4, i5⟩ := ih _ _ hex1 huid2 hone1 hleave1 hnd hmem1
      refine ⟨i1, i2, ?_, ?_, ?_⟩
      · intro c hc
        show (Hub.run ShouldSendEvent ms _ _).hub.connections.count c = _
        rw [i3 c hc, hcount c hc]
      · show (Hub.run ShouldSendEvent ms _ _).hub.connections.countP _ + _ = _
        rw [i4, hP]
      · show List.count _ (_ ++ _) = _
        rw [List.count_append, hoff, i5, hP, Nat.zero_add]
    · push_neg at hcase
      obtain ⟨c, hmc, hcu⟩ := hcase
      subst hmc
      have hun : unregisteredOf uid u (Msg.unregister c :: ms)
          = c :: unregisteredOf uid u ms := by
        simp only [unregisteredOf]
        rw [if_pos hcu]
      rw [hun] at hnd hmem ⊢
      have hcin : c ∈ h.connections := hmem c (List.mem_cons_self _ _)
      have hc1 : h.connections.count c = 1 := by
        have h1 := hone c hcu
        have h2 : 0 < h.connections.count c := List.count_pos_iff.2 hcin
        omega
      obtain ⟨hcount, hP, hoff⟩ := step_unregister_user uid u h heap c hu huid hcu hc1
      have hcnot : c ∉ unregisteredOf uid u ms := (List.nodup_cons.1 hnd).1
      have hnd1 : (unregisteredOf uid u ms).Nodup := (List.nodup_cons.1 hnd).2
      have hone1 : ∀ d, uid d = u →
          (h.step ShouldSendEvent heap (.unregister c)).hub.connections.count d ≤ 1 := by
        intro d hd
        show (h.handleUnregister heap c).hub.connections.count d ≤ 1
        rw [hcount d]
        by_cases hdc : d = c
        · rw [if_pos hdc]; omega
        · rw [if_neg hdc]; exact hone d hd
      have hmem1 : ∀ d ∈ unregisteredOf uid u ms,
          d ∈ (h.step ShouldSendEvent heap (.unregister c)).hub.connections := by
        intro d hd
        have hdc : d ≠ c := fun e => hcnot (e ▸ hd)
        show d ∈ (h.handleUnregister heap c).hub.connections
        rw [← List.count_pos_iff, hcount d, if_neg hdc, List.count_pos_iff]
        exact hmem d (List.mem_cons_of_mem _ hd)
      obtain ⟨i1, i2, i3, i4, i5⟩ := ih _ _ hex1 huid2 hone1 hleave1 hnd1 hmem1
      have i4a : (Hub.run ShouldSendEvent ms (h.handleUnregister heap c).hub
          (h.handleUnregister heap c).heap).hub.connections.countP
            (fun d => decide (uid d = u)) + (unregisteredOf uid u ms).length
          = (h.handleUnregister heap c).hub.connections.countP
            (fun d => decide (uid d = u)) := i4
      have i5a : (Hub.run ShouldSendEvent ms (h.handleUnregister heap c).hub
          (h.handleUnregister heap c).heap).effects.count (.setStatusOffline u)
          = if unregisteredOf uid u ms ≠ [] ∧ (unregisteredOf uid u ms).length
              = (h.handleUnregister heap c).hub.connections.countP
                (fun d => decide (uid d = u)) then 1 else 0 := i5
      refine ⟨i1, i2, ?_, ?_, ?_⟩
      · intro d hd
        show (Hub.run ShouldSendEvent ms _ _).hub.connections.count d = _
        rw [i3 d hd]
        show (if d ∈ unregisteredOf uid u ms then 0
          else (h.handleUnregister heap c).hub.connections.count d) = _
        rw [hcount d]
        by_cases hdc : d = c
        · subst hdc
          rw [if_neg hcnot, if_pos rfl, if_pos (List.mem_cons_self _ _)]
        · by_cases hdin : d ∈ unregisteredOf uid u ms
          · rw [if_pos hdin, if_pos (List.mem_cons_of_mem _ hdin)]
          · rw [if_neg hdin, if_neg hdc,
              if_neg (fun hh => (List.mem_cons.1 hh).elim hdc hdin)]
      · show (Hub.run ShouldSendEvent ms (h.handleUnregister heap c).hub
          (h.handleUnregister heap c).heap).hub.connections.countP _ + (_ :: _).length = _
        rw [List.length_cons]
        omega
      · show List.count _ ((h.handleUnregister heap c).effects ++
          (Hub.run ShouldSendEvent ms (h.handleUnregister heap c).hub
            (h.handleUnregister heap c).heap).effects) = _
        rw [List.count_append, hoff, i5a, List.length_cons]
        have hlen0 : unregisteredOf uid u ms ≠ [] ↔ 0 < (unregisteredOf uid u ms).length := by
          rw [List.length_pos]
        by_cases hK1 : h.connections.countP (fun d => decide (uid d = u)) = 1
        · have hz : (unregisteredOf uid u ms).length = 0 := by omega
          have hnil : unregisteredOf uid u ms = [] := List.length_eq_zero.1 hz
          rw [if_pos hK1, if_neg (fun hh => hh.1 hnil),
            if_pos ⟨List.cons_ne_nil _ _, by omega⟩]
        · rw [if_neg hK1]
          by_cases hlen : (unregisteredOf uid u ms).length + 1
              = h.connections.countP (fun d => decide (uid d = u))
          · rw [if_pos ⟨hlen0.2 (by omega), by omega⟩,
              if_pos ⟨List.cons_ne_nil _ _, hlen⟩]
          · rw [if_neg (fun hh => hlen (by have := hh.2; omega)),
              if_neg (fun hh => hlen hh.2)]

theorem run_append (ShouldSendEvent : ConnId → WebSocketEvent → Bool)
    (uid : ConnId → String) (u : String) (post : List Msg) :
    ∀ (pre : List Msg) (h : Hub) (heap : Heap), h.ExplicitStop = false →
      (∀ m ∈ pre, Msg.leavesUser ShouldSendEvent uid u m) →
      Hub.run ShouldSendEvent (pre ++ post) h heap
        = { hub := (Hub.run ShouldSendEvent post (Hub.run ShouldSendEvent pre h heap).hub
              (Hub.run ShouldSendEvent pre h heap).heap).hub,
            heap := (Hub.run ShouldSendEvent post (Hub.run ShouldSendEvent pre h heap).hub
              (Hub.run ShouldSendEvent pre h heap).heap).heap,
            effects := (Hub.run ShouldSendEvent pre h heap).effects ++
              (Hub.run ShouldSendEvent post (Hub.run ShouldSendEvent pre h heap).hub
                (Hub.run ShouldSendEvent pre h heap).heap).effects,
            status := (Hub.run ShouldSendEvent post (Hub.run ShouldSendEvent pre h heap).hub
              (Hub.run ShouldSendEvent pre h heap).heap).status } := by
  intro pre
  induction pre with
  | nil => intro h heap _ _; rfl
  | cons m pre ih =>
    intro h heap hex hleave
    have hm := hleave m (List.mem_cons_self _ _)
    obtain ⟨hcont, hex1, _⟩ :=
      step_continues ShouldSendEvent h heap m (leavesUser_ne_stop hm) hex
    rw [List.cons_append, run_cons_continue ShouldSendEvent m (pre ++ post) h heap hcont,
      run_cons_continue ShouldSendEvent m pre h heap hcont,
      ih _ _ hex1 (fun m1 h1 => hleave m1 (List.mem_cons_of_mem _ h1))]
    simp only [List.append_assoc]

/-- C8. Offline signal exactly once.  A running shard has a list without duplicates in
which user `u` (a non-empty id) has at least one connection.  The messages `ms` unregister
the connections of `u` in the list, each exactly once, in any order; every other message
of `ms` leaves `u` alone (a `Register` or `Unregister` of another user's connection, an
`InvalidateUser`, a `Broadcast` out of scope for the connections of `u`).  Then the run of
`ms` emits `SetStatusOffline(u)` exactly once; for each `Unregister` of a connection of
`u`, nothing was emitted before it, and it emits the signal exactly when it is the last
such `Unregister`, that is, when it removes the last connection of `u`. -/
theorem offline_signal_exactly_once (ShouldSendEvent : ConnId → WebSocketEvent → Bool)
    (h : Hub) (heap : Heap) (u : String) (ms : List Msg)
    (hex : h.ExplicitStop = false)
    (hnd : h.connections.Nodup)
    (hu : u ≠ "")
    (hk : ∃ c ∈ h.connections, (heap c).UserId = u)
    (hleave : ∀ m ∈ ms, Msg.leavesUser ShouldSendEvent (fun c => (heap c).UserId) u m)
    (honce : (unregisteredOf (fun c => (heap c).UserId) u ms).Nodup)
    (hall : ∀ c, c ∈ unregisteredOf (fun c => (heap c).UserId) u ms ↔
      (c ∈ h.connections ∧ (heap c).UserId = u)) :
    (Hub.run ShouldSendEvent ms h heap).effects.count (.setStatusOffline u) = 1 ∧
    ∀ (pre post : List Msg) (c : ConnId), ms = pre ++ Msg.unregister c :: post →
      (heap c).UserId = u →
      (Hub.run ShouldSendEvent pre h heap).effects.count (.setStatusOffline u) = 0 ∧
      ((Hub.run ShouldSendEvent pre h heap).hub.handleUnregister
          (Hub.run ShouldSendEvent pre h heap).heap c).effects.count (.setStatusOffline u)
        = (if unregisteredOf (fun c => (heap c).UserId) u post = [] then 1 else 0) ∧
      (Hub.run ShouldSendEvent ms h heap).effects
        = (Hub.run ShouldSendEvent pre h heap).effects ++
          (Hub.run ShouldSendEvent (Msg.unregister c :: post)
            (Hub.run ShouldSendEvent pre h heap).hub
            (Hub.run ShouldSendEvent pre h heap).heap).effects := by
  have hone : ∀ c, (heap c).UserId = u → h.connections.count c ≤ 1 :=
    fun c _ => List.nodup_iff_count_le_one.1 hnd c
  have hmem : ∀ c ∈ unregisteredOf (fun c => (heap c).UserId) u ms, c ∈ h.connections :=
    fun c hc => ((hall c).1 hc).1
  have hperm : List.Perm (unregisteredOf (fun c => (heap c).UserId) u ms)
      (h.connections.filter (fun d => decide ((heap d).UserId = u))) := by
    rw [List.perm_ext_iff_of_nodup honce (hnd.filter _)]
    intro c
    rw [hall c, List.mem_filter]
    simp
  have hlen : (unregisteredOf (fun c => (heap c).UserId) u ms).length
      = h.connections.countP (fun d => decide ((heap d).UserId = u)) := by
    rw [hperm.length_eq, List.countP_eq_length_filter]
  have hne : unregisteredOf (fun c => (heap c).UserId) u ms ≠ [] := by
    obtain ⟨c, hc, hcu⟩ := hk
    intro hnil
    have := (hall c).2 ⟨hc, hcu⟩
    rw [hnil] at this
    exact List.not_mem_nil _ this
  refine ⟨?_, ?_⟩
  · rw [(run_offline ShouldSendEvent (fun c => (heap c).UserId) u hu ms h heap hex
      (fun _ => rfl) hone hleave honce hmem).2.2.2.2, if_pos ⟨hne, hlen⟩]
  · intro pre post c hms hcu
    have happ : unregisteredOf (fun c => (heap c).UserId) u ms
        = unregisteredOf (fun c => (heap c).UserId) u pre ++
          c :: unregisteredOf (fun c => (heap c).UserId) u post := by
      rw [hms, unregisteredOf_append]
      congr 1
      show (if (heap c).UserId = u then _ else _) = _
      rw [if_pos hcu]
    have hleave1 : ∀ m ∈ pre, Msg.leavesUser ShouldSendEvent (fun c => (heap c).UserId) u m :=
      fun m hm => hleave m (by rw [hms]; exact List.mem_append_left _ hm)
    rw [happ] at honce hlen
    have hnd1 : (unregisteredOf (fun c => (heap c).UserId) u pre).Nodup :=
      honce.of_append_left
    have hcpre : c ∉ unregisteredOf (fun c => (heap c).UserId) u pre := by
      intro hin
      have := (List.nodup_append.1 honce).2.2
      exact this hin (List.mem_cons_self _ _)
    have hmem1 : ∀ d ∈ unregisteredOf (fun c => (heap c).UserId) u pre, d ∈ h.connections := by
      intro d hd
      apply hmem
      rw [happ]
      exact List.mem_append_left _ hd
    obtain ⟨r1, r2, r3, r4, r5⟩ := run_offline ShouldSendEvent (fun c => (heap c).UserId) u hu
      pre h heap hex (fun _ => rfl) hone hleave1 hnd1 hmem1
    have hcin : c ∈ h.connections := by
      apply hmem
      rw [happ]
      exact List.mem_append_right _ (List.mem_cons_self _ _)
    have hc1 : (Hub.run ShouldSendEvent pre h heap).hub.connections.count c = 1 := by
      rw [r3 c hcu, if_neg hcpre]
      exact List.count_eq_one_of_mem hnd hcin
    obtain ⟨_, s2, s3⟩ := step_unregister_user (fun c => (heap c).UserId) u
      (Hub.run ShouldSendEvent pre h heap).hub (Hub.run ShouldSendEvent pre h heap).heap c hu
      r2 hcu hc1
    rw [List.length_append, List.length_cons] at hlen
    refine ⟨?_, ?_, ?_⟩
    · rw [r5, if_neg (fun hh => by have := hh.2; omega)]
    · rw [s3]
      by_cases hpost : unregisteredOf (fun c => (heap c).UserId) u post = []
      · rw [if_pos hpost, if_pos]
        rw [hpost, List.length_nil] at hlen
        omega
      · rw [if_neg hpost, if_neg]
        have : 0 < (unregisteredOf (fun c => (heap c).UserId) u post).length :=
          List.length_pos.2 hpost
        omega
    · rw [hms, run_append ShouldSendEvent (fun c => (heap c).UserId) u _ pre h heap hex hleave1]

/-! ## Routing -/

theorem hubIndexForUserId_of_length (hubs hubs2 : List Hub) (userId : String)
    (hlen : hubs2.length = hubs.length) :
    hubIndexForUserId hubs2 userId = hubIndexForUserId hubs userId := by
  unfold hubIndexForUserId
  rw [hlen]

theorem hubIndexForUserId_lt (hubs : List Hub) (userId : String) (index : Nat)
    (h : hubIndexForUserId hubs userId = some index) : index < hubs.length := by
  have h0 : (if hubs.length % 2 ^ 32 = 0 then none
      else some (fnv32a (stringBytes userId) % (hubs.length % 2 ^ 32))) = some index := h
  by_cases hz : hubs.length % 2 ^ 32 = 0
  · rw [if_pos hz] at h0
    cases h0
  · rw [if_neg hz] at h0
    have h := Option.some.inj h0
    have h1 : fnv32a (stringBytes userId) % (hubs.length % 2 ^ 32) < hubs.length % 2 ^ 32 :=
      Nat.mod_lt _ (Nat.pos_of_ne_zero hz)
    have h2 : hubs.length % 2 ^ 32 ≤ hubs.length := Nat.mod_le _ _
    omega

/-- Handling a message changes no channel of the hub; a connection in the new list was in
the old list or is the one being registered; every `UserId` is kept. -/
theorem step_keeps (ShouldSendEvent : ConnId → WebSocketEvent → Bool)
    (h : Hub) (heap : Heap) (m : Msg) :
    (h.step ShouldSendEvent heap m).hub.register = h.register ∧
    (∀ c ∈ (h.step ShouldSendEvent heap m).hub.connections,
      c ∈ h.connections ∨ m = .register c) ∧
    (∀ c, ((h.step ShouldSendEvent heap m).heap c).UserId = (heap c).UserId) := by
  cases m with
  | register d =>
    refine ⟨rfl, ?_, fun _ => rfl⟩
    intro c hc
    have hc1 : c ∈ h.connections ++ [d] := hc
    rcases List.mem_append.1 hc1 with h1 | h1
    · exact Or.inl h1
    · right
      rw [List.mem_singleton.1 h1]
  | unregister d =>
    obtain ⟨connections, heq, hsame, hperm, _⟩ := handleUnregister_spec h heap d
    show (h.handleUnregister heap d).hub.register = _ ∧
      (∀ c ∈ (h.handleUnregister heap d).hub.connections, _) ∧
      (∀ c, ((h.handleUnregister heap d).heap c).UserId = _)
    rw [heq]
    refine ⟨rfl, ?_, fun _ => rfl⟩
    intro c hc
    have hc1 : c ∈ connections := hc
    left
    by_cases hd : d ∈ h.connections
    · exact List.mem_of_mem_erase ((hperm hd).mem_iff.1 hc1)
    · rw [hsame hd] at hc1; exact hc1
  | invalidateUser u => exact ⟨rfl, fun c hc => Or.inl hc, fun _ => rfl⟩
  | broadcast msg =>
    obtain ⟨h1, _, hsub, _, _, hu, _, _⟩ := handleBroadcast_frame ShouldSendEvent h heap msg
    refine ⟨?_, fun c hc => Or.inl (hsub c hc), hu⟩
    show (h.handleBroadcast ShouldSendEvent heap msg).hub.register = _
    rw [h1]
  | stop arg => exact ⟨rfl, fun c hc => Or.inl hc, fun _ => rfl⟩

theorem receive_keeps (h h1 : Hub) (chan : Chan) (m : Msg)
    (hr : h.receive chan = some (m, h1)) :
    h1.connections = h.connections ∧
    (∀ c, c ∈ h1.register → c ∈ h.register) ∧
    (∀ c, m = .register c → c ∈ h.register) := by
  cases chan with
  | register =>
    unfold Hub.receive at hr
    cases hreg : h.register with
    | nil => rw [hreg] at hr; cases hr
    | cons d rest =>
      rw [hreg] at hr
      cases hr
      refine ⟨rfl, fun c hc => List.mem_cons_of_mem _ hc, ?_⟩
      intro c hc
      cases hc
      exact List.mem_cons_self _ _
  | unregister =>
    unfold Hub.receive at hr
    cases hreg : h.unregister with
    | nil => rw [hreg] at hr; cases hr
    | cons d rest =>
      rw [hreg] at hr
      cases hr
      exact ⟨rfl, fun c hc => hc, fun c hc => by cases hc⟩
  | invalidateUser =>
    unfold Hub.receive at hr
    cases hreg : h.invalidateUser with
    | nil => rw [hreg] at hr; cases hr
    | cons d rest =>
      rw [hreg] at hr
      cases hr
      exact ⟨rfl, fun c hc => hc, fun c hc => by cases hc⟩
  | broadcast =>
    unfold Hub.receive at hr
    cases hreg : h.broadcast with
    | nil => rw [hreg] at hr; cases hr
    | cons d rest =>
      rw [hreg] at hr
      cases hr
      exact ⟨rfl, fun c hc => hc, fun c hc => by cases hc⟩
  | stop =>
    unfold Hub.receive at hr
    cases hreg : h.stop with
    | nil => rw [hreg] at hr; cases hr
    | cons d rest =>
      rw [hreg] at hr
      cases hr
      exact ⟨rfl, fun c hc => hc, fun c hc => by cases hc⟩

/-- Replacing the hub at `index` by one that holds no connection the old one did not
hold, except connections routed to `index`, keeps the registry routed. -/
theorem routed_set (w : Registry) (heap2 : Heap) (index : Nat) (hub hub2 : Hub)
    (hw : w.Routed) (hget : w.hubs[index]? = some hub)
    (huid : ∀ c, (heap2 c).UserId = (w.heap c).UserId)
    (hsub : ∀ c, c ∈ hub2.connections ∨ c ∈ hub2.register →
      (c ∈ hub.connections ∨ c ∈ hub.register) ∨
        hubIndexForUserId w.hubs (w.heap c).UserId = some index) :
    Registry.Routed { hubs := w.hubs.set index hub2, heap := heap2 } := by
  intro j hubj hj c hc
  show hubIndexForUserId (w.hubs.set index hub2) (heap2 c).UserId = some j
  rw [hubIndexForUserId_of_length w.hubs _ _ (List.length_set _ _ _), huid c]
  have hj1 : (w.hubs.set index hub2)[j]? = some hubj := hj
  rw [List.getElem?_set] at hj1
  by_cases hij : index = j
  · subst hij
    have hlt : index < w.hubs.length := by
      rw [List.getElem?_eq_some_iff] at hget
      exact hget.1
    rw [if_pos rfl, if_pos hlt] at hj1
    cases hj1
    rcases hsub c hc with h1 | h1
    · exact hw index hub hget c h1
    · exact h1
  · rw [if_neg hij] at hj1
    exact hw j hubj hj1 c hc

theorem routed_act (ShouldSendEvent : ConnId → WebSocketEvent → Bool)
    (IsAuthenticated : ConnId → Bool) (w : Registry) (a : Action)
    (r : Registry × List Effect) (hw : w.Routed)
    (hact : w.act ShouldSendEvent IsAuthenticated a = some r) :
    r.1.Routed ∧ r.1.hubs.length = w.hubs.length ∧
    ∀ c, (r.1.heap c).UserId = (w.heap c).UserId := by
  cases a with
  | hubRegister d =>
    simp only [Registry.act, HubRegister] at hact
    cases hidx : hubIndexForUserId w.hubs (w.heap d).UserId with
    | none => simp [hidx] at hact
    | some index =>
      cases hget : w.hubs[index]? with
      | none => simp [hidx, hget] at hact
      | some hub =>
        simp only [hidx, hget, Option.map_some', Option.some.injEq] at hact
        subst hact
        refine ⟨?_, List.length_set _ _ _, fun _ => rfl⟩
        apply routed_set w w.heap index hub _ hw hget (fun _ => rfl)
        intro c hc
        rcases hc with h1 | h1
        · exact Or.inl (Or.inl h1)
        · have h2 : c ∈ hub.register ++ [d] := h1
          rcases List.mem_append.1 h2 with h3 | h3
          · exact Or.inl (Or.inr h3)
          · right
            rw [List.mem_singleton.1 h3]
            exact hidx
  | hubUnregister d =>
    simp only [Registry.act, HubUnregister] at hact
    cases hidx : hubIndexForUserId w.hubs (w.heap d).UserId with
    | none => simp [hidx] at hact
    | some index =>
      cases hget : w.hubs[index]? with
      | none => simp [hidx, hget] at hact
      | some hub =>
        simp only [hidx, hget, Option.map_some', Option.some.injEq] at hact
        subst hact
        refine ⟨?_, List.length_set _ _ _, fun _ => rfl⟩
        exact routed_set w w.heap index hub _ hw hget (fun _ => rfl) (fun c hc => Or.inl hc)
  | invalidateWebConnSessionCacheForUser u =>
    simp only [Registry.act, InvalidateWebConnSessionCacheForUser] at hact
    by_cases hz : w.hubs.length ≠ 0
    · rw [if_pos hz] at hact
      cases hidx : hubIndexForUserId w.hubs u with
      | none => simp [hidx] at hact
      | some index =>
        cases hget : w.hubs[index]? with
        | none => simp [hidx, hget] at hact
        | some hub =>
          simp only [hidx, hget, Option.map_some', Option.some.injEq] at hact
          subst hact
          refine ⟨?_, List.length_set _ _ _, fun _ => rfl⟩
          exact routed_set w w.heap index hub _ hw hget (fun _ => rfl) (fun c hc => Or.inl hc)
    · rw [if_neg hz] at hact
      simp only [Option.map_some', Option.some.injEq] at hact
      subst hact
      exact ⟨hw, rfl, fun _ => rfl⟩
  | invalidateCacheForUserSkipClusterSend u =>
    simp only [Registry.act, InvalidateCacheForUserSkipClusterSend] at hact
    by_cases hz : w.hubs.length ≠ 0
    · simp only [if_pos hz] at hact
      cases hidx : hubIndexForUserId w.hubs u with
      | none => simp [hidx] at hact
      | some index =>
        cases hget : w.hubs[index]? with
        | none => simp [hidx, hget] at hact
        | some hub =>
          simp only [hidx, hget, Option.map_some', Option.some.injEq] at hact
          subst hact
          refine ⟨?_, List.length_set _ _ _, fun _ => rfl⟩
          exact routed_set w w.heap index hub _ hw hget (fun _ => rfl) (fun c hc => Or.inl hc)
    · simp only [if_neg hz, Option.map_some', Option.some.injEq] at hact
      subst hact
      exact ⟨hw, rfl, fun _ => rfl⟩
  | loopReceives index chan =>
    simp only [Registry.act] at hact
    cases hget : w.hubs[index]? with
    | none => simp [hget] at hact
    | some hub =>
      simp only [hget] at hact
      by_cases hex : hub.ExplicitStop = true
      · simp [hex] at hact
      · simp only [hex, Bool.false_eq_true, if_false] at hact
        cases hrec : hub.receive chan with
        | none => simp [hrec] at hact
        | some p =>
          obtain ⟨m, hub1⟩ := p
          simp only [hrec, Option.some.injEq] at hact
          subst hact
          obtain ⟨k1, k2, k3⟩ := receive_keeps hub hub1 chan m hrec
          obtain ⟨s1, s2, s3⟩ := step_keeps ShouldSendEvent hub1 w.heap m
          refine ⟨?_, List.length_set _ _ _, s3⟩
          apply routed_set w _ index hub _ hw hget s3
          intro c hc
          rcases hc with h1 | h1
          · rcases s2 c h1 with h2 | h2
            · left; left; rw [← k1]; exact h2
            · left; right; exact k3 c h2
          · left; right
            rw [s1] at h1
            exact k2 c h1

theorem routed_exec (ShouldSendEvent : ConnId → WebSocketEvent → Bool)
    (IsAuthenticated : ConnId → Bool) :
    ∀ (actions : List Action) (w w2 : Registry), w.Routed →
      Registry.exec ShouldSendEvent IsAuthenticated actions w = some w2 →
      w2.Routed ∧ w2.hubs.length = w.hubs.length ∧
      ∀ c, (w2.heap c).UserId = (w.heap c).UserId := by
  intro actions
  induction actions with
  | nil =>
    intro w w2 hw hexec
    have : w = w2 := Option.some.inj hexec
    subst this
    exact ⟨hw, rfl, fun _ => rfl⟩
  | cons a rest ih =>
    intro w w2 hw hexec
    rw [Registry.exec] at hexec
    cases hact : w.act ShouldSendEvent IsAuthenticated a with
    | none => rw [hact] at hexec; cases hexec
    | some r =>
      rw [hact] at hexec
      obtain ⟨r1, r2, r3⟩ := routed_act ShouldSendEvent IsAuthenticated w a r hw hact
      obtain ⟨i1, i2, i3⟩ := ih r.1 w2 r1 hexec
      exact ⟨i1, i2.trans r2, fun c => (i3 c).trans (r3 c)⟩

/-- A registry of new hubs is routed: no hub holds a connection. -/
theorem routed_new (n : Nat) (heap : Heap) :
    Registry.Routed { hubs := List.replicate n NewWebHub, heap := heap } := by
  intro index hub hget c hc
  have hget1 : (List.replicate n NewWebHub)[index]? = some hub := hget
  have hmem : hub ∈ List.replicate n NewWebHub := by
    rw [List.getElem?_eq_some_iff] at hget1
    obtain ⟨hp, rfl⟩ := hget1
    exact List.getElem_mem hp
  have hnew : hub = NewWebHub := (List.mem_replicate.1 hmem).2
  subst hnew
  rcases hc with h1 | h1
  · exact absurd h1 (List.not_mem_nil _)
  · exact absurd h1 (List.not_mem_nil _)

/-- C5. One shard per connection: on a fixed hub list of `n ≥ 1` hubs (`n` below `2^32`,
so that the conversion `uint32(len(hubs))` is exact),
`HubRegister(c)` and `HubUnregister(c)` put their message in the `register` and
`unregister` channel of the hub `GetHubForUserId(c.UserId)`, and
`InvalidateWebConnSessionCacheForUser(c.UserId)` and
`InvalidateCacheForUserSkipClusterSend(c.UserId)` put `InvalidateUser` in the
`invalidateUser` channel of that same hub.  Hence, from a routed registry (such as a new
one) and through any sequence of these calls and of hub loops handling their messages,
the registry stays routed and no `UserId` changes: `c` is in the list of no other hub than
this one, and two connections of one user are never in the lists of different hubs. -/
theorem one_shard_per_connection (ShouldSendEvent : ConnId → WebSocketEvent → Bool)
    (IsAuthenticated : ConnId → Bool) (hubs : List Hub) (heap : Heap) (c : ConnId)
    (hpos : 1 ≤ hubs.length) (hlt : hubs.length < 2 ^ 32) :
    ∃ (index : Nat) (hub : Hub),
      hubIndexForUserId hubs (heap c).UserId = some index ∧
      hubs[index]? = some hub ∧
      GetHubForUserId hubs (heap c).UserId = some hub ∧
      HubRegister IsAuthenticated hubs heap c
        = some (hubs.set index { hub with register := hub.register ++ [c] },
            if IsAuthenticated c then [.sendHello c] else []) ∧
      HubUnregister hubs heap c
        = some (hubs.set index { hub with unregister := hub.unregister ++ [c] }, []) ∧
      InvalidateWebConnSessionCacheForUser hubs (heap c).UserId
        = some (hubs.set index
            { hub with invalidateUser := hub.invalidateUser ++ [(heap c).UserId] }, []) ∧
      (InvalidateCacheForUserSkipClusterSend hubs (heap c).UserId).map Prod.fst
        = some (hubs.set index
            { hub with invalidateUser := hub.invalidateUser ++ [(heap c).UserId] }) ∧
      ∀ (actions : List Action) (w2 : Registry),
        Registry.Routed { hubs := hubs, heap := heap } →
        Registry.exec ShouldSendEvent IsAuthenticated actions { hubs := hubs, heap := heap }
          = some w2 →
        w2.Routed ∧ (w2.heap c).UserId = (heap c).UserId ∧
        (∀ (j : Nat) (hubj : Hub), w2.hubs[j]? = some hubj → c ∈ hubj.connections →
          j = index) ∧
        (∀ (i j : Nat) (hubi hubj : Hub) (c1 c2 : ConnId),
          w2.hubs[i]? = some hubi → w2.hubs[j]? = some hubj →
          c1 ∈ hubi.connections → c2 ∈ hubj.connections →
          (w2.heap c1).UserId = (w2.heap c2).UserId → i = j) := by
  have hmod : hubs.length % 2 ^ 32 = hubs.length := Nat.mod_eq_of_lt hlt
  have hidx : hubIndexForUserId hubs (heap c).UserId
      = some (fnv32a (stringBytes (heap c).UserId) % hubs.length) := by
    unfold hubIndexForUserId
    simp only [hmod]
    rw [if_neg (by omega)]
  have hlt1 : fnv32a (stringBytes (heap c).UserId) % hubs.length < hubs.length :=
    Nat.mod_lt _ (by omega)
  have hget : hubs[fnv32a (stringBytes (heap c).UserId) % hubs.length]?
      = some hubs[fnv32a (stringBytes (heap c).UserId) % hubs.length] :=
    List.getElem?_eq_getElem hlt1
  have hne : hubs.length ≠ 0 := by omega
  refine ⟨_, _, hidx, hget, ?_, ?_, ?_, ?_, ?_, ?_⟩
  · unfold GetHubForUserId
    rw [hidx]
    exact hget
  · unfold HubRegister
    rw [hidx]
    simp only [hget]
    rfl
  · unfold HubUnregister
    rw [hidx]
    simp only [hget]
    rfl
  · unfold InvalidateWebConnSessionCacheForUser
    rw [if_pos hne, hidx]
    simp only [hget]
    rfl
  · unfold InvalidateCacheForUserSkipClusterSend
    simp only [if_pos hne, hidx, hget, Option.map_some']
    rfl
  · intro actions w2 hw hexec
    obtain ⟨r1, r2, r3⟩ := routed_exec ShouldSendEvent IsAuthenticated actions _ w2 hw hexec
    have hlen : w2.hubs.length = hubs.length := r2
    have huid : ∀ d, (w2.heap d).UserId = (heap d).UserId := r3
    refine ⟨r1, huid c, ?_, ?_⟩
    · intro j hubj hj hc
      have h1 := r1 j hubj hj c (Or.inl hc)
      rw [hubIndexForUserId_of_length hubs w2.hubs _ hlen, huid c, hidx] at h1
      exact (Option.some.inj h1).symm
    · intro i j hubi hubj c1 c2 hi hj hc1 hc2 hsame
      have h1 := r1 i hubi hi c1 (Or.inl hc1)
      have h2 := r1 j hubj hj c2 (Or.inl hc2)
      rw [hsame, h2] at h1
      exact (Option.some.inj h1).symm

/-- C1 (amended) on the shard of the scenario: `connB` receives the event, `connC` is out
of scope and unchanged. -/
theorem broadcast_isolation_witness :
    scenarioHub.connections.Nodup ∧
    ((scenarioHub.handleBroadcast scenarioScope scenarioHeap scenarioEvent).heap 1).Send.buf
      = (scenarioHeap 1).Send.buf ++ [scenarioEvent] ∧
    (scenarioHub.handleBroadcast scenarioScope scenarioHeap scenarioEvent).heap 2
      = scenarioHeap 2 :=
  ⟨by decide,
   ((broadcast_isolation scenarioScope scenarioHub scenarioHeap scenarioEvent
      (by decide) (by decide)).2.2.2.1 1 (by decide) (by decide) (by decide)).1,
   ((broadcast_isolation scenarioScope scenarioHub scenarioHeap scenarioEvent
      (by decide) (by decide)).2.2.2.2 2 (by decide) (by decide)).1⟩

/-- C2 (amended) on the shard of the scenario: `connA`, whose queue is full, is evicted and
its channel closed. -/
theorem broadcast_evicts_full_witness :
    (∀ c ∈ scenarioHub.connections, (scenarioHeap c).Send.closed = false) ∧
    0 ∉ (scenarioHub.handleBroadcast scenarioScope scenarioHeap scenarioEvent).hub.connections ∧
    ((scenarioHub.handleBroadcast scenarioScope scenarioHeap scenarioEvent).heap 0).Send.closed
      = true :=
  ⟨by decide,
   ((broadcast_evicts_full scenarioScope scenarioHub scenarioHeap scenarioEvent
      (by decide) (by decide)).2.2 0 (by decide) (by decide) (by decide)).1,
   ((broadcast_evicts_full scenarioScope scenarioHub scenarioHeap scenarioEvent
      (by decide) (by decide)).2.2 0 (by decide) (by decide) (by decide)).2.1⟩

/-- C3 (amended) on the shard of the scenario: `connB` receives two events in publish
order. -/
theorem broadcasts_in_publish_order_witness :
    ((Hub.run scenarioScope
        ([{ Event := "posted", Payload := 1 }, { Event := "typing", Payload := 2 }].map
          Msg.broadcast) scenarioHub scenarioHeap).heap 1).Send.buf
      = (scenarioHeap 1).Send.buf ++
        [{ Event := "posted", Payload := 1 }, { Event := "typing", Payload := 2 }].filter
          (fun m => scenarioScope 1 m) :=
  (broadcasts_in_publish_order scenarioScope
    [{ Event := "posted", Payload := 1 }, { Event := "typing", Payload := 2 }]
    scenarioHub scenarioHeap 1 (by decide) (by decide) (by decide) (by decide)).2

/-- C5 on two new hubs: `HubRegister(connA)` puts `connA` in the `register` channel of the
hub of its user. -/
theorem one_shard_per_connection_witness :
    ∃ index : Nat,
      hubIndexForUserId [NewWebHub, NewWebHub] (scenarioHeap 0).UserId = some index ∧
      (HubRegister (fun _ => true) [NewWebHub, NewWebHub] scenarioHeap 0).map Prod.fst
        = some ([NewWebHub, NewWebHub].set index { NewWebHub with register := [0] }) := by
  obtain ⟨index, hub, h1, h2, _, h4, _⟩ :=
    one_shard_per_connection scenarioScope (fun _ => true) [NewWebHub, NewWebHub]
      scenarioHeap 0 (by decide) (by decide)
  refine ⟨index, h1, ?_⟩
  have hmem : hub ∈ [NewWebHub, NewWebHub] := by
    rw [List.getElem?_eq_some_iff] at h2
    obtain ⟨hp, rfl⟩ := h2
    exact List.getElem_mem hp
  have hnew : hub = NewWebHub := by
    rcases List.mem_cons.1 hmem with h | h
    · exact h
    · rcases List.mem_cons.1 h with h | h
      · exact h
      · exact absurd h (List.not_mem_nil _)
  subst hnew
  rw [h4]
  rfl

/-- C8 on the shard of the scenario: unregistering `connA`, then `connB`, with messages
about `U2` in between, signals `U1` offline once. -/
theorem offline_signal_exactly_once_witness :
    (Hub.run scenarioScope
      [Msg.unregister 0, Msg.invalidateUser "U2", Msg.unregister 2, Msg.unregister 1]
      scenarioHub scenarioHeap).effects.count (.setStatusOffline "U1") = 1 := by
  refine (offline_signal_exactly_once scenarioScope scenarioHub scenarioHeap "U1"
    [Msg.unregister 0, Msg.invalidateUser "U2", Msg.unregister 2, Msg.unregister 1]
    rfl (by decide) (by decide) ⟨0, by decide, by decide⟩ ?_ (by decide) ?_).1
  · intro m hm
    simp only [List.mem_cons, List.mem_singleton, List.not_mem_nil, or_false] at hm
    rcases hm with rfl | rfl | rfl | rfl <;> exact True.intro
  · intro c
    have hun : unregisteredOf (fun c => (scenarioHeap c).UserId) "U1"
        [Msg.unregister 0, Msg.invalidateUser "U2", Msg.unregister 2, Msg.unregister 1]
        = [0, 1] := by decide
    rw [hun]
    constructor
    · intro hc
      simp only [List.mem_cons, List.mem_singleton, List.not_mem_nil, or_false] at hc
      rcases hc with rfl | rfl
      · exact ⟨by decide, by decide⟩
      · exact ⟨by decide, by decide⟩
    · intro hc
      obtain ⟨hmem, hu⟩ := hc
      have hmem1 : c ∈ [0, 1, 2] := hmem
      simp only [List.mem_cons, List.mem_singleton, List.not_mem_nil, or_false] at hmem1
      rcases hmem1 with rfl | rfl | rfl
      · decide
      · decide
      · exact absurd hu (by decide)

/-- C1 (counterexample). On a new hub, `connA` (queue full) is registered, evicted by a
broadcast, and registered again, then `connB` is registered: the list `[connA, connB]`
has no duplicates.  The next broadcast panics at `connA`, whose channel is closed, and
`connB`, in scope and with room, is never visited: its queue is unchanged. -/
theorem broadcast_skips_after_closed_channel :
    (Hub.run scenarioScope
      [.register 0, .broadcast scenarioEvent, .register 0, .register 1]
      NewWebHub scenarioHeap).hub.connections = [0, 1] ∧
    scenarioScope 1 scenarioEvent = true ∧
    ((Hub.run scenarioScope
      [.register 0, .broadcast scenarioEvent, .register 0, .register 1]
      NewWebHub scenarioHeap).heap 1).Send = { buf := [], cap := 2, closed := false } ∧
    ((Hub.run scenarioScope
      [.register 0, .broadcast scenarioEvent, .register 0, .register 1]
      NewWebHub scenarioHeap).hub.handleBroadcast scenarioScope
        (Hub.run scenarioScope
          [.register 0, .broadcast scenarioEvent, .register 0, .register 1]
          NewWebHub scenarioHeap).heap scenarioEvent).status = .panicked ∧
    (((Hub.run scenarioScope
      [.register 0, .broadcast scenarioEvent, .register 0, .register 1]
      NewWebHub scenarioHeap).hub.handleBroadcast scenarioScope
        (Hub.run scenarioScope
          [.register 0, .broadcast scenarioEvent, .register 0, .register 1]
          NewWebHub scenarioHeap).heap scenarioEvent).heap 1).Send.buf = [] := by
  refine ⟨by decide, by decide, by decide, by decide, by decide⟩

/-- C2 (counterexample). After `connB` has received two events (its queue is full),
`connA` has been evicted and both have been registered again, the list is
`[connA, connB]`, without duplicates.  The next broadcast panics at `connA`; `connB`, in
scope with a full queue, is still in the list and its channel is still open. -/
theorem broadcast_keeps_full_after_closed_channel :
    (Hub.run scenarioScope
      [.register 1, .register 0, .broadcast scenarioEvent, .broadcast scenarioEvent,
        .unregister 1, .register 0, .register 1]
      NewWebHub scenarioHeap).hub.connections = [0, 1] ∧
    scenarioScope 1 scenarioEvent = true ∧
    ((Hub.run scenarioScope
      [.register 1, .register 0, .broadcast scenarioEvent, .broadcast scenarioEvent,
        .unregister 1, .register 0, .register 1]
      NewWebHub scenarioHeap).heap 1).Send
      = { buf := [scenarioEvent, scenarioEvent], cap := 2, closed := false } ∧
    ((Hub.run scenarioScope
      [.register 1, .register 0, .broadcast scenarioEvent, .broadcast scenarioEvent,
        .unregister 1, .register 0, .register 1]
      NewWebHub scenarioHeap).hub.handleBroadcast scenarioScope
        (Hub.run scenarioScope
          [.register 1, .register 0, .broadcast scenarioEvent, .broadcast scenarioEvent,
            .unregister 1, .register 0, .register 1]
          NewWebHub scenarioHeap).heap scenarioEvent).hub.connections = [0, 1] ∧
    (((Hub.run scenarioScope
      [.register 1, .register 0, .broadcast scenarioEvent, .broadcast scenarioEvent,
        .unregister 1, .register 0, .register 1]
      NewWebHub scenarioHeap).hub.handleBroadcast scenarioScope
        (Hub.run scenarioScope
          [.register 1, .register 0, .broadcast scenarioEvent, .broadcast scenarioEvent,
            .unregister 1, .register 0, .register 1]
          NewWebHub scenarioHeap).heap scenarioEvent).heap 1).Send.closed = false := by
  refine ⟨by decide, by decide, by decide, by decide, by decide⟩

/-- C3 (counterexample). With `connA` evicted and registered again before `connB`, two
more broadcasts in scope for `connB` are handled; `connB` is in the list before and
after and is never evicted, yet its queue, which has room for both, receives neither. -/
theorem broadcasts_lost_after_closed_channel :
    (Hub.run scenarioScope
      [.register 0, .broadcast scenarioEvent, .register 0, .register 1]
      NewWebHub scenarioHeap).hub.connections = [0, 1] ∧
    (Hub.run scenarioScope
      [.register 0, .broadcast scenarioEvent, .register 0, .register 1,
        .broadcast { Event := "posted", Payload := 2 },
        .broadcast { Event := "posted", Payload := 3 }]
      NewWebHub scenarioHeap).hub.connections = [0, 1] ∧
    [({ Event := "posted", Payload := 2 } : WebSocketEvent),
      { Event := "posted", Payload := 3 }].filter (fun m => scenarioScope 1 m)
      = [{ Event := "posted", Payload := 2 }, { Event := "posted", Payload := 3 }] ∧
    ((Hub.run scenarioScope
      [.register 0, .broadcast scenarioEvent, .register 0, .register 1,
        .broadcast { Event := "posted", Payload := 2 },
        .broadcast { Event := "posted", Payload := 3 }]
      NewWebHub scenarioHeap).heap 1).Send = { buf := [], cap := 2, closed := false } := by
  refine ⟨by decide, by decide, by decide, by decide⟩

/-! ## Stop and the supervisor -/

/-- C11. Stop is terminal: on any shard whose loop is running, handling a Stop message
calls `WebSocket.Close` once for each entry of the list, in list order (so a connection
is closed as often as it occurs in the list: exactly once when it occurs once), sets
`ExplicitStop`, changes nothing else and returns from the loop; on every hub with
`ExplicitStop` set the recovery step launches nothing and logs nothing, whether the loop
returned or panicked; and after the Stop no later message brings the loop back: the
shard is not alive and hub, heap and effects are those of the Stop alone. -/
theorem stop_is_terminal (ShouldSendEvent : ConnId → WebSocketEvent → Bool) (rt : Runtime)
    (h : Hub) (heap : Heap) (arg : String) :
    (h.step ShouldSendEvent heap (.stop arg)).hub = { h with ExplicitStop := true } ∧
    (h.step ShouldSendEvent heap (.stop arg)).heap = heap ∧
    (h.step ShouldSendEvent heap (.stop arg)).effects
      = h.connections.map Effect.webSocketClose ∧
    (∀ c, (h.step ShouldSendEvent heap (.stop arg)).effects.count (.webSocketClose c)
      = h.connections.count c) ∧
    (h.step ShouldSendEvent heap (.stop arg)).status = .stopped ∧
    (∀ (g : Hub) (stack : String) (how : LoopEnd),
      (doRecover stack { g with ExplicitStop := true } how).1 ≠ .relaunched ∧
      (doRecover stack { g with ExplicitStop := true } how).2 = []) ∧
    (∀ ms : List Msg,
      (Shard.handleAll ShouldSendEvent rt (.stop arg :: ms)
        { hub := h, heap := heap, alive := true }).1
        = { hub := { h with ExplicitStop := true }, heap := heap, alive := false } ∧
      (Shard.handleAll ShouldSendEvent rt (.stop arg :: ms)
        { hub := h, heap := heap, alive := true }).2
        = h.connections.map Effect.webSocketClose) ∧
    (∀ ms : List Msg,
      Hub.run ShouldSendEvent (.stop arg :: ms) h heap
        = h.step ShouldSendEvent heap (.stop arg)) := by
  have hdead : ∀ (ms : List Msg) (s : Shard), s.alive = false →
      Shard.handleAll ShouldSendEvent rt ms s = (s, []) := by
    intro ms
    induction ms with
    | nil => intro s _; rfl
    | cons m ms ih =>
      intro s hs
      have h1 : s.handle ShouldSendEvent rt m = (s, []) := by
        unfold Shard.handle
        rw [hs]
        rfl
      rw [Shard.handleAll, h1, ih s hs]
      rfl
  have hclose : ∀ (c : ConnId) (l : List ConnId),
      (l.map Effect.webSocketClose).count (.webSocketClose c) = l.count c := by
    intro c l
    induction l with
    | nil => rfl
    | cons d l ih =>
      rw [List.map_cons, List.count_cons, List.count_cons, ih]
      by_cases hd : d = c
      · subst hd; simp
      · have : (Effect.webSocketClose d == Effect.webSocketClose c) = false := by
          simp [hd]
        rw [this]
        have : (d == c) = false := by simp [hd]
        rw [this]
  have hstep : (Shard.handle ShouldSendEvent rt { hub := h, heap := heap, alive := true }
      (.stop arg))
      = ({ hub := { h with ExplicitStop := true }, heap := heap, alive := false },
          h.connections.map Effect.webSocketClose) := by
    simp [Shard.handle, Hub.step, Hub.handleStop, superviseEnd, doRecover]
  refine ⟨rfl, rfl, rfl, ?_, rfl, ?_, ?_, ?_⟩
  · intro c
    exact hclose c h.connections
  · intro g stack how
    cases how <;> simp [doRecover]
  · intro ms
    rw [Shard.handleAll, hstep]
    rw [hdead ms _ rfl]
    simp
  · intro ms
    rw [Hub.run]
    rfl

/-- The broadcast case never makes a connection occur more often in the list. -/
theorem handleBroadcast_count_le (ShouldSendEvent : ConnId → WebSocketEvent → Bool)
    (h : Hub) (heap : Heap) (msg : WebSocketEvent) (c : ConnId) :
    (h.handleBroadcast ShouldSendEvent heap msg).hub.connections.count c
      ≤ h.connections.count c := by
  obtain ⟨s1, hf, hhub, _, _, _⟩ := handleBroadcast_eq ShouldSendEvent h heap msg
  have hconn0 : BcastState.connections
      { arr := h.connections, len := h.connections.length, heap := heap, effects := [] }
      = h.connections := by
    simp [BcastState.connections]
  rw [hhub]
  have := hf.count_le c
  rw [hconn0] at this
  exact this

/-- Only the stop case writes `ExplicitStop`. -/
theorem step_explicitStop (ShouldSendEvent : ConnId → WebSocketEvent → Bool)
    (h : Hub) (heap : Heap) (m : Msg)
    (hst : (h.step ShouldSendEvent heap m).status ≠ .stopped) :
    (h.step ShouldSendEvent heap m).hub.ExplicitStop = h.ExplicitStop := by
  cases m with
  | register c => rfl
  | unregister c =>
    show (h.handleUnregister heap c).hub.ExplicitStop = _
    rw [(handleUnregister_hub h heap c).1]
  | invalidateUser u => rfl
  | broadcast msg =>
    show (h.handleBroadcast ShouldSendEvent heap msg).hub.ExplicitStop = _
    rw [(handleBroadcast_frame ShouldSendEvent h heap msg).1]
  | stop a => exact absurd rfl hst

/-- C12. Crash recovery keeps the shard's state: when a running shard with
`ExplicitStop = false` handles a message on which the loop panics, the recovery step
launches the loop again on the same hub: the shard is alive, and the hub is the one the
panic left, with only `goroutineId` written by the new loop; the list as it stood at the
panic, `connectionCount`, the five channels, `ExplicitStop` and the heap are unchanged,
every connection in the list at the panic is still in it, and the effects added are the
two error log lines and the debug line of the new loop. -/
theorem crash_recovery_keeps_state (ShouldSendEvent : ConnId → WebSocketEvent → Bool)
    (rt : Runtime) (s : Shard) (m : Msg)
    (halive : s.alive = true) (hstop : s.hub.ExplicitStop = false)
    (hpanic : (s.hub.step ShouldSendEvent s.heap m).status = .panicked) :
    (doRecover rt.stack (s.hub.step ShouldSendEvent s.heap m).hub
      (.panicked rt.panicValue)).1 = .relaunched ∧
    (s.handle ShouldSendEvent rt m).1.alive = true ∧
    (s.handle ShouldSendEvent rt m).1.hub
      = { (s.hub.step ShouldSendEvent s.heap m).hub with goroutineId := rt.goroutineId } ∧
    (s.handle ShouldSendEvent rt m).1.heap = (s.hub.step ShouldSendEvent s.heap m).heap ∧
    (s.handle ShouldSendEvent rt m).1.hub.connections
      = (s.hub.step ShouldSendEvent s.heap m).hub.connections ∧
    (s.handle ShouldSendEvent rt m).1.hub.connectionCount = s.hub.connectionCount ∧
    (s.handle ShouldSendEvent rt m).1.hub.register = s.hub.register ∧
    (s.handle ShouldSendEvent rt m).1.hub.unregister = s.hub.unregister ∧
    (s.handle ShouldSendEvent rt m).1.hub.broadcast = s.hub.broadcast ∧
    (s.handle ShouldSendEvent rt m).1.hub.stop = s.hub.stop ∧
    (s.handle ShouldSendEvent rt m).1.hub.invalidateUser = s.hub.invalidateUser ∧
    (s.handle ShouldSendEvent rt m).1.hub.ExplicitStop = false ∧
    (∀ c, c ∈ (s.hub.step ShouldSendEvent s.heap m).hub.connections →
      c ∈ (s.handle ShouldSendEvent rt m).1.hub.connections) ∧
    (s.handle ShouldSendEvent rt m).2
      = (s.hub.step ShouldSendEvent s.heap m).effects ++
        [.logErrorText "Recovering from Hub panic. Panic was: %v" rt.panicValue,
         .logErrorText "%s" rt.stack,
         .logDebug "Hub for index %v is starting with goroutine %v"
           [s.hub.connectionIndex, rt.goroutineId]] := by
  have hne : (s.hub.step ShouldSendEvent s.heap m).status ≠ .stopped := by
    rw [hpanic]; decide
  have hes : (s.hub.step ShouldSendEvent s.heap m).hub.ExplicitStop = false := by
    rw [step_explicitStop ShouldSendEvent s.hub s.heap m hne, hstop]
  have hrec : doRecover rt.stack (s.hub.step ShouldSendEvent s.heap m).hub
      (.panicked rt.panicValue)
      = (.relaunched,
          [.logErrorText "Recovering from Hub panic. Panic was: %v" rt.panicValue,
           .logErrorText "%s" rt.stack]) := by
    unfold doRecover
    rw [hes]
    rfl
  have hhandle : s.handle ShouldSendEvent rt m
      = ({ hub := { (s.hub.step ShouldSendEvent s.heap m).hub with
                    goroutineId := rt.goroutineId },
           heap := (s.hub.step ShouldSendEvent s.heap m).heap, alive := true },
         (s.hub.step ShouldSendEvent s.heap m).effects ++
          [.logErrorText "Recovering from Hub panic. Panic was: %v" rt.panicValue,
           .logErrorText "%s" rt.stack] ++
          [.logDebug "Hub for index %v is starting with goroutine %v"
            [(s.hub.step ShouldSendEvent s.heap m).hub.connectionIndex, rt.goroutineId]]) := by
    unfold Shard.handle
    rw [if_pos halive, hpanic]
    simp only [superviseEnd, hrec, doStartEnter]
  have hfields : (s.hub.step ShouldSendEvent s.heap m).hub
      = { s.hub with connections := (s.hub.step ShouldSendEvent s.heap m).hub.connections } := by
    cases m with
    | register c => exact absurd hpanic (by simp [Hub.step, Hub.handleRegister])
    | unregister c =>
      exact absurd hpanic (by
        show (s.hub.handleUnregister s.heap c).status ≠ _
        rw [(handleUnregister_hub s.hub s.heap c).2.2]; decide)
    | invalidateUser u => exact absurd hpanic (by simp [Hub.step, Hub.handleInvalidateUser])
    | broadcast msg => exact (handleBroadcast_frame ShouldSendEvent s.hub s.heap msg).1
    | stop a => exact absurd hpanic (by simp [Hub.step, Hub.handleStop])
  rw [hrec, hhandle]
  refine ⟨rfl, rfl, rfl, rfl, rfl, ?_, ?_, ?_, ?_, ?_, ?_, hes, fun c hc => hc, ?_⟩
  · show (s.hub.step ShouldSendEvent s.heap m).hub.connectionCount = _
    rw [hfields]
  · show (s.hub.step ShouldSendEvent s.heap m).hub.register = _
    rw [hfields]
  · show (s.hub.step ShouldSendEvent s.heap m).hub.unregister = _
    rw [hfields]
  · show (s.hub.step ShouldSendEvent s.heap m).hub.broadcast = _
    rw [hfields]
  · show (s.hub.step ShouldSendEvent s.heap m).hub.stop = _
    rw [hfields]
  · show (s.hub.step ShouldSendEvent s.heap m).hub.invalidateUser = _
    rw [hfields]
  · have hci : (s.hub.step ShouldSendEvent s.heap m).hub.connectionIndex
        = s.hub.connectionIndex := by
      rw [hfields]
    rw [hci, List.append_assoc]
    rfl

/-- C12 (witness). In the scenario the broadcast panics at the closed channel of `connA`;
the shard is alive afterwards with the list `[connA, connB]` and the counter 2. -/
theorem crash_recovery_keeps_state_witness :
    ((scenarioReRegistered.hub.step scenarioScope scenarioReRegistered.heap
        (.broadcast scenarioEvent)).status = .panicked) ∧
    (Shard.handle scenarioScope scenarioRuntime
      { hub := scenarioReRegistered.hub, heap := scenarioReRegistered.heap, alive := true }
      (.broadcast scenarioEvent)).1.alive = true ∧
    (Shard.handle scenarioScope scenarioRuntime
      { hub := scenarioReRegistered.hub, heap := scenarioReRegistered.heap, alive := true }
      (.broadcast scenarioEvent)).1.hub.connections = [0, 1] ∧
    (Shard.handle scenarioScope scenarioRuntime
      { hub := scenarioReRegistered.hub, heap := scenarioReRegistered.heap, alive := true }
      (.broadcast scenarioEvent)).1.hub.connectionCount = 2 :=
  have hw := crash_recovery_keeps_state scenarioScope scenarioRuntime
    { hub := scenarioReRegistered.hub, heap := scenarioReRegistered.heap, alive := true }
    (.broadcast scenarioEvent) rfl (by decide) (by decide)
  ⟨by decide, hw.2.1, hw.2.2.2.2.1.trans (by decide), hw.2.2.2.2.2.1.trans (by decide)⟩

/-! ## The publisher -/

/-- When every broadcast channel has room the loop over the hubs reaches its end, with
the event appended to each channel. -/
theorem broadcastAll_room (msg : WebSocketEvent) :
    ∀ hubs : List Hub, (∀ h ∈ hubs, h.broadcast.length < BROADCAST_QUEUE_SIZE) →
      broadcastAll (some msg) hubs
        = (hubs.map (fun h => { h with broadcast := h.broadcast ++ [msg] }), true) := by
  intro hubs
  induction hubs with
  | nil => intro _; rfl
  | cons hub rest ih =>
    intro hroom
    have h1 : hub.Broadcast (some msg) = some { hub with broadcast := hub.broadcast ++ [msg] } := by
      unfold Hub.Broadcast
      simp only
      rw [if_pos (hroom hub (List.mem_cons_self _ _))]
    have h2 := ih (fun h hh => hroom h (List.mem_cons_of_mem _ hh))
    unfold broadcastAll
    rw [h1]
    simp only [h2, List.map_cons]

/-- C13. Publish fan-out: for every non-nil event and every hub list whose broadcast
channels have room (so that no send blocks), `Publish` returns; afterwards every hub is
the hub it was with the event appended once at the end of its broadcast channel; the
effects are the metrics increment for the event's type, present exactly when a metrics
interface is registered, followed by the cluster interface's `Publish` of the event,
present exactly when a cluster interface is registered. -/
theorem publish_fans_out (metrics cluster : Bool) (hubs : List Hub) (msg : WebSocketEvent)
    (hroom : ∀ h ∈ hubs, h.broadcast.length < BROADCAST_QUEUE_SIZE) :
    (Publish metrics cluster hubs (some msg)).status = .returned ∧
    (Publish metrics cluster hubs (some msg)).hubs
      = hubs.map (fun h => { h with broadcast := h.broadcast ++ [msg] }) ∧
    (Publish metrics cluster hubs (some msg)).effects
      = (if metrics then [.incrementWebsocketEvent msg.Event] else []) ++
        (if cluster then [.clusterPublish (some msg)] else []) ∧
    ((Publish metrics cluster hubs (some msg)).effects.count
        (.incrementWebsocketEvent msg.Event) = if metrics then 1 else 0) ∧
    ((Publish metrics cluster hubs (some msg)).effects.count
        (.clusterPublish (some msg)) = if cluster then 1 else 0) := by
  have hall := broadcastAll_room msg hubs hroom
  have heff : (Publish metrics cluster hubs (some msg)).effects
      = (if metrics then [.incrementWebsocketEvent msg.Event] else []) ++
        (if cluster then [.clusterPublish (some msg)] else []) := by
    cases metrics <;> simp [Publish, hall]
  refine ⟨?_, ?_, heff, ?_, ?_⟩
  · cases metrics <;> simp [Publish, hall]
  · cases metrics <;> simp [Publish, hall]
  · rw [heff]
    cases metrics <;> cases cluster <;> simp
  · rw [heff]
    cases metrics <;> cases cluster <;> simp

/-- C13 (witness). With both interfaces registered and the two new hubs of a one-CPU
`HubStart`, each hub has the event in its channel and both calls are made. -/
theorem publish_fans_out_witness :
    (∀ h ∈ HubStart 1, h.broadcast.length < BROADCAST_QUEUE_SIZE) ∧
    (Publish true true (HubStart 1) (some scenarioEvent)).status = .returned ∧
    (Publish true true (HubStart 1) (some scenarioEvent)).hubs.map (fun h => h.broadcast)
      = [[scenarioEvent], [scenarioEvent]] ∧
    (Publish true true (HubStart 1) (some scenarioEvent)).effects
      = [.incrementWebsocketEvent "posted", .clusterPublish (some scenarioEvent)] :=
  have hw := publish_fans_out true true (HubStart 1) scenarioEvent (by decide)
  ⟨by decide, hw.1, by rw [hw.2.1]; decide, hw.2.2.1⟩

/-- C14 (counterexample). With a metrics interface registered, `Publish` increments the
counter of the event's type and `PublishSkipClusterSend` does not: its effects are not
those of `Publish` without the cluster hand-off.  For a nil event `Publish` panics in
`message.Event` while `PublishSkipClusterSend` returns. -/
theorem publishSkipClusterSend_skips_metrics :
    (PublishSkipClusterSend [NewWebHub] (some scenarioEvent)).effects = [] ∧
    (Publish true true [NewWebHub] (some scenarioEvent)).effects
      = [.incrementWebsocketEvent "posted", .clusterPublish (some scenarioEvent)] ∧
    (specPublishSkipClusterSend true true [NewWebHub] (some scenarioEvent)).effects
      = [.incrementWebsocketEvent "posted"] ∧
    PublishSkipClusterSend [NewWebHub] (some scenarioEvent)
      ≠ specPublishSkipClusterSend true true [NewWebHub] (some scenarioEvent) ∧
    (Publish true true [NewWebHub] none).status = .panicked ∧
    (PublishSkipClusterSend [NewWebHub] none).status = .returned := by
  refine ⟨by decide, by decide, by decide, by decide, by decide, by decide⟩

/-- C14 (amended). `PublishSkipClusterSend` is the broadcast loop of `Publish` and nothing
else: for every hub list and every event, nil or not, it is `Publish` as it runs with
neither a metrics nor a cluster interface registered; and for a non-nil event and any
configuration of the two interfaces it leaves the hubs as `Publish` does and ends as
`Publish` does, while it makes no call to the metrics or the cluster interface. -/
theorem publishSkipClusterSend_is_broadcast_only (hubs : List Hub) :
    (∀ message : Option WebSocketEvent,
      PublishSkipClusterSend hubs message = Publish false false hubs message) ∧
    (∀ (metrics cluster : Bool) (msg : WebSocketEvent),
      (PublishSkipClusterSend hubs (some msg)).hubs
        = (Publish metrics cluster hubs (some msg)).hubs ∧
      (PublishSkipClusterSend hubs (some msg)).status
        = (Publish metrics cluster hubs (some msg)).status ∧
      (PublishSkipClusterSend hubs (some msg)).effects = []) := by
  constructor
  · intro message
    unfold PublishSkipClusterSend Publish
    cases hb : (broadcastAll message hubs).2 <;> simp
  · intro metrics cluster msg
    unfold PublishSkipClusterSend Publish
    cases hb : (broadcastAll (some msg) hubs).2 <;> cases metrics <;> simp

/-! ## The list has no duplicates -/

/-- One pass through the `select` keeps the list free of duplicates, when a connection
that is registered is not in the list. -/
theorem step_nodup (ShouldSendEvent : ConnId → WebSocketEvent → Bool)
    (h : Hub) (heap : Heap) (m : Msg) (hnd : h.connections.Nodup)
    (hreg : ∀ c, m = .register c → c ∉ h.connections) :
    (h.step ShouldSendEvent heap m).hub.connections.Nodup := by
  cases m with
  | register c =>
    show (h.connections ++ [c]).Nodup
    rw [List.nodup_append]
    refine ⟨hnd, List.nodup_singleton c, ?_⟩
    intro x hx hx1
    rw [List.mem_singleton] at hx1
    subst hx1
    exact hreg x rfl hx
  | unregister c =>
    show (h.handleUnregister heap c).hub.connections.Nodup
    obtain ⟨connections, heq, habs, hpres, _⟩ := handleUnregister_spec h heap c
    rw [heq]
    by_cases hc : c ∈ h.connections
    · exact (hpres hc).nodup_iff.2 (hnd.erase c)
    · show connections.Nodup
      rw [habs hc]
      exact hnd
  | invalidateUser u => exact hnd
  | broadcast msg =>
    show (h.handleBroadcast ShouldSendEvent heap msg).hub.connections.Nodup
    rw [List.nodup_iff_count_le_one]
    intro c
    exact Nat.le_trans (handleBroadcast_count_le ShouldSendEvent h heap msg c)
      (List.nodup_iff_count_le_one.1 hnd c)
  | stop a => exact hnd

/-- A run keeps the list free of duplicates, when every connection that is registered is
not in the list at that moment. -/
theorem run_nodup (ShouldSendEvent : ConnId → WebSocketEvent → Bool) :
    ∀ (ms : List Msg) (h : Hub) (heap : Heap), h.connections.Nodup →
      registersAbsent ShouldSendEvent ms h heap = true →
      (Hub.run ShouldSendEvent ms h heap).hub.connections.Nodup := by
  intro ms
  induction ms with
  | nil => intro h heap hnd _; exact hnd
  | cons m ms ih =>
    intro h heap hnd hreg
    have hstep : (h.step ShouldSendEvent heap m).hub.connections.Nodup := by
      apply step_nodup ShouldSendEvent h heap m hnd
      intro c hm
      subst hm
      unfold registersAbsent at hreg
      simp only [Bool.and_eq_true, Bool.not_eq_true', List.contains_eq_any_beq,
        List.any_eq_false, beq_iff_eq] at hreg
      intro hc
      exact hreg.1 c hc rfl
    have hrest : (match (h.step ShouldSendEvent heap m).status with
        | .stopped => true
        | .panicked =>
          if (h.step ShouldSendEvent heap m).hub.ExplicitStop then true
          else registersAbsent ShouldSendEvent ms (h.step ShouldSendEvent heap m).hub
            (h.step ShouldSendEvent heap m).heap
        | .running =>
          registersAbsent ShouldSendEvent ms (h.step ShouldSendEvent heap m).hub
            (h.step ShouldSendEvent heap m).heap) = true := by
      unfold registersAbsent at hreg
      rw [Bool.and_eq_true] at hreg
      exact hreg.2
    rw [Hub.run]
    cases hst : (h.step ShouldSendEvent heap m).status with
    | stopped => simp only [hst]; exact hstep
    | panicked =>
      rw [hst] at hrest
      simp only [hst]
      by_cases hes : (h.step ShouldSendEvent heap m).hub.ExplicitStop = true
      · rw [if_pos hes]; exact hstep
      · rw [if_neg hes]
        rw [if_neg hes] at hrest
        exact ih _ _ hstep hrest
    | running =>
      rw [hst] at hrest
      simp only [hst]
      exact ih _ _ hstep hrest

/-- C15 (counterexample). Two Register messages for the same connection, handled by a
new hub, leave the connection twice in the list. -/
theorem double_register_duplicates :
    NewWebHub.connections = [] ∧
    (Hub.run scenarioScope [.register 7, .register 7] NewWebHub scenarioHeap).hub.connections
      = [7, 7] ∧
    (Hub.run scenarioScope [.register 7, .register 7] NewWebHub scenarioHeap).status
      = .running ∧
    ¬ (Hub.run scenarioScope [.register 7, .register 7]
        NewWebHub scenarioHeap).hub.connections.Nodup ∧
    (Hub.run scenarioScope [.register 7, .register 7]
        NewWebHub scenarioHeap).hub.connections.count 7 = 2 := by
  refine ⟨by decide, by decide, by decide, by decide, by decide⟩

/-- C15 (amended). No duplicates: in every state reached from a new hub by a sequence
of Register, Unregister, InvalidateUser, Broadcast and Stop messages in which every
Register is for a connection that is not in the list when it is handled, each connection
occurs at most once in the list. -/
theorem no_duplicates_invariant (ShouldSendEvent : ConnId → WebSocketEvent → Bool)
    (heap : Heap) (ms : List Msg)
    (hreg : registersAbsent ShouldSendEvent ms NewWebHub heap = true) :
    (Hub.run ShouldSendEvent ms NewWebHub heap).hub.connections.Nodup ∧
    ∀ c, (Hub.run ShouldSendEvent ms NewWebHub heap).hub.connections.count c ≤ 1 := by
  have hnd := run_nodup ShouldSendEvent ms NewWebHub heap List.nodup_nil hreg
  exact ⟨hnd, List.nodup_iff_count_le_one.1 hnd⟩

/-- C15 (witness). In the scenario `connA` is registered, evicted by a broadcast and
registered again, `connB` is registered and unregistered: no connection is twice in
the list. -/
theorem no_duplicates_invariant_witness :
    registersAbsent scenarioScope
      [.register 0, .register 1, .broadcast scenarioEvent, .register 0, .unregister 1,
        .invalidateUser "U1", .register 2]
      NewWebHub scenarioHeap = true ∧
    (Hub.run scenarioScope
      [.register 0, .register 1, .broadcast scenarioEvent, .register 0, .unregister 1,
        .invalidateUser "U1", .register 2]
      NewWebHub scenarioHeap).hub.connections.Nodup :=
  ⟨by decide,
    (no_duplicates_invariant scenarioScope scenarioHeap
      [.register 0, .register 1, .broadcast scenarioEvent, .register 0, .unregister 1,
        .invalidateUser "U1", .register 2] (by decide)).1⟩

/-! ## The router and the global hub list -/

/-- The hub list of `HubStart` has `numCPU * 2` hubs, hub `i` with index `i`. -/
theorem hubStart_getElem (numCPU index : Nat) (hi : index < numCPU * 2) :
    (HubStart numCPU)[index]? = some { NewWebHub with connectionIndex := (index : Int) } := by
  unfold HubStart
  rw [List.getElem?_map, List.getElem?_range hi]
  rfl

/-- The last call decides the hub list when it is `HubStart`. -/
theorem hubsAfter_append_hubStart (numCPU : Nat) :
    ∀ (calls : List Lifecycle) (hubs : List Hub),
      hubsAfter (calls ++ [.hubStart numCPU]) hubs = HubStart numCPU := by
  intro calls
  induction calls with
  | nil => intro hubs; rfl
  | cons call calls ih =>
    intro hubs
    cases call with
    | hubStart n => exact ih _
    | hubStop => exact ih _

/-- C16 (counterexample). Before `HubStart`, and after `HubStart` followed by `HubStop`,
the hub list is empty and `GetHubForUserId` panics with a division by zero, for every
user id. -/
theorem getHubForUserId_panics_without_hubs :
    hubsAfter [] initialHubs = [] ∧
    hubsAfter [.hubStart 4, .hubStop] initialHubs = [] ∧
    hubIndexForUserId (hubsAfter [] initialHubs) "U1" = none ∧
    GetHubForUserId (hubsAfter [] initialHubs) "U1" = none ∧
    GetHubForUserId (hubsAfter [.hubStart 4, .hubStop] initialHubs) "U1" = none ∧
    (∀ userId : String, GetHubForUserId [] userId = none) := by
  refine ⟨rfl, rfl, by decide, by decide, by decide, ?_⟩
  intro userId
  simp [GetHubForUserId, hubIndexForUserId]

/-- C16 (amended). The router between `HubStart` and `HubStop`: in every state of the
global hub list whose last call was `HubStart`, on a machine with at least one CPU and
fewer than `2^31`, `GetHubForUserId` returns a hub for every user id: the modulo is by
`2 * NumCPU`, not zero, the index is within the list, and the hub returned is the one
with that index. -/
theorem getHubForUserId_total_after_hubStart (calls : List Lifecycle) (numCPU : Nat)
    (userId : String) (hcpu : 1 ≤ numCPU) (hsmall : numCPU * 2 < 2 ^ 32) :
    (hubsAfter (calls ++ [.hubStart numCPU]) initialHubs).length = numCPU * 2 ∧
    hubIndexForUserId (hubsAfter (calls ++ [.hubStart numCPU]) initialHubs) userId
      = some (fnv32a (stringBytes userId) % (numCPU * 2)) ∧
    fnv32a (stringBytes userId) % (numCPU * 2) < numCPU * 2 ∧
    GetHubForUserId (hubsAfter (calls ++ [.hubStart numCPU]) initialHubs) userId
      = some { NewWebHub with
          connectionIndex := ((fnv32a (stringBytes userId) % (numCPU * 2) : Nat) : Int) } := by
  have hpos : 0 < numCPU * 2 := by omega
  have hlen : (HubStart numCPU).length = numCPU * 2 := by
    simp [HubStart]
  have hlt : fnv32a (stringBytes userId) % (numCPU * 2) < numCPU * 2 := Nat.mod_lt _ hpos
  have hidx : hubIndexForUserId (HubStart numCPU) userId
      = some (fnv32a (stringBytes userId) % (numCPU * 2)) := by
    unfold hubIndexForUserId
    simp only [hlen, Nat.mod_eq_of_lt hsmall]
    rw [if_neg (by omega)]
  rw [hubsAfter_append_hubStart]
  refine ⟨hlen, hidx, hlt, ?_⟩
  unfold GetHubForUserId
  rw [hidx]
  exact hubStart_getElem numCPU _ hlt

/-- C16 (witness). After `HubStart` on two CPUs, following an earlier start and stop,
the user `U1` has a hub among the four. -/
theorem getHubForUserId_total_after_hubStart_witness :
    (1 ≤ 2 ∧ 2 * 2 < 2 ^ 32) ∧
    (hubsAfter ([.hubStart 4, .hubStop] ++ [.hubStart 2]) initialHubs).length = 2 * 2 ∧
    (GetHubForUserId (hubsAfter ([.hubStart 4, .hubStop] ++ [.hubStart 2]) initialHubs)
      "U1").isSome = true :=
  have hw := getHubForUserId_total_after_hubStart [.hubStart 4, .hubStop] 2 "U1"
    (by decide) (by decide)
  ⟨by decide, hw.1, by rw [hw.2.2.2]; rfl⟩

/-! ## The counter after an eviction -/

/-- C17 (the code at the failing input). The broadcast case never writes
`connectionCount`, whatever it evicts.  With `connA` (queue full) and `connB` of the user
`U1` registered on a new hub the counter is 2; the broadcast in scope for both evicts
`connA` and delivers to `connB`, the list is `[connB]`, and `connectionCount` and
`TotalWebsocketConnections` are still 2. -/
theorem eviction_leaves_connectionCount :
    (∀ (ShouldSendEvent : ConnId → WebSocketEvent → Bool) (h : Hub) (heap : Heap)
        (msg : WebSocketEvent),
      (h.handleBroadcast ShouldSendEvent heap msg).hub.connectionCount = h.connectionCount) ∧
    (Hub.run scenarioScope [.register 0, .register 1] NewWebHub scenarioHeap).hub.connections
      = [0, 1] ∧
    (Hub.run scenarioScope [.register 0, .register 1] NewWebHub scenarioHeap).hub.connectionCount
      = 2 ∧
    (scenarioHeap 0).UserId = (scenarioHeap 1).UserId ∧
    (scenarioHeap 0).Send.buf.length = (scenarioHeap 0).Send.cap ∧
    scenarioScope 0 scenarioEvent = true ∧
    (Hub.run scenarioScope [.register 0, .register 1, .broadcast scenarioEvent]
      NewWebHub scenarioHeap).status = .running ∧
    (Hub.run scenarioScope [.register 0, .register 1, .broadcast scenarioEvent]
      NewWebHub scenarioHeap).hub.connections = [1] ∧
    (Hub.run scenarioScope [.register 0, .register 1, .broadcast scenarioEvent]
      NewWebHub scenarioHeap).effects
      = [.logCannotSend "U1", .closeSend 0, .enqueue 1 scenarioEvent] ∧
    (Hub.run scenarioScope [.register 0, .register 1, .broadcast scenarioEvent]
      NewWebHub scenarioHeap).hub.connectionCount = 2 ∧
    TotalWebsocketConnections
      [(Hub.run scenarioScope [.register 0, .register 1, .broadcast scenarioEvent]
        NewWebHub scenarioHeap).hub] = 2 := by
  refine ⟨?_, by decide, by decide, by decide, by decide, by decide, by decide, by decide,
    by decide, by decide, by decide⟩
  intro ShouldSendEvent h heap msg
  rw [(handleBroadcast_frame ShouldSendEvent h heap msg).1]

/-! ## The watchdog -/

/-- The trace lines are lines of the error log. -/
theorem traceLogs_isLog (mentions : String → Int → Bool) (goroutineId : Int) :
    ∀ parts : List String, ∀ e ∈ traceLogs mentions goroutineId parts, e.isLog = true := by
  intro parts
  induction parts with
  | nil => intro e he; exact absurd he (List.not_mem_nil e)
  | cons part rest ih =>
    intro e he
    unfold traceLogs at he
    by_cases hm : mentions part goroutineId = true
    · rw [if_pos hm] at he
      rcases List.mem_cons.1 he with rfl | he1
      · rfl
      · exact ih e he1
    · rw [if_neg hm] at he
      exact ih e he

/-- C18. The watchdog is purely observational: for every hub list, whatever the stack
dump holds, one tick returns every hub as it was, all fields included; every effect of
the tick is a line of a log; for a hub whose broadcast channel holds fewer than
`DEADLOCK_WARN = 4055` events the tick does nothing at all, and for the others its first
effect is the error line with the hub's index, goroutine id and channel length. -/
theorem watchdog_only_observes (stackParts : Int → List String)
    (mentions : String → Int → Bool) (hubs : List Hub) :
    (watchdogTick stackParts mentions hubs).1 = hubs ∧
    (∀ e ∈ (watchdogTick stackParts mentions hubs).2, e.isLog = true) ∧
    DEADLOCK_WARN = 4055 ∧
    (∀ hub : Hub,
      (watchdogHub stackParts mentions hub).1 = hub ∧
      ((watchdogHub stackParts mentions hub).2 = [] ↔ hub.broadcast.length < DEADLOCK_WARN) ∧
      (DEADLOCK_WARN ≤ hub.broadcast.length ↔
        (watchdogHub stackParts mentions hub).2.head?
          = some (.logError
            "Hub processing might be deadlock on hub %v goroutine %v with %v events in the buffer"
            [hub.connectionIndex, hub.goroutineId, (hub.broadcast.length : Int)]))) := by
  have hone : ∀ hub : Hub, (watchdogHub stackParts mentions hub).1 = hub := by
    intro hub
    unfold watchdogHub
    split <;> rfl
  have hlog : ∀ hub : Hub, ∀ e ∈ (watchdogHub stackParts mentions hub).2, e.isLog = true := by
    intro hub e he
    unfold watchdogHub at he
    by_cases hw : hub.broadcast.length ≥ DEADLOCK_WARN
    · rw [if_pos hw] at he
      rcases List.mem_cons.1 he with rfl | he1
      · rfl
      · exact traceLogs_isLog mentions _ _ e he1
    · rw [if_neg hw] at he
      exact absurd he (List.not_mem_nil e)
  refine ⟨?_, ?_, by decide, ?_⟩
  · induction hubs with
    | nil => rfl
    | cons hub rest ih =>
      unfold watchdogTick
      rw [hone hub, ih]
  · induction hubs with
    | nil => intro e he; exact absurd he (List.not_mem_nil e)
    | cons hub rest ih =>
      intro e he
      unfold watchdogTick at he
      rcases List.mem_append.1 he with h1 | h2
      · exact hlog hub e h1
      · exact ih e h2
  · intro hub
    refine ⟨hone hub, ?_, ?_⟩
    · unfold watchdogHub
      by_cases hw : hub.broadcast.length ≥ DEADLOCK_WARN
      · rw [if_pos hw]
        constructor
        · intro hnil; exact absurd hnil (List.cons_ne_nil _ _)
        · intro hlt; omega
      · rw [if_neg hw]
        constructor
        · intro _; omega
        · intro _; rfl
    · unfold watchdogHub
      by_cases hw : hub.broadcast.length ≥ DEADLOCK_WARN
      · rw [if_pos hw]
        constructor
        · intro _; rfl
        · intro _; exact hw
      · rw [if_neg hw]
        constructor
        · intro hge; omega
        · intro hhead; exact absurd hhead (by simp)

/-! ## The threshold of the watchdog -/

/-- C25 (counterexample). A hub whose broadcast channel holds 4055 events is reported by
the watchdog, although `4055 * 100` is not more than `4096 * 99`. -/
theorem watchdog_reports_at_4055 :
    ({ NewWebHub with broadcast := List.replicate 4055 scenarioEvent } : Hub).broadcast.length
      = 4055 ∧
    ¬ (4055 * 100 > BROADCAST_QUEUE_SIZE * 99) ∧
    (watchdogHub (fun _ => []) (fun _ _ => false)
      { NewWebHub with broadcast := List.replicate 4055 scenarioEvent }).2
      = [.logError
          "Hub processing might be deadlock on hub %v goroutine %v with %v events in the buffer"
          [0, 0, 4055]] := by
  refine ⟨List.length_replicate _ _, by decide, ?_⟩
  unfold watchdogHub
  simp only [List.length_replicate]
  rw [if_pos (by decide)]
  rfl

/-- C25 (amended). Watchdog threshold: on a tick the watchdog logs for a hub exactly when
the depth of the hub's broadcast channel is at least `DEADLOCK_WARN`, which is
`BROADCAST_QUEUE_SIZE * 99 / 100` rounded down, 4055 for the capacity 4096 (that is,
when `depth * 100 ≥ 405500`); for a hub below it nothing is logged, and what the tick
logs is what it logs for each hub, in the order of the hubs. -/
theorem watchdog_threshold (stackParts : Int → List String) (mentions : String → Int → Bool) :
    BROADCAST_QUEUE_SIZE = 4096 ∧
    DEADLOCK_WARN = BROADCAST_QUEUE_SIZE * 99 / 100 ∧
    DEADLOCK_WARN = 4055 ∧
    (∀ hub : Hub,
      ((watchdogHub stackParts mentions hub).2 ≠ [] ↔ 4055 ≤ hub.broadcast.length) ∧
      ((watchdogHub stackParts mentions hub).2 ≠ [] ↔ hub.broadcast.length * 100 ≥ 405500) ∧
      ((watchdogHub stackParts mentions hub).2 = [] ↔ hub.broadcast.length < 4055)) ∧
    (∀ hubs : List Hub,
      (watchdogTick stackParts mentions hubs).2
        = hubs.flatMap (fun hub => (watchdogHub stackParts mentions hub).2)) := by
  have hw : DEADLOCK_WARN = 4055 := by decide
  have hone : ∀ hub : Hub,
      (watchdogHub stackParts mentions hub).2 = [] ↔ hub.broadcast.length < 4055 := by
    intro hub
    unfold watchdogHub
    rw [hw]
    by_cases hge : hub.broadcast.length ≥ 4055
    · rw [if_pos hge]
      constructor
      · intro hnil; exact absurd hnil (List.cons_ne_nil _ _)
      · intro hlt; omega
    · rw [if_neg hge]
      constructor
      · intro _; omega
      · intro _; rfl
  refine ⟨rfl, rfl, hw, ?_, ?_⟩
  · intro hub
    refine ⟨?_, ?_, hone hub⟩
    · rw [Ne, hone hub]; omega
    · rw [Ne, hone hub]; omega
  · intro hubs
    induction hubs with
    | nil => rfl
    | cons hub rest ih =>
      rw [watchdogTick, List.flatMap_cons, ih]

/-! ## The hub of the user `U1` -/

/-- C26 (counterexample). The 32-bit FNV-1a hash of `"U1"` is 66254355, an odd number:
with the two hubs of a one-CPU `HubStart` the index is 1, and the hub returned is not
the hub at index 0. -/
theorem u1_not_routed_to_hub_zero :
    (HubStart 1).length = 2 ∧
    fnv32a (stringBytes "U1") = 66254355 ∧
    hubIndexForUserId (HubStart 1) "U1" = some 1 ∧
    GetHubForUserId (HubStart 1) "U1" ≠ (HubStart 1)[0]? ∧
    GetHubForUserId (HubStart 1) "U1" = (HubStart 1)[1]? := by
  refine ⟨by decide, by decide, by decide, by decide, by decide⟩

/-- C26 (amended). Scenario routing: with exactly two hubs, `GetHubForUserId("U1")`
returns the hub at index 1. -/
theorem u1_routed_to_hub_one (hub0 hub1 : Hub) :
    hubIndexForUserId [hub0, hub1] "U1" = some 1 ∧
    GetHubForUserId [hub0, hub1] "U1" = some hub1 := by
  have hidx : hubIndexForUserId [hub0, hub1] "U1" = some 1 := by
    unfold hubIndexForUserId
    simp only [List.length_cons, List.length_nil]
    decide
  refine ⟨hidx, ?_⟩
  unfold GetHubForUserId
  rw [hidx]
  rfl

/-! ## The exact condition of the offline signal -/

/-- C27. Exact condition of the offline signal: for every list and every connection
`c`, in the list or not, the unregister case emits `SetStatusOffline(c.UserId)` once
when `c.UserId` is not empty and no list entry other than `c` has the same `UserId`, and
emits nothing otherwise; it never emits another effect, and nothing at all for an empty
`UserId`. -/
theorem offline_signal_condition (h : Hub) (heap : Heap) (c : ConnId) :
    (h.handleUnregister heap c).effects
      = (if (heap c).UserId ≠ "" ∧
            ∀ d ∈ h.connections, d ≠ c → (heap d).UserId ≠ (heap c).UserId
         then [.setStatusOffline (heap c).UserId] else []) ∧
    ((h.handleUnregister heap c).effects.count (.setStatusOffline (heap c).UserId)
      = if (heap c).UserId ≠ "" ∧
            ∀ d ∈ h.connections, d ≠ c → (heap d).UserId ≠ (heap c).UserId
        then 1 else 0) ∧
    (∀ connections : List ConnId,
      ({ h with connections := connections }.handleUnregister
        (fun d => { heap d with UserId := if d = c then "" else (heap d).UserId }) c).effects
        = []) := by
  have key : ∀ (g : Hub) (hp : Heap), (g.handleUnregister hp c).effects
      = (if (hp c).UserId ≠ "" ∧
            ∀ d ∈ g.connections, d ≠ c → (hp d).UserId ≠ (hp c).UserId
         then [.setStatusOffline (hp c).UserId] else []) := by
    intro g hp
    obtain ⟨connections, heq, _⟩ := handleUnregister_spec g hp c
    rw [heq]
    show (if (hp c).UserId = "" then []
      else if g.connections.any
          (fun d => decide (d ≠ c) && decide ((hp c).UserId = (hp d).UserId))
        then [] else [Effect.setStatusOffline (hp c).UserId]) = _
    by_cases hu : (hp c).UserId = ""
    · rw [if_pos hu, if_neg (fun hc => hc.1 hu)]
    · rw [if_neg hu]
      by_cases hany : g.connections.any
          (fun d => decide (d ≠ c) && decide ((hp c).UserId = (hp d).UserId)) = true
      · rw [if_pos hany, if_neg]
        intro hc
        rw [List.any_eq_true] at hany
        obtain ⟨d, hd, hdc⟩ := hany
        simp only [Bool.and_eq_true, decide_eq_true_eq] at hdc
        exact hc.2 d hd hdc.1 hdc.2.symm
      · rw [if_neg hany, if_pos]
        refine ⟨hu, ?_⟩
        intro d hd hdc heq1
        apply hany
        rw [List.any_eq_true]
        exact ⟨d, hd, by simp only [Bool.and_eq_true, decide_eq_true_eq]; exact ⟨hdc, heq1.symm⟩⟩
  refine ⟨key h heap, ?_, ?_⟩
  · rw [key h heap]
    split
    · simp
    · simp
  · intro connections
    rw [key]
    rw [if_neg]
    intro hc
    exact hc.1 (by simp)

/-! ## The counter and the length of the list -/

/-- The broadcast case never makes the list longer. -/
theorem handleBroadcast_length_le (ShouldSendEvent : ConnId → WebSocketEvent → Bool)
    (h : Hub) (heap : Heap) (msg : WebSocketEvent) :
    (h.handleBroadcast ShouldSendEvent heap msg).hub.connections.length
      ≤ h.connections.length := by
  apply List.Subperm.length_le
  rw [List.subperm_ext_iff]
  intro c _
  exact handleBroadcast_count_le ShouldSendEvent h heap msg c

/-- The unregister case never makes the list longer. -/
theorem handleUnregister_length_le (h : Hub) (heap : Heap) (c : ConnId) :
    (h.handleUnregister heap c).hub.connections.length ≤ h.connections.length := by
  obtain ⟨connections, heq, habs, hpres, _⟩ := handleUnregister_spec h heap c
  rw [heq]
  show connections.length ≤ _
  by_cases hc : c ∈ h.connections
  · rw [(hpres hc).length_eq, List.length_erase_of_mem hc]
    omega
  · rw [habs hc]

/-- One pass through the `select` keeps the list at most as long as the counter says. -/
theorem step_count_inv (ShouldSendEvent : ConnId → WebSocketEvent → Bool)
    (h : Hub) (heap : Heap) (m : Msg)
    (hinv : (h.connections.length : Int) ≤ h.connectionCount) :
    ((h.step ShouldSendEvent heap m).hub.connections.length : Int)
      ≤ (h.step ShouldSendEvent heap m).hub.connectionCount := by
  cases m with
  | register c => exact Int.le_refl _
  | unregister c =>
    show ((h.handleUnregister heap c).hub.connections.length : Int)
      ≤ (h.handleUnregister heap c).hub.connectionCount
    rw [handleUnregister_connectionCount]
    have := handleUnregister_length_le h heap c
    omega
  | invalidateUser u => exact hinv
  | broadcast msg =>
    show ((h.handleBroadcast ShouldSendEvent heap msg).hub.connections.length : Int)
      ≤ (h.handleBroadcast ShouldSendEvent heap msg).hub.connectionCount
    have hcount : (h.handleBroadcast ShouldSendEvent heap msg).hub.connectionCount
        = h.connectionCount := by
      rw [(handleBroadcast_frame ShouldSendEvent h heap msg).1]
    rw [hcount]
    have := handleBroadcast_length_le ShouldSendEvent h heap msg
    omega
  | stop a => exact hinv

/-- A run keeps the list at most as long as the counter says. -/
theorem run_count_inv (ShouldSendEvent : ConnId → WebSocketEvent → Bool) :
    ∀ (ms : List Msg) (h : Hub) (heap : Heap),
      (h.connections.length : Int) ≤ h.connectionCount →
      ((Hub.run ShouldSendEvent ms h heap).hub.connections.length : Int)
        ≤ (Hub.run ShouldSendEvent ms h heap).hub.connectionCount := by
  intro ms
  induction ms with
  | nil => intro h heap hinv; exact hinv
  | cons m ms ih =>
    intro h heap hinv
    have hstep := step_count_inv ShouldSendEvent h heap m hinv
    rw [Hub.run]
    cases hst : (h.step ShouldSendEvent heap m).status with
    | stopped => simp only [hst]; exact hstep
    | panicked =>
      simp only [hst]
      by_cases hes : (h.step ShouldSendEvent heap m).hub.ExplicitStop = true
      · rw [if_pos hes]; exact hstep
      · rw [if_neg hes]
        exact ih _ _ hstep
    | running =>
      simp only [hst]
      exact ih _ _ hstep

/-- C28. Counter never under-reports: in every state reached from a new hub by a
sequence of Register, Unregister, InvalidateUser, Broadcast and Stop messages the list
is at most as long as `connectionCount` says; the register case sets the counter to the
length of the list it leaves, and the unregister, invalidate, broadcast and stop cases
leave the counter as it was. -/
theorem counter_never_under_reports (ShouldSendEvent : ConnId → WebSocketEvent → Bool)
    (heap : Heap) :
    (∀ ms : List Msg,
      ((Hub.run ShouldSendEvent ms NewWebHub heap).hub.connections.length : Int)
        ≤ (Hub.run ShouldSendEvent ms NewWebHub heap).hub.connectionCount) ∧
    (∀ (h : Hub) (c : ConnId),
      (h.step ShouldSendEvent heap (.register c)).hub.connectionCount
        = ((h.step ShouldSendEvent heap (.register c)).hub.connections.length : Int)) ∧
    (∀ (h : Hub) (c : ConnId),
      (h.step ShouldSendEvent heap (.unregister c)).hub.connectionCount = h.connectionCount) ∧
    (∀ (h : Hub) (u : String),
      (h.step ShouldSendEvent heap (.invalidateUser u)).hub.connectionCount
        = h.connectionCount) ∧
    (∀ (h : Hub) (msg : WebSocketEvent),
      (h.step ShouldSendEvent heap (.broadcast msg)).hub.connectionCount = h.connectionCount) ∧
    (∀ (h : Hub) (arg : String),
      (h.step ShouldSendEvent heap (.stop arg)).hub.connectionCount = h.connectionCount) := by
  refine ⟨?_, fun _ _ => rfl, ?_, fun _ _ => rfl, ?_, fun _ _ => rfl⟩
  · intro ms
    exact run_count_inv ShouldSendEvent ms NewWebHub heap (Int.le_refl _)
  · intro h c
    exact handleUnregister_connectionCount h heap c
  · intro h msg
    show (h.handleBroadcast ShouldSendEvent heap msg).hub.connectionCount = _
    rw [(handleBroadcast_frame ShouldSendEvent h heap msg).1]

end WebHub

namespace EmailBatching

/-! ## Grouping the new notifications -/

theorem receiveAll_fst :
    ∀ (queue : List batchedNotification) (pending : Pending),
      (receiveAll queue pending).1 = [] := by
  intro queue
  induction queue with
  | nil => intro pending; rfl
  | cons notification queue ih => intro pending; rw [receiveAll]; exact ih _

theorem receiveAll_snd (u : String) :
    ∀ (queue : List batchedNotification) (pending : Pending),
      (receiveAll queue pending).2 u
        = if queue.filter (fun n => decide (n.userId = u)) = [] then pending u
          else some ((pending u).getD [] ++ queue.filter (fun n => decide (n.userId = u))) := by
  intro queue
  induction queue with
  | nil => intro pending; rfl
  | cons notification queue ih =>
    intro pending
    rw [receiveAll, ih]
    by_cases hu : notification.userId = u
    · have hf : (notification :: queue).filter (fun n => decide (n.userId = u))
          = notification :: queue.filter (fun n => decide (n.userId = u)) := by
        rw [List.filter_cons_of_pos (by simpa using hu)]
      rw [hf, if_neg (List.cons_ne_nil _ _)]
      have hp : (match pending notification.userId with
          | none => pending.set notification.userId [notification]
          | some notifications =>
            pending.set notification.userId (notifications ++ [notification])) u
          = some ((pending u).getD [] ++ [notification]) := by
        rw [hu]
        cases hpu : pending u with
        | none => simp [Pending.set]
        | some l => simp [Pending.set]
      rw [hp]
      by_cases hq : queue.filter (fun n => decide (n.userId = u)) = []
      · rw [if_pos hq, hq]
      · rw [if_neg hq, Option.getD_some, List.append_assoc]
        rfl
    · have hf : (notification :: queue).filter (fun n => decide (n.userId = u))
          = queue.filter (fun n => decide (n.userId = u)) := by
        rw [List.filter_cons_of_neg (by simpa using hu)]
      rw [hf]
      have hp : (match pending notification.userId with
          | none => pending.set notification.userId [notification]
          | some notifications =>
            pending.set notification.userId (notifications ++ [notification])) u
          = pending u := by
        have hne : ¬ u = notification.userId := fun e => hu e.symm
        cases hpn : pending notification.userId with
        | none => simp [Pending.set, hne]
        | some l => simp [Pending.set, hne]
      rw [hp]

/-- C19. Email batching, grouping: `handleNewNotifications` leaves the queue empty and
the capacity as it was, and for every user `u` the entry `pending[u]` is the old entry
(nothing, for a user without one) followed by the queued notifications whose `userId` is
`u`, in their arrival order; a user with no queued notification keeps the entry, or the
absence of an entry, as it was, so with an empty queue the job is unchanged. -/
theorem handleNewNotifications_groups (job : EmailBatchingJob) :
    job.handleNewNotifications.newNotifications = [] ∧
    job.handleNewNotifications.bufferSize = job.bufferSize ∧
    (∀ u : String,
      job.handleNewNotifications.pendingNotifications u
        = if job.newNotifications.filter (fun n => decide (n.userId = u)) = [] then
            job.pendingNotifications u
          else some ((job.pendingNotifications u).getD [] ++
            job.newNotifications.filter (fun n => decide (n.userId = u)))) ∧
    (∀ u : String, (∀ n ∈ job.newNotifications, n.userId ≠ u) →
      job.handleNewNotifications.pendingNotifications u = job.pendingNotifications u) ∧
    ({ job with newNotifications := [] } : EmailBatchingJob).handleNewNotifications.pendingNotifications
      = job.pendingNotifications := by
  refine ⟨receiveAll_fst _ _, rfl, fun u => receiveAll_snd u _ _, ?_, rfl⟩
  intro u hu
  show (receiveAll job.newNotifications job.pendingNotifications).2 u = _
  rw [receiveAll_snd, if_pos]
  rw [List.filter_eq_nil_iff]
  intro n hn
  simpa using hu n hn

/-! ## Sending the pending batches -/

/-- The loop of `checkPendingNotifications` when no batch is empty: it does not panic,
it leaves alone the entries of the keys it does not visit, and for a key visited once
the entry is deleted or kept as the body says; the calls are those of the bodies, in
the order of the visits. -/
theorem checkLoop_spec (store : Store) (defaultInterval : String) (now : Int) :
    ∀ (order : List String) (pending : Pending),
      (∀ v l, pending v = some l → l ≠ []) →
      (checkLoop store defaultInterval now order pending).panicked = false ∧
      (∀ v, v ∉ order →
        (checkLoop store defaultInterval now order pending).pending v = pending v) ∧
      (order.Nodup → ∀ v l deleted effects, v ∈ order → pending v = some l →
        checkBatch store defaultInterval now v l = some (deleted, effects) →
        (checkLoop store defaultInterval now order pending).pending v
          = if deleted then none else some l) ∧
      (order.Nodup →
        (checkLoop store defaultInterval now order pending).effects
          = order.flatMap (fun v =>
            match pending v with
            | none => []
            | some l => ((checkBatch store defaultInterval now v l).getD (false, [])).2)) := by
  intro order
  induction order with
  | nil =>
    intro pending _
    refine ⟨rfl, fun _ _ => rfl, ?_, fun _ => rfl⟩
    intro _ v l deleted effects hv
    exact absurd hv (List.not_mem_nil v)
  | cons userId rest ih =>
    intro pending hne
    cases hp : pending userId with
    | none =>
      have hloop : checkLoop store defaultInterval now (userId :: rest) pending
          = checkLoop store defaultInterval now rest pending := by
        rw [checkLoop]; simp only [hp]
      obtain ⟨h1, h2, h3, h4⟩ := ih pending hne
      rw [hloop]
      refine ⟨h1, ?_, ?_, ?_⟩
      · intro v hv
        exact h2 v (fun hm => hv (List.mem_cons_of_mem _ hm))
      · intro hnd v l deleted effects hv hpv hb
        rcases List.mem_cons.1 hv with rfl | hv1
        · rw [hp] at hpv; exact absurd hpv (by simp)
        · exact h3 (List.nodup_cons.1 hnd).2 v l deleted effects hv1 hpv hb
      · intro hnd
        rw [h4 (List.nodup_cons.1 hnd).2, List.flatMap_cons, hp]
        rfl
    | some notifications =>
      have hnn := hne userId notifications hp
      obtain ⟨first, tail, rfl⟩ := List.exists_cons_of_ne_nil hnn
      obtain ⟨deleted, effects, hb⟩ :
          ∃ deleted effects, checkBatch store defaultInterval now userId (first :: tail)
            = some (deleted, effects) := by
        unfold checkBatch
        simp only
        cases store.status userId with
        | none => exact ⟨_, _, rfl⟩
        | some lastActivityAt =>
          simp only
          split
          · exact ⟨_, _, rfl⟩
          · split
            · exact ⟨_, _, rfl⟩
            · exact ⟨_, _, rfl⟩
      have hne1 : ∀ v l, (if deleted then pending.delete userId else pending) v = some l →
          l ≠ [] := by
        intro v l hv
        cases deleted with
        | false => exact hne v l hv
        | true =>
          simp only [if_true, Pending.delete] at hv
          by_cases hvu : v = userId
          · rw [if_pos hvu] at hv; exact absurd hv (by simp)
          · rw [if_neg hvu] at hv; exact hne v l hv
      have hother : ∀ v, v ≠ userId →
          (if deleted then pending.delete userId else pending) v = pending v := by
        intro v hv
        cases deleted with
        | false => rfl
        | true => simp [Pending.delete, hv]
      obtain ⟨h1, h2, h3, h4⟩ := ih (if deleted then pending.delete userId else pending) hne1
      have hloop : checkLoop store defaultInterval now (userId :: rest) pending
          = { pending := (checkLoop store defaultInterval now rest
                (if deleted then pending.delete userId else pending)).pending,
              effects := effects ++ (checkLoop store defaultInterval now rest
                (if deleted then pending.delete userId else pending)).effects,
              panicked := (checkLoop store defaultInterval now rest
                (if deleted then pending.delete userId else pending)).panicked } := by
        rw [checkLoop]; simp only [hp, hb]
      rw [hloop]
      refine ⟨h1, ?_, ?_, ?_⟩
      · intro v hv
        have hvu : v ≠ userId := fun e => hv (e ▸ List.mem_cons_self _ _)
        show (checkLoop store defaultInterval now rest _).pending v = _
        rw [h2 v (fun hm => hv (List.mem_cons_of_mem _ hm)), hother v hvu]
      · intro hnd v l deleted1 effects1 hv hpv hb1
        show (checkLoop store defaultInterval now rest _).pending v = _
        have hnd1 := List.nodup_cons.1 hnd
        rcases List.mem_cons.1 hv with rfl | hv1
        · rw [hp] at hpv
          cases hpv
          rw [hb] at hb1
          cases hb1
          rw [h2 v hnd1.1]
          cases deleted with
          | false => simp only [Bool.false_eq_true, if_false]; exact hp
          | true => simp [Pending.delete]
        · have hvu : v ≠ userId := fun e => hnd1.1 (e ▸ hv1)
          exact h3 hnd1.2 v l deleted1 effects1 hv1 ((hother v hvu).trans hpv) hb1
      · intro hnd
        have hnd1 := List.nodup_cons.1 hnd
        show effects ++ (checkLoop store defaultInterval now rest _).effects = _
        rw [h4 hnd1.2, List.flatMap_cons, hp]
        simp only [hb, Option.getD_some]
        congr 1
        apply List.flatMap_congr
        intro v hv
        have hvu : v ≠ userId := fun e => hnd1.1 (e ▸ hv)
        rw [hother v hvu]

theorem count_flatMap_user (e : EmailEffect) (u : String) (f : String → List EmailEffect)
    (hown : ∀ v, v ≠ u → e ∉ f v) :
    ∀ L : List String, (L.flatMap f).count e = L.count u * (f u).count e := by
  intro L
  induction L with
  | nil => simp
  | cons v L ih =>
    rw [List.flatMap_cons, List.count_append, ih]
    by_cases hv : v = u
    · subst hv
      rw [List.count_cons_self, Nat.add_mul, Nat.one_mul, Nat.add_comm]
    · rw [List.count_eq_zero.2 (hown v hv), List.count_cons_of_ne (fun e => hv e.symm),
        Nat.zero_add]

/-- The product `time.Duration(interval) * time.Second` is exact for an interval of at
most 9223372036 seconds in absolute value. -/
theorem intervalDuration_eq (interval : Int)
    (hlo : -9223372036 ≤ interval) (hhi : interval ≤ 9223372036) :
    intervalDuration interval = interval * 1000000000 := by
  unfold intervalDuration WebHub.wrapInt64 Second
  norm_num
  omega

/-- Against a bound inside the range of `time.Duration`, the saturated difference
compares as the exact difference does. -/
theorem subUnix_gt (now sec t : Int)
    (hlo : -9223372036854775808 ≤ t) (hhi : t < 9223372036854775807) :
    subUnix now sec > t ↔ now - sec * 1000000000 > t := by
  unfold subUnix Second
  norm_num
  split_ifs <;> omega

/-- The body of the loop for a batch whose user was last active before its first post,
when the interval is at most 9223372036 seconds in absolute value. -/
theorem checkBatch_inactive (store : Store) (defaultInterval : String) (now : Int)
    (u : String) (first : batchedNotification) (rest : List batchedNotification)
    (lastActivityAt : Int) (hstatus : store.status u = some lastActivityAt)
    (hlast : lastActivityAt < first.post.CreateAt)
    (hlo : -9223372036 ≤ emailInterval store defaultInterval u)
    (hhi : emailInterval store defaultInterval u ≤ 9223372036) :
    checkBatch store defaultInterval now u (first :: rest)
      = if now - Int.tdiv first.post.CreateAt 1000 * 1000000000
            > emailInterval store defaultInterval u * 1000000000
        then some (true, [.handler u (first :: rest)]) else some (false, []) := by
  have hcond := subUnix_gt now (Int.tdiv first.post.CreateAt 1000)
    (emailInterval store defaultInterval u * 1000000000) (by omega) (by omega)
  unfold checkBatch
  simp only [hstatus]
  rw [if_neg (by omega), intervalDuration_eq _ hlo hhi]
  by_cases hc : now - Int.tdiv first.post.CreateAt 1000 * 1000000000
      > emailInterval store defaultInterval u * 1000000000
  · rw [if_pos (hcond.2 hc), if_pos hc]
  · rw [if_neg (fun h => hc (hcond.1 h)), if_neg hc]

/-- A call of the handler made by the body of the loop is for the user and the batch of
the entry. -/
theorem handler_mem_checkBatch (store : Store) (defaultInterval : String) (now : Int)
    (u v : String) (l lv : List batchedNotification)
    (hmem : EmailEffect.handler u l
      ∈ ((checkBatch store defaultInterval now v lv).getD (false, [])).2) :
    u = v ∧ l = lv := by
  unfold checkBatch at hmem
  cases lv with
  | nil => simp at hmem
  | cons first rest =>
    simp only at hmem
    cases hs : store.status v with
    | none => simp [hs] at hmem
    | some lastActivityAt =>
      simp only [hs] at hmem
      split at hmem
      · simp at hmem
      · split at hmem
        · simpa using hmem
        · simp at hmem

/-- C20 (the code at the failing input). With the preference value `"9223372037"`
(seconds) the product `time.Duration(interval) * time.Second` wraps to a negative
duration: one second after the start of the batch of the test, `id1` being inactive
since, the handler is called and the batch deleted, although one second is not more
than the interval of 9223372037 seconds. -/
theorem sent_before_interval_on_overflow :
    (testStore "9223372037").status "id1" = some 10001000 ∧
    testJob.pendingNotifications "id1" = some testBatch ∧
    (10001000 : Int) < 10060000 ∧
    emailInterval (testStore "9223372037") "30" "id1" = 9223372037 ∧
    ¬ (10061 * 1000000000 - Int.tdiv 10060000 1000 * 1000000000
        > emailInterval (testStore "9223372037") "30" "id1" * 1000000000) ∧
    intervalDuration 9223372037 = -9223372036709551616 ∧
    (testJob.checkPendingNotifications (testStore "9223372037") "30" ["id1"]
      (10061 * 1000000000)).2 = ([.handler "id1" testBatch], false) ∧
    (testJob.checkPendingNotifications (testStore "9223372037") "30" ["id1"]
      (10061 * 1000000000)).1.pendingNotifications "id1" = none := by
  refine ⟨by decide, by decide, by decide, by decide, by decide, by decide, by decide,
    by decide⟩

/-- Sending within the range in which the product with `time.Second` is exact: let no
pending batch be empty, let the range yield every key once, and let `u` have the pending batch `first :: rest`, a status that
is found with `LastActivityAt` before the `CreateAt` of `first`, and an interval (the
preference value when it is found and parses as a 64-bit decimal integer, the parsed
default otherwise) of at most 9223372036 seconds in absolute value.  Then
`checkPendingNotifications` does not panic and leaves the queue alone; when `now` minus
the `CreateAt` of `first` divided by 1000, truncated, as Unix seconds, is strictly more
than the interval, the handler is called exactly once for `u`, with the whole batch in
its stored order, and the batch is deleted; otherwise the batch stays in the map as it
was and the handler is not called for `u`. -/
theorem checkPendingNotifications_sends (store : Store) (defaultInterval : String)
    (order : List String) (job : EmailBatchingJob) (now : Int) (u : String)
    (first : batchedNotification) (rest : List batchedNotification) (lastActivityAt : Int)
    (horder : order.Nodup)
    (hkeys : ∀ v, v ∈ order ↔ (job.pendingNotifications v).isSome = true)
    (hnonempty : ∀ v l, job.pendingNotifications v = some l → l ≠ [])
    (hbatch : job.pendingNotifications u = some (first :: rest))
    (hstatus : store.status u = some lastActivityAt)
    (hlast : lastActivityAt < first.post.CreateAt)
    (hlo : -9223372036 ≤ emailInterval store defaultInterval u)
    (hhi : emailInterval store defaultInterval u ≤ 9223372036) :
    (job.checkPendingNotifications store defaultInterval order now).2.2 = false ∧
    (job.checkPendingNotifications store defaultInterval order now).1.newNotifications
      = job.newNotifications ∧
    (now - Int.tdiv first.post.CreateAt 1000 * 1000000000
        > emailInterval store defaultInterval u * 1000000000 →
      (job.checkPendingNotifications store defaultInterval order now).2.1.count
        (.handler u (first :: rest)) = 1 ∧
      (∀ l, EmailEffect.handler u l
          ∈ (job.checkPendingNotifications store defaultInterval order now).2.1 →
        l = first :: rest) ∧
      (job.checkPendingNotifications store defaultInterval order now).1.pendingNotifications u
        = none) ∧
    (¬ (now - Int.tdiv first.post.CreateAt 1000 * 1000000000
        > emailInterval store defaultInterval u * 1000000000) →
      (job.checkPendingNotifications store defaultInterval order now).1.pendingNotifications u
        = some (first :: rest) ∧
      (∀ l, EmailEffect.handler u l
          ∉ (job.checkPendingNotifications store defaultInterval order now).2.1)) := by
  obtain ⟨h1, _, h3, h4⟩ :=
    checkLoop_spec store defaultInterval now order job.pendingNotifications hnonempty
  have hu : u ∈ order := (hkeys u).2 (by rw [hbatch]; rfl)
  have hb := checkBatch_inactive store defaultInterval now u first rest lastActivityAt
    hstatus hlast hlo hhi
  have heff := h4 horder
  have hown : ∀ l v, v ≠ u → EmailEffect.handler u l ∉
      (fun v => match job.pendingNotifications v with
        | none => []
        | some l => ((checkBatch store defaultInterval now v l).getD (false, [])).2) v := by
    intro l v hv hmem
    simp only at hmem
    cases hpv : job.pendingNotifications v with
    | none => rw [hpv] at hmem; exact absurd hmem (List.not_mem_nil _)
    | some lv =>
      rw [hpv] at hmem
      exact hv (handler_mem_checkBatch store defaultInterval now u v l lv hmem).1.symm
  have hmemu : ∀ l, EmailEffect.handler u l
      ∈ (checkLoop store defaultInterval now order job.pendingNotifications).effects →
      EmailEffect.handler u l
        ∈ ((checkBatch store defaultInterval now u (first :: rest)).getD (false, [])).2 := by
    intro l hmem
    rw [heff, List.mem_flatMap] at hmem
    obtain ⟨v, _, hv⟩ := hmem
    by_cases hvu : v = u
    · subst hvu
      simp only [hbatch] at hv
      exact hv
    · exact absurd hv (hown l v hvu)
  refine ⟨h1, rfl, ?_, ?_⟩
  · intro hc
    rw [if_pos hc] at hb
    refine ⟨?_, ?_, ?_⟩
    · show (checkLoop store defaultInterval now order job.pendingNotifications).effects.count _
        = 1
      rw [heff, count_flatMap_user _ u _ (hown (first :: rest)) order,
        List.count_eq_one_of_mem horder hu]
      simp only [hbatch, hb, Option.getD_some]
      simp
    · intro l hmem
      exact (handler_mem_checkBatch store defaultInterval now u u l (first :: rest)
        (hmemu l hmem)).2
    · show (checkLoop store defaultInterval now order job.pendingNotifications).pending u = _
      rw [h3 horder u (first :: rest) true _ hu hbatch hb]
      rfl
  · intro hc
    rw [if_neg hc] at hb
    refine ⟨?_, ?_⟩
    · show (checkLoop store defaultInterval now order job.pendingNotifications).pending u = _
      rw [h3 horder u (first :: rest) false _ hu hbatch hb]
      rfl
    · intro l hmem
      have := hmemu l hmem
      rw [hb] at this
      exact absurd this (by simp)

/-- The last part of the test of `checkPendingNotifications`: with the
interval `"60"`, 70 seconds after the start of the batch, the handler is called once
with `post1` and `post2` in this order and the batch is deleted. -/
theorem checkPendingNotifications_sends_witness :
    (testJob.checkPendingNotifications (testStore "60") "30" ["id1"]
      (10130 * 1000000000)).2.1.count (.handler "id1" testBatch) = 1 ∧
    (testJob.checkPendingNotifications (testStore "60") "30" ["id1"]
      (10130 * 1000000000)).1.pendingNotifications "id1" = none :=
  have hw := checkPendingNotifications_sends (testStore "60") "30" ["id1"] testJob
    (10130 * 1000000000) "id1"
    { userId := "", post := { UserId := "id1", Message := "post1", CreateAt := 10060000 },
      teamName := "" }
    [{ userId := "", post := { UserId := "id1", Message := "post2", CreateAt := 10090000 },
       teamName := "" }]
    10001000 (by decide)
    (by intro v; by_cases hv : v = "id1" <;> simp [testJob, hv])
    (by
      intro v l hv
      by_cases hvu : v = "id1"
      · simp [testJob, hvu, testBatch] at hv
        rw [← hv]; simp
      · simp [testJob, hvu] at hv)
    rfl rfl (by decide) (by decide) (by decide)
  ⟨(hw.2.2.1 (by decide)).1, (hw.2.2.1 (by decide)).2.2⟩

/-- C19 (check on the test). The steps of the test of `handleNewNotifications`: two
notifications for `id1` and one for `id2` arrive after one for `id1` is pending. -/
theorem handleNewNotifications_groups_test :
    (({ newNotifications :=
          [{ userId := "id1", post := { UserId := "id1", Message := "b", CreateAt := 2 },
             teamName := "team" },
           { userId := "id2", post := { UserId := "id1", Message := "c", CreateAt := 3 },
             teamName := "team" },
           { userId := "id1", post := { UserId := "id1", Message := "d", CreateAt := 4 },
             teamName := "team" }],
        bufferSize := 128,
        pendingNotifications := fun u =>
          if u = "id1" then
            some [{ userId := "id1", post := { UserId := "id1", Message := "a", CreateAt := 1 },
                    teamName := "team" }]
          else none } : EmailBatchingJob).handleNewNotifications.pendingNotifications "id1").map
      (fun l => l.map (fun n => n.post.Message)) = some ["a", "b", "d"] := by
  decide

/-! ## Clearing the batch of an active user -/

/-- The body of the loop for a batch whose user has been active since its first post. -/
theorem checkBatch_active (store : Store) (defaultInterval : String) (now : Int)
    (u : String) (first : batchedNotification) (rest : List batchedNotification)
    (lastActivityAt : Int) (hstatus : store.status u = some lastActivityAt)
    (hlast : lastActivityAt ≥ first.post.CreateAt) :
    checkBatch store defaultInterval now u (first :: rest) = some (true, []) := by
  unfold checkBatch
  simp only [hstatus]
  rw [if_pos hlast]

/-- C21. Email batching, clearing: let no pending batch be empty and let the range yield
every key once.  For a user `u` with the pending batch `first :: rest` whose status is
found with `LastActivityAt` at or after the `CreateAt` of `first`,
`checkPendingNotifications` does not panic, removes the batch of `u` from the map and
does not call the handler for `u`, whatever `now`, the preference of `u` and the
default interval are. -/
theorem checkPendingNotifications_clears (store : Store) (defaultInterval : String)
    (order : List String) (job : EmailBatchingJob) (now : Int) (u : String)
    (first : batchedNotification) (rest : List batchedNotification) (lastActivityAt : Int)
    (horder : order.Nodup)
    (hkeys : ∀ v, v ∈ order ↔ (job.pendingNotifications v).isSome = true)
    (hnonempty : ∀ v l, job.pendingNotifications v = some l → l ≠ [])
    (hbatch : job.pendingNotifications u = some (first :: rest))
    (hstatus : store.status u = some lastActivityAt)
    (hlast : lastActivityAt ≥ first.post.CreateAt) :
    (job.checkPendingNotifications store defaultInterval order now).2.2 = false ∧
    (job.checkPendingNotifications store defaultInterval order now).1.pendingNotifications u
      = none ∧
    (∀ l, EmailEffect.handler u l
      ∉ (job.checkPendingNotifications store defaultInterval order now).2.1) ∧
    (job.checkPendingNotifications store defaultInterval order now).1.newNotifications
      = job.newNotifications := by
  obtain ⟨h1, _, h3, h4⟩ :=
    checkLoop_spec store defaultInterval now order job.pendingNotifications hnonempty
  have hu : u ∈ order := (hkeys u).2 (by rw [hbatch]; rfl)
  have hb := checkBatch_active store defaultInterval now u first rest lastActivityAt
    hstatus hlast
  refine ⟨h1, ?_, ?_, rfl⟩
  · show (checkLoop store defaultInterval now order job.pendingNotifications).pending u = _
    rw [h3 horder u (first :: rest) true [] hu hbatch hb]
    rfl
  · intro l hmem
    have hmem1 : EmailEffect.handler u l
        ∈ (checkLoop store defaultInterval now order job.pendingNotifications).effects := hmem
    rw [h4 horder, List.mem_flatMap] at hmem1
    obtain ⟨v, _, hv⟩ := hmem1
    cases hpv : job.pendingNotifications v with
    | none => rw [hpv] at hv; exact absurd hv (List.not_mem_nil _)
    | some lv =>
      rw [hpv] at hv
      have huv := (handler_mem_checkBatch store defaultInterval now u v l lv hv).1
      subst huv
      rw [hbatch] at hpv
      cases hpv
      simp only [hb] at hv
      exact absurd hv (by simp)

/-- C21 (witness). The second part of the test of `checkPendingNotifications`: `id1` was
last active at 10001000, after the post of 10000000; at the time 10002 the batch is
removed and the handler is not called, with the interval `"60"`. -/
theorem checkPendingNotifications_clears_witness :
    (testActiveJob.checkPendingNotifications (testStore "60") "30" ["id1"]
      (10002 * 1000000000)).2.2 = false ∧
    (testActiveJob.checkPendingNotifications (testStore "60") "30" ["id1"]
      (10002 * 1000000000)).1.pendingNotifications "id1" = none ∧
    (testActiveJob.checkPendingNotifications (testStore "60") "30" ["id1"]
      (10002 * 1000000000)).2.1 = [] :=
  have hw := checkPendingNotifications_clears (testStore "60") "30" ["id1"] testActiveJob
    (10002 * 1000000000) "id1"
    { userId := "", post := { UserId := "id1", Message := "", CreateAt := 10000000 },
      teamName := "" }
    [] 10001000 (by decide)
    (by intro v; by_cases hv : v = "id1" <;> simp [testActiveJob, hv])
    (by
      intro v l hv
      by_cases hvu : v = "id1"
      · simp [testActiveJob, hvu] at hv
        rw [← hv]; simp
      · simp [testActiveJob, hvu] at hv)
    rfl rfl (by decide)
  ⟨hw.1, hw.2.1, by decide⟩

/-! ## Queueing a notification -/

/-- The calls of `Add` and `handleNewNotifications` keep the capacity and never fill the
channel beyond it. -/
theorem after_queue_le :
    ∀ (calls : List JobCall) (job : EmailBatchingJob),
      job.newNotifications.length ≤ job.bufferSize →
      (EmailBatchingJob.after calls job).bufferSize = job.bufferSize ∧
      (EmailBatchingJob.after calls job).newNotifications.length ≤ job.bufferSize := by
  intro calls
  induction calls with
  | nil => intro job hle; exact ⟨rfl, hle⟩
  | cons call calls ih =>
    intro job hle
    cases call with
    | add user post team =>
      rw [EmailBatchingJob.after]
      by_cases hroom : job.newNotifications.length < job.bufferSize
      · have hadd : job.Add user post team
            = ({ job with newNotifications := job.newNotifications ++
                [{ userId := user.Id, post := post, teamName := team.Name }] }, true) := by
          unfold EmailBatchingJob.Add
          rw [if_pos hroom]
        rw [hadd]
        exact ih _ (by simp only [List.length_append, List.length_singleton]; omega)
      · have hadd : job.Add user post team = (job, false) := by
          unfold EmailBatchingJob.Add
          rw [if_neg hroom]
        rw [hadd]
        exact ih job hle
    | handleNewNotifications =>
      rw [EmailBatchingJob.after]
      have hq : job.handleNewNotifications.newNotifications = [] := receiveAll_fst _ _
      have := ih job.handleNewNotifications (by rw [hq]; exact Nat.zero_le _)
      exact this

/-- C22. Email batching, Add: `MakeEmailBatchingJob(bufferSize)` with `bufferSize ≥ 0`
gives a job with an empty queue of that capacity and an empty map, and on every job
reached from it by calls of `Add` and `handleNewNotifications` the queue holds at most
`bufferSize` notifications.  On every job `Add` returns at once, leaves
`pendingNotifications` and the capacity as they were, returns `true` exactly when the
queue holds fewer than `bufferSize` notifications, and the queue is then the old queue
followed by the one notification `(user.Id, post, team.Name)`; otherwise it returns
`false` and the job is unchanged. -/
theorem add_queues_or_refuses (bufferSize : Nat) (job : EmailBatchingJob) (user : User)
    (post : Post) (team : Team) :
    MakeEmailBatchingJob (bufferSize : Int)
      = some { newNotifications := [], bufferSize := bufferSize,
               pendingNotifications := fun _ => none } ∧
    (∀ calls : List JobCall,
      (EmailBatchingJob.after calls
        { newNotifications := [], bufferSize := bufferSize,
          pendingNotifications := fun _ => none }).newNotifications.length ≤ bufferSize) ∧
    (job.Add user post team).1.pendingNotifications = job.pendingNotifications ∧
    (job.Add user post team).1.bufferSize = job.bufferSize ∧
    ((job.Add user post team).2 = true ↔ job.newNotifications.length < job.bufferSize) ∧
    (job.Add user post team).1.newNotifications
      = (if job.newNotifications.length < job.bufferSize then
          job.newNotifications ++ [{ userId := user.Id, post := post, teamName := team.Name }]
         else job.newNotifications) ∧
    ((job.Add user post team).2 = false ↔ (job.Add user post team).1 = job) := by
  have hlen : ∀ (l : List batchedNotification) (n : batchedNotification), l ++ [n] ≠ l := by
    intro l n heq
    have := congrArg List.length heq
    simp at this
  refine ⟨?_, ?_, ?_, ?_, ?_, ?_, ?_⟩
  · unfold MakeEmailBatchingJob
    rw [if_neg (by omega)]
    rfl
  · intro calls
    exact (after_queue_le calls
      { newNotifications := [], bufferSize := bufferSize,
        pendingNotifications := fun _ => none } (Nat.zero_le _)).2
  · unfold EmailBatchingJob.Add; split <;> rfl
  · unfold EmailBatchingJob.Add; split <;> rfl
  · unfold EmailBatchingJob.Add
    by_cases hroom : job.newNotifications.length < job.bufferSize
    · rw [if_pos hroom]; simp [hroom]
    · rw [if_neg hroom]; simp [hroom]
  · unfold EmailBatchingJob.Add
    by_cases hroom : job.newNotifications.length < job.bufferSize
    · rw [if_pos hroom, if_pos hroom]
    · rw [if_neg hroom, if_neg hroom]
  · unfold EmailBatchingJob.Add
    by_cases hroom : job.newNotifications.length < job.bufferSize
    · rw [if_pos hroom]
      constructor
      · intro hf; exact absurd hf (by simp)
      · intro heq
        have := congrArg EmailBatchingJob.newNotifications heq
        exact absurd this (hlen _ _)
    · rw [if_neg hroom]
      exact ⟨fun _ => rfl, fun _ => rfl⟩

/-- C22 (check on the test). On a job of capacity 1 the first `Add` is queued and the
second refused; neither touches the map; a negative capacity panics. -/
theorem add_queues_or_refuses_test :
    (MakeEmailBatchingJob (-1)).isNone = true ∧
    (({ newNotifications := [], bufferSize := 1, pendingNotifications := fun _ => none }
        : EmailBatchingJob).Add ⟨"id1"⟩ ⟨"id1", "test", 0⟩ ⟨"team"⟩).2 = true ∧
    ((({ newNotifications := [], bufferSize := 1, pendingNotifications := fun _ => none }
        : EmailBatchingJob).Add ⟨"id1"⟩ ⟨"id1", "test", 0⟩ ⟨"team"⟩).1.Add
          ⟨"id2"⟩ ⟨"id2", "test", 0⟩ ⟨"team"⟩).2 = false ∧
    ((({ newNotifications := [], bufferSize := 1, pendingNotifications := fun _ => none }
        : EmailBatchingJob).Add ⟨"id1"⟩ ⟨"id1", "test", 0⟩ ⟨"team"⟩).1.Add
          ⟨"id2"⟩ ⟨"id2", "test", 0⟩ ⟨"team"⟩).1.newNotifications
      = [{ userId := "id1", post := ⟨"id1", "test", 0⟩, teamName := "team" }] := by
  refine ⟨by decide, by decide, by decide, by decide⟩

end EmailBatching

namespace Posts

/-! ## The guard of `DeletePostFiles` -/

/-- C29. `DeletePostFiles` guard: for every post, the store is asked to delete the file
infos of the post, `DeleteForPost(post.Id)`, once when `post.FileIds` is empty and not
at all when the post has a file id; with a file id the function returns having made no
call, and without one the only other call is the warning logged when the store call
fails. -/
theorem deletePostFiles_guard (deleteForPostFails : String → Bool) (post : Post) :
    (PostEffect.deleteForPost post.Id ∈ DeletePostFiles deleteForPostFails post
      ↔ post.FileIds = []) ∧
    ((DeletePostFiles deleteForPostFails post).count (.deleteForPost post.Id)
      = if post.FileIds = [] then 1 else 0) ∧
    (DeletePostFiles deleteForPostFails post = [] ↔ post.FileIds ≠ []) ∧
    (∀ (fileId : String) (fileIds : List String),
      DeletePostFiles deleteForPostFails { post with FileIds := fileId :: fileIds } = []) ∧
    (DeletePostFiles deleteForPostFails { post with FileIds := [] }
      = .deleteForPost post.Id ::
        (if deleteForPostFails post.Id then
          [.logWarn "api.post.delete_post_files.app_error.warn" post.Id]
        else [])) := by
  have hlen : post.FileIds.length ≠ 0 ↔ post.FileIds ≠ [] := by
    rw [Ne, List.length_eq_zero]
  refine ⟨?_, ?_, ?_, ?_, ?_⟩
  · unfold DeletePostFiles
    by_cases hf : post.FileIds = []
    · rw [if_neg (fun h => hlen.1 h hf)]
      exact ⟨fun _ => hf, fun _ => List.mem_cons_self _ _⟩
    · rw [if_pos (hlen.2 hf)]
      exact ⟨fun h => absurd h (List.not_mem_nil _), fun h => absurd h hf⟩
  · unfold DeletePostFiles
    by_cases hf : post.FileIds = []
    · rw [if_neg (fun h => hlen.1 h hf), if_pos hf]
      cases deleteForPostFails post.Id <;> simp
    · rw [if_pos (hlen.2 hf), if_neg hf]
      rfl
  · unfold DeletePostFiles
    by_cases hf : post.FileIds = []
    · rw [if_neg (fun h => hlen.1 h hf)]
      exact ⟨fun h => absurd h (List.cons_ne_nil _ _), fun h => absurd hf h⟩
    · rw [if_pos (hlen.2 hf)]
      exact ⟨fun _ => hf, fun _ => rfl⟩
  · intro fileId fileIds
    rfl
  · rfl

/-! ## The props of a webhook post -/

/-- The body of the loop writes no key but `attachments` and the key of the entry, and
this one only when it is not reserved. -/
theorem copyProp_other (env : WebhookEnv) (post : Post) (key : String) (val : PropValue)
    (k : String) (hk : k ≠ "attachments")
    (hkey : k = key →
      k = "override_icon_url" ∨ k = "override_username" ∨ k = "from_webhook") :
    (copyProp env post key val).Props k = post.Props k := by
  unfold copyProp
  by_cases ha : key = "attachments"
  · rw [if_pos ha]
    cases val with
    | str s => rfl
    | other t => rfl
    | attachments list =>
      show (if k = "attachments" then _ else post.Props k) = _
      rw [if_neg hk]
  · rw [if_neg ha]
    by_cases hc : key ≠ "override_icon_url" ∧ key ≠ "override_username" ∧ key ≠ "from_webhook"
    · rw [if_pos hc]
      show (if k = key then _ else post.Props k) = _
      rw [if_neg]
      intro hkk
      rcases hkey hkk with h1 | h1 | h1
      · exact hc.1 (hkk ▸ h1)
      · exact hc.2.1 (hkk ▸ h1)
      · exact hc.2.2 (hkk ▸ h1)
    · rw [if_neg hc]

/-- The loop over the props leaves alone every key other than `attachments` for which
the map has no entry that is copied. -/
theorem copyProps_keeps (env : WebhookEnv) (k : String) (hk : k ≠ "attachments") :
    ∀ (props : List (String × PropValue)) (post : Post),
      (∀ v, (k, v) ∈ props →
        k = "override_icon_url" ∨ k = "override_username" ∨ k = "from_webhook") →
      (copyProps env props post).Props k = post.Props k := by
  intro props
  induction props with
  | nil => intro post _; rfl
  | cons entry rest ih =>
    intro post hres
    obtain ⟨key, val⟩ := entry
    rw [copyProps, ih _ (fun v hv => hres v (List.mem_cons_of_mem _ hv))]
    apply copyProp_other env post key val k hk
    intro hkk
    subst hkk
    exact hres val (List.mem_cons_self _ _)

/-- The loop over the props of a map (its keys are distinct) copies the value of every
key that is neither `attachments` nor one of the three reserved keys. -/
theorem copyProps_copies (env : WebhookEnv) (k : String) (hk : k ≠ "attachments")
    (hr : k ≠ "override_icon_url" ∧ k ≠ "override_username" ∧ k ≠ "from_webhook") :
    ∀ (props : List (String × PropValue)) (post : Post),
      (props.map Prod.fst).Nodup →
      (copyProps env props post).Props k
        = match props.lookup k with
          | some v => some v
          | none => post.Props k := by
  intro props
  induction props with
  | nil => intro post _; rfl
  | cons entry rest ih =>
    intro post hnd
    obtain ⟨key, val⟩ := entry
    rw [List.map_cons, List.nodup_cons] at hnd
    by_cases hkk : k = key
    · subst hkk
      have hlook : List.lookup k ((k, val) :: rest) = some val := by
        simp [List.lookup]
      rw [hlook, copyProps]
      rw [copyProps_keeps env k hk rest _ ?_]
      · unfold copyProp
        rw [if_neg hk, if_pos hr]
        show (if k = k then some val else post.Props k) = _
        rw [if_pos rfl]
      · intro v hv
        exact absurd (List.mem_map_of_mem Prod.fst hv) hnd.1
    · have hlook : List.lookup k ((key, val) :: rest) = List.lookup k rest := by
        have : (k == key) = false := by simpa using hkk
        simp [List.lookup, this]
      rw [hlook, copyProps, ih _ hnd.2,
        copyProp_other env post key val k hk (fun h => absurd h hkk)]

/-- C30. Webhook post props cannot spoof reserved keys: for every props map (its keys
are distinct), whatever it holds, the post that `CreateWebhookPost` hands to
`CreatePost` has `from_webhook = "true"`; its `override_username` is the argument
`overrideUsername`, or the default name when the argument is empty, when
`EnablePostUsernameOverride` is set and is absent otherwise; its `override_icon_url` is
the argument `overrideIconUrl` when `EnablePostIconOverride` is set and the argument is
not empty and is absent otherwise; and every key other than these three and
`attachments` has in the post exactly the value it has in the props map, or none. -/
theorem webhook_props_not_spoofed (env : WebhookEnv)
    (userId teamId channelId text overrideUsername overrideIconUrl : String)
    (props : List (String × PropValue)) (postType : String)
    (hmap : (props.map Prod.fst).Nodup) :
    (CreateWebhookPost env userId teamId channelId text overrideUsername overrideIconUrl
      props postType).handed.Props "from_webhook" = some (.str "true") ∧
    (CreateWebhookPost env userId teamId channelId text overrideUsername overrideIconUrl
      props postType).handed.Props "override_username"
      = (if env.EnablePostUsernameOverride then
          some (.str (if overrideUsername ≠ "" then overrideUsername
            else env.DEFAULT_WEBHOOK_USERNAME))
         else none) ∧
    (CreateWebhookPost env userId teamId channelId text overrideUsername overrideIconUrl
      props postType).handed.Props "override_icon_url"
      = (if env.EnablePostIconOverride = true ∧ overrideIconUrl ≠ "" then
          some (.str overrideIconUrl)
         else none) ∧
    (∀ key : String, key ≠ "from_webhook" → key ≠ "override_username" →
      key ≠ "override_icon_url" → key ≠ "attachments" →
      (CreateWebhookPost env userId teamId channelId text overrideUsername overrideIconUrl
        props postType).handed.Props key = props.lookup key) ∧
    (∀ post, (CreateWebhookPost env userId teamId channelId text overrideUsername
        overrideIconUrl props postType).result = .ok post →
      post.Props = (CreateWebhookPost env userId teamId channelId text overrideUsername
        overrideIconUrl props postType).handed.Props) := by
  have hA : ∀ k, k ≠ "attachments" →
      (k = "override_icon_url" ∨ k = "override_username" ∨ k = "from_webhook") →
      ∀ post, (copyProps env props post).Props k = post.Props k := by
    intro k hk hres post
    exact copyProps_keeps env k hk props post (fun _ _ => hres)
  refine ⟨?_, ?_, ?_, ?_, ?_⟩
  · show (webhookPost env userId channelId text overrideUsername overrideIconUrl props
      postType).Props "from_webhook" = _
    unfold webhookPost
    simp only
    rw [hA "from_webhook" (by decide) (Or.inr (Or.inr rfl))]
    cases env.EnablePostUsernameOverride <;> cases env.EnablePostIconOverride <;>
      by_cases h1 : overrideUsername = "" <;> by_cases h2 : overrideIconUrl = "" <;>
      simp [Post.AddProp, h1, h2]
  · show (webhookPost env userId channelId text overrideUsername overrideIconUrl props
      postType).Props "override_username" = _
    unfold webhookPost
    simp only
    rw [hA "override_username" (by decide) (Or.inr (Or.inl rfl))]
    cases env.EnablePostUsernameOverride <;> cases env.EnablePostIconOverride <;>
      by_cases h1 : overrideUsername = "" <;> by_cases h2 : overrideIconUrl = "" <;>
      simp [Post.AddProp, h1, h2]
  · show (webhookPost env userId channelId text overrideUsername overrideIconUrl props
      postType).Props "override_icon_url" = _
    unfold webhookPost
    simp only
    rw [hA "override_icon_url" (by decide) (Or.inl rfl)]
    cases env.EnablePostUsernameOverride <;> cases env.EnablePostIconOverride <;>
      by_cases h1 : overrideUsername = "" <;> by_cases h2 : overrideIconUrl = "" <;>
      simp [Post.AddProp, h1, h2]
  · intro key h1 h2 h3 h4
    show (webhookPost env userId channelId text overrideUsername overrideIconUrl props
      postType).Props key = _
    unfold webhookPost
    simp only
    rw [copyProps_copies env key h4 ⟨h3, h2, h1⟩ props _ hmap]
    cases hl : List.lookup key props with
    | some v => rfl
    | none =>
      simp only
      cases env.EnablePostUsernameOverride <;> cases env.EnablePostIconOverride <;>
        by_cases h5 : overrideUsername = "" <;> by_cases h6 : overrideIconUrl = "" <;>
        simp [Post.AddProp, h1, h2, h3, h5, h6]
  · intro post hok
    unfold CreateWebhookPost at hok ⊢
    simp only at hok ⊢
    cases hc : env.createPostError
        (webhookPost env userId channelId text overrideUsername overrideIconUrl props postType)
        teamId with
    | some message => rw [hc] at hok; cases hok
    | none =>
      rw [hc] at hok
      cases hok
      rfl

/-- C30 (witness). A props map with values under the three reserved keys and a key of
its own: the post has `from_webhook = "true"`, the user name and the icon of the
arguments, and the value of the own key. -/
theorem webhook_props_not_spoofed_witness :
    (spoofingProps.map Prod.fst).Nodup ∧
    (CreateWebhookPost testEnv "u" "t" "c" "text" "bot" "" spoofingProps "").handed.Props
      "from_webhook" = some (.str "true") ∧
    (CreateWebhookPost testEnv "u" "t" "c" "text" "bot" "" spoofingProps "").handed.Props
      "override_username" = some (.str "bot") ∧
    (CreateWebhookPost testEnv "u" "t" "c" "text" "bot" "" spoofingProps "").handed.Props
      "override_icon_url" = none ∧
    (CreateWebhookPost testEnv "u" "t" "c" "text" "bot" "" spoofingProps "").handed.Props
      "card" = some (.str "hello") :=
  have hw := webhook_props_not_spoofed testEnv "u" "t" "c" "text" "bot" "" spoofingProps ""
    (by decide)
  ⟨by decide, hw.1, hw.2.1.trans (by decide), hw.2.2.1.trans (by decide),
    (hw.2.2.2.1 "card" (by decide) (by decide) (by decide) (by decide)).trans (by decide)⟩

end Posts

namespace Files

/-! ## The paths of an uploaded file -/

/-- The base name holds no separator, unless it is the root. -/
theorem base_without_separator (path : String) :
    Base path = "/" ∨ '/' ∉ (Base path).data := by
  unfold Base
  by_cases hp : path = ""
  · rw [if_pos hp]
    right
    decide
  · rw [if_neg hp]
    by_cases he : ((path.data.reverse.dropWhile (fun c => c == '/')).takeWhile
        (fun c => c != '/')).reverse = []
    · rw [if_pos he]
      left
      rfl
    · rw [if_neg he]
      right
      intro hmem
      have hmem1 : '/' ∈ (path.data.reverse.dropWhile (fun c => c == '/')).takeWhile
          (fun c => c != '/') := List.mem_reverse.1 hmem
      have := List.mem_takeWhile_imp hmem1
      simp at this

/-- The part cut off at the last `.`, the `.` and an extension without `.` make up the
file name. -/
theorem cutAtLastDot_spec (filename stem : List Char)
    (hcut : cutAtLastDot filename = some stem) :
    ∃ ext, filename = stem ++ '.' :: ext ∧ '.' ∉ ext := by
  unfold cutAtLastDot at hcut
  have hsplit := List.takeWhile_append_dropWhile (fun c => c != '.') filename.reverse
  cases hd : filename.reverse.dropWhile (fun c => c != '.') with
  | nil => rw [hd] at hcut; cases hcut
  | cons x before =>
    rw [hd] at hcut
    simp only [Option.some.injEq] at hcut
    have hx : (x != '.') = false := by
      have := List.head?_dropWhile_not (fun c => c != '.') filename.reverse
      rw [hd] at this
      simpa using this
    have hx1 : x = '.' := by simpa using hx
    refine ⟨(filename.reverse.takeWhile (fun c => c != '.')).reverse, ?_, ?_⟩
    · rw [hd, hx1] at hsplit
      have := congrArg List.reverse hsplit
      rw [List.reverse_reverse, List.reverse_append, List.reverse_cons, hcut,
        List.append_assoc] at this
      exact this.symm
    · intro hmem
      have := List.mem_takeWhile_imp (List.mem_reverse.1 hmem)
      simp at this

theorem writeAndSave_ok (env : UploadEnv) (data : List Nat) (info stored : FileInfo)
    (hok : writeAndSave env data info = .ok stored) : stored = info := by
  unfold writeAndSave at hok
  split at hok
  · cases hok
  · split at hok
    · cases hok
    · cases hok; rfl

/-- C23. Upload paths: when `DoUploadFile` succeeds, on an info that `GetInfoForBytes`
returns without preview and thumbnail paths, the info stored has the new id, the user
as creator and the path `teams/<teamId>/channels/<channelId>/users/<userId>/<id>/`
followed by the base name of the raw file name, which holds no separator (unless it is
the root).  When the file is an image, the base name is a stem, a `.` and an extension
without `.`, and the preview and thumbnail paths are the same prefix followed by the
stem and `_preview.jpg` or `_thumb.jpg`; when it is not, both are empty. -/
theorem upload_paths (env : UploadEnv) (teamId channelId userId rawFilename : String)
    (data : List Nat) (info : FileInfo)
    (hfresh : ∀ name info0, env.GetInfoForBytes name data = some info0 →
      info0.PreviewPath = "" ∧ info0.ThumbnailPath = "")
    (hok : DoUploadFile env teamId channelId userId rawFilename data = .ok info) :
    info.Id = env.NewId ∧
    info.CreatorId = userId ∧
    info.Path = "teams/" ++ teamId ++ "/channels/" ++ channelId ++ "/users/" ++ userId ++ "/" ++
      info.Id ++ "/" ++ Base rawFilename ∧
    (Base rawFilename = "/" ∨ '/' ∉ (Base rawFilename).data) ∧
    (env.IsImage { info with PreviewPath := "", ThumbnailPath := "" } = true →
      ∃ stem ext, (Base rawFilename).data = stem ++ '.' :: ext ∧ '.' ∉ ext ∧
        info.PreviewPath = "teams/" ++ teamId ++ "/channels/" ++ channelId ++ "/users/" ++
          userId ++ "/" ++ info.Id ++ "/" ++ String.mk stem ++ "_preview.jpg" ∧
        info.ThumbnailPath = "teams/" ++ teamId ++ "/channels/" ++ channelId ++ "/users/" ++
          userId ++ "/" ++ info.Id ++ "/" ++ String.mk stem ++ "_thumb.jpg") ∧
    (env.IsImage { info with PreviewPath := "", ThumbnailPath := "" } = false →
      info.PreviewPath = "" ∧ info.ThumbnailPath = "") := by
  unfold DoUploadFile at hok
  cases hget : env.GetInfoForBytes (Base rawFilename) data with
  | none => rw [hget] at hok; cases hok
  | some info0 =>
    rw [hget] at hok
    simp only at hok
    obtain ⟨hprev, hthumb⟩ := hfresh _ _ hget
    have hclean : ({ withPath env teamId channelId userId (Base rawFilename) info0 with
        PreviewPath := "", ThumbnailPath := "" } : FileInfo)
        = withPath env teamId channelId userId (Base rawFilename) info0 := by
      unfold withPath
      simp only [hprev, hthumb]
    by_cases himg : env.IsImage (withPath env teamId channelId userId (Base rawFilename) info0)
        = true
    · rw [if_pos himg] at hok
      by_cases hbig : WebHub.wrapInt64 (info0.Width * info0.Height) > MaxImageSize
      · rw [if_pos hbig] at hok; cases hok
      · rw [if_neg hbig] at hok
        cases hcut : cutAtLastDot (Base rawFilename).data with
        | none => rw [hcut] at hok; cases hok
        | some stem =>
          rw [hcut] at hok
          simp only at hok
          have hinfo := writeAndSave_ok env data _ info hok
          obtain ⟨ext, hext, hdot⟩ := cutAtLastDot_spec _ _ hcut
          subst hinfo
          refine ⟨rfl, rfl, rfl, base_without_separator rawFilename, ?_, ?_⟩
          · intro _
            exact ⟨stem, ext, hext, hdot, rfl, rfl⟩
          · intro hnot
            have hsame : ({ withPath env teamId channelId userId (Base rawFilename) info0 with
                PreviewPath := "", ThumbnailPath := "" } : FileInfo)
                = withPath env teamId channelId userId (Base rawFilename) info0 := hclean
            have hnot1 : env.IsImage
                ({ withPath env teamId channelId userId (Base rawFilename) info0 with
                  PreviewPath := "", ThumbnailPath := "" } : FileInfo) = false := hnot
            rw [hsame, himg] at hnot1
            cases hnot1
    · rw [if_neg himg] at hok
      have hinfo := writeAndSave_ok env data _ info hok
      subst hinfo
      refine ⟨rfl, rfl, rfl, base_without_separator rawFilename, ?_, ?_⟩
      · intro hyes
        rw [hclean] at hyes
        exact absurd hyes himg
      · intro _
        exact ⟨hprev, hthumb⟩

/-- C23 (witness). The upload of the test: the raw name `../../test.png` is stored under
`test.png`, with `test_preview.jpg` and `test_thumb.jpg` next to it. -/
theorem upload_paths_witness :
    DoUploadFile testUploadEnv "noteam" "c1" "user1" "../../test.png" [137, 80, 78, 71]
      = .ok testInfo ∧
    testInfo.Path
      = "teams/" ++ "noteam" ++ "/channels/" ++ "c1" ++ "/users/" ++ "user1" ++ "/" ++
        testInfo.Id ++ "/" ++ Base "../../test.png" ∧
    Base "../../test.png" = "test.png" ∧
    testInfo.PreviewPath
      = "teams/noteam/channels/c1/users/user1/abcdefghijklmnopqrstuvwxyz/test_preview.jpg" :=
  have hok : DoUploadFile testUploadEnv "noteam" "c1" "user1" "../../test.png"
      [137, 80, 78, 71] = .ok testInfo := by decide
  have hw := upload_paths testUploadEnv "noteam" "c1" "user1" "../../test.png"
    [137, 80, 78, 71] testInfo
    (by
      intro name info0 h
      simp only [testUploadEnv, Option.some.injEq] at h
      subst h
      exact ⟨rfl, rfl⟩)
    hok
  ⟨hok, hw.2.2.1, by decide, by decide⟩

/-! ## Public links -/

theorem bytesOfWord_lt (w : Nat) : ∀ b ∈ bytesOfWord w, b < 256 := by
  intro b hb
  unfold bytesOfWord at hb
  simp only [List.mem_cons, List.mem_singleton, List.not_mem_nil, or_false] at hb
  rcases hb with rfl | rfl | rfl | rfl <;> exact Nat.mod_lt _ (by decide)

/-- The digest has 32 bytes. -/
theorem sha256_length (message : List Nat) : (sha256 message).length = 32 := by
  simp [sha256, bytesOfWord]

theorem sha256_lt (message : List Nat) : ∀ b ∈ sha256 message, b < 256 := by
  intro b hb
  unfold sha256 at hb
  simp only [List.mem_append] at hb
  rcases hb with ((((((hb | hb) | hb) | hb) | hb) | hb) | hb) | hb <;>
    exact bytesOfWord_lt _ b hb

theorem base64URLChar_mem (n : Nat) (hn : n < 64) : base64URLChar n ∈ base64URLAlphabet := by
  unfold base64URLChar
  have hlen : base64URLAlphabet.length = 64 := by decide
  rw [List.getD_eq_getElem _ _ (by rw [hlen]; exact hn)]
  exact List.getElem_mem _

/-- The encoding uses the characters of the URL-safe alphabet only. -/
theorem encodeRawURL_alphabet :
    ∀ (n : Nat) (bytes : List Nat), bytes.length ≤ n → (∀ b ∈ bytes, b < 256) →
      ∀ c ∈ encodeRawURL bytes, c ∈ base64URLAlphabet := by
  intro n
  induction n using Nat.strong_induction_on with
  | _ n ih =>
    intro bytes hlen hlt c hc
    match bytes, hlen, hlt, hc with
    | [], _, _, hc => exact absurd hc (List.not_mem_nil c)
    | [b0], _, hlt, hc =>
      have h0 := hlt b0 (by simp)
      simp only [encodeRawURL, List.mem_cons, List.mem_singleton, List.not_mem_nil,
        or_false] at hc
      rcases hc with rfl | rfl <;> exact base64URLChar_mem _ (by omega)
    | [b0, b1], _, hlt, hc =>
      have h0 := hlt b0 (by simp)
      have h1 := hlt b1 (by simp)
      simp only [encodeRawURL, List.mem_cons, List.mem_singleton, List.not_mem_nil,
        or_false] at hc
      rcases hc with rfl | rfl | rfl <;> exact base64URLChar_mem _ (by omega)
    | b0 :: b1 :: b2 :: rest, hlen, hlt, hc =>
      have h0 := hlt b0 (by simp)
      have h1 := hlt b1 (by simp)
      have h2 := hlt b2 (by simp)
      simp only [encodeRawURL, List.mem_cons] at hc
      rcases hc with rfl | rfl | rfl | rfl | hc
      · exact base64URLChar_mem _ (by omega)
      · exact base64URLChar_mem _ (by omega)
      · exact base64URLChar_mem _ (by omega)
      · exact base64URLChar_mem _ (by omega)
      · simp only [List.length_cons] at hlen
        exact ih rest.length (by omega) rest (Nat.le_refl _)
          (fun b hb => hlt b (by simp [hb])) c hc

/-- The length of the encoding: four characters for three bytes, rounded up. -/
theorem encodeRawURL_length :
    ∀ (n : Nat) (bytes : List Nat), bytes.length ≤ n →
      (encodeRawURL bytes).length = (4 * bytes.length + 2) / 3 := by
  intro n
  induction n using Nat.strong_induction_on with
  | _ n ih =>
    intro bytes hlen
    match bytes, hlen with
    | [], _ => simp [encodeRawURL]
    | [b0], _ => simp [encodeRawURL]
    | [b0, b1], _ => simp [encodeRawURL]
    | b0 :: b1 :: b2 :: rest, hlen =>
      simp only [List.length_cons] at hlen
      simp only [encodeRawURL, List.length_cons]
      rw [ih rest.length (by omega) rest (Nat.le_refl _)]
      omega

/-- The hash of a public link is 43 characters of the URL-safe alphabet. -/
theorem publicLinkHash_shape (fileId salt : String) :
    (GeneratePublicLinkHash fileId salt).data.length = 43 ∧
    GeneratePublicLinkHash fileId salt ≠ "" ∧
    (∀ c ∈ (GeneratePublicLinkHash fileId salt).data, c ∈ base64URLAlphabet) := by
  have hlen : (GeneratePublicLinkHash fileId salt).data.length = 43 := by
    show (encodeRawURL _).length = 43
    rw [encodeRawURL_length _ _ (Nat.le_refl _), sha256_length]
  refine ⟨hlen, ?_, ?_⟩
  · intro hempty
    rw [hempty] at hlen
    exact absurd hlen (by decide)
  · intro c hc
    exact encodeRawURL_alphabet _ _ (Nat.le_refl _) (sha256_lt _) c hc

/-- The digest of `"abc"`, the first test vector of FIPS 180-4
(`ba7816bf 8f01cfea ... f20015ad`). -/
theorem sha256_test_vector :
    sha256 (bytesOfString "abc")
      = [186, 120, 22, 191, 143, 1, 207, 234, 65, 65, 64, 222, 93, 174, 34, 35, 176, 3, 97, 163,
         150, 23, 122, 156, 180, 16, 255, 97, 242, 0, 21, 173] := by
  decide

/-- The hash in the public link of the file of the tests, under the salt `"salt"`. -/
theorem publicLinkHash_test :
    GeneratePublicLinkHash testInfo.Id "salt"
      = "D1-D452Q0OYJbkHXwk-6YdE9lWbP1RZA16JiT1co-dE" ∧
    GeneratePublicLink "salt" "http://localhost:8065" testInfo
      = "http://localhost:8065/files/abcdefghijklmnopqrstuvwxyz/public?h=D1-D452Q0OYJbkHXwk-6YdE9lWbP1RZA16JiT1co-dE" := by
  refine ⟨by decide, by decide⟩

/-- C24. Public file links: the link built by `GeneratePublicLink` ends in `?h=` and the
hash of the file id under the salt, 43 characters of the URL-safe alphabet.  For a
request that passes `RequireFileId` and whose file info is found, `getPublicFile` goes
on to serve the file exactly when public links are enabled and `h` is not empty and
equal to `GeneratePublicLinkHash(info.Id, salt)` for the current salt; with public links
disabled the answer is 501, and with them enabled and `h` empty or different it is 400;
so the hash of a link generated under the current salt is accepted, and a request
without a hash is not. -/
theorem public_link_gate (env : PublicFileEnv) (siteURL fileId : String) (info : FileInfo)
    (hparam : env.requireFileIdFails fileId = false)
    (hinfo : env.fileInfoStore fileId = some info) :
    GeneratePublicLink env.PublicLinkSalt siteURL info
      = siteURL ++ "/files/" ++ info.Id ++ "/public?h=" ++
        GeneratePublicLinkHash info.Id env.PublicLinkSalt ∧
    ((GeneratePublicLinkHash info.Id env.PublicLinkSalt).data.length = 43 ∧
      ∀ c ∈ (GeneratePublicLinkHash info.Id env.PublicLinkSalt).data,
        c ∈ base64URLAlphabet) ∧
    (∀ h, (getPublicFile env fileId h).served = true ↔
      (env.EnablePublicLink = true ∧ h ≠ "" ∧
        h = GeneratePublicLinkHash info.Id env.PublicLinkSalt)) ∧
    (∀ h, env.EnablePublicLink = false →
      getPublicFile env fileId h
        = .appError "api.file.get_public_link.disabled.app_error" 501) ∧
    (∀ h, env.EnablePublicLink = true →
      (h = "" ∨ h ≠ GeneratePublicLinkHash info.Id env.PublicLinkSalt) →
      getPublicFile env fileId h
        = .appError "api.file.get_file.public_invalid.app_error" 400) ∧
    (env.EnablePublicLink = true →
      (getPublicFile env fileId
        (GeneratePublicLinkHash info.Id env.PublicLinkSalt)).served = true) ∧
    (getPublicFile env fileId "").served = false := by
  have hshape := publicLinkHash_shape info.Id env.PublicLinkSalt
  have hdis : ∀ h, env.EnablePublicLink = false →
      getPublicFile env fileId h
        = .appError "api.file.get_public_link.disabled.app_error" 501 := by
    intro h hoff
    unfold getPublicFile
    rw [hparam, hoff]
    rfl
  have hbad : ∀ h, env.EnablePublicLink = true →
      (h = "" ∨ h ≠ GeneratePublicLinkHash info.Id env.PublicLinkSalt) →
      getPublicFile env fileId h
        = .appError "api.file.get_file.public_invalid.app_error" 400 := by
    intro h hon hh
    unfold getPublicFile GetFileInfo
    rw [hparam, hon, hinfo]
    simp only [Bool.false_eq_true, if_false, Bool.not_true]
    by_cases he : h = ""
    · rw [if_pos he]
    · rw [if_neg he]
      rcases hh with h1 | h1
      · exact absurd h1 he
      · rw [if_pos h1]
  have hgood : ∀ h, env.EnablePublicLink = true → h ≠ "" →
      h = GeneratePublicLinkHash info.Id env.PublicLinkSalt →
      (getPublicFile env fileId h).served = true := by
    intro h hon hne heq
    unfold getPublicFile GetFileInfo
    rw [hparam, hon, hinfo]
    simp only [Bool.false_eq_true, if_false, Bool.not_true]
    rw [if_neg hne, if_neg (fun hc => hc heq)]
    cases env.ReadFile info.Path <;> rfl
  have hiff : ∀ h, (getPublicFile env fileId h).served = true ↔
      (env.EnablePublicLink = true ∧ h ≠ "" ∧
        h = GeneratePublicLinkHash info.Id env.PublicLinkSalt) := by
    intro h
    constructor
    · intro hs
      by_cases hon : env.EnablePublicLink = true
      · by_cases he : h = ""
        · rw [hbad h hon (Or.inl he)] at hs; cases hs
        · by_cases heq : h = GeneratePublicLinkHash info.Id env.PublicLinkSalt
          · exact ⟨hon, he, heq⟩
          · rw [hbad h hon (Or.inr heq)] at hs; cases hs
      · rw [hdis h (by simpa using hon)] at hs; cases hs
    · intro ⟨hon, hne, heq⟩
      exact hgood h hon hne heq
  refine ⟨rfl, ⟨hshape.1, hshape.2.2⟩, hiff, hdis, hbad, ?_, ?_⟩
  · intro hon
    exact hgood _ hon hshape.2.1 rfl
  · cases hs : (getPublicFile env fileId "").served with
    | false => rfl
    | true => exact absurd ((hiff "").1 hs).2.1 (fun h => h rfl)

/-- C24 (witness). On the server of the test the stored file is served for the hash of
its link, and the request without a hash gets 400. -/
theorem public_link_gate_witness :
    testPublicEnv.requireFileIdFails testInfo.Id = false ∧
    testPublicEnv.fileInfoStore testInfo.Id = some testInfo ∧
    (getPublicFile testPublicEnv testInfo.Id
      (GeneratePublicLinkHash testInfo.Id testPublicEnv.PublicLinkSalt)).served = true ∧
    getPublicFile testPublicEnv testInfo.Id ""
      = .appError "api.file.get_file.public_invalid.app_error" 400 :=
  have hw := public_link_gate testPublicEnv "http://localhost:8065" testInfo.Id testInfo
    (by decide) (by decide)
  ⟨by decide, by decide, hw.2.2.2.2.2.1 rfl, hw.2.2.2.2.1 "" rfl (Or.inl rfl)⟩

end Files
